import Mathlib

/-!
# Pide-Shop: a shallow embedding of `pideShop.c`

The server keeps its orders, stage queues and counters in global variables; here they are
the fields of `Shop`, and every C function becomes a function on `Shop`.

* An `Order *` is the index of the order in `orders`; `NULL` is `none`.
* Every code section of `manager` and `cook_routine` executed under `order_mutex` is one
  function (one atomic step). The fill loop of `delivery_routine` gives the mutex up after a
  failed send (line 282) and goes on without it: `fill_bag` is the effect of the loop when no
  other thread runs in between, and `fill_statement` executes it statement by statement next
  to other couriers, with the mutex as part of the state. The two condition variables carry no
  data and are not represented.
* `send` is an action of the environment: its outcome (`true` for success, `false` for the
  return value `-1`) is an argument of the function that performs the call.
* Everything the program does to the outside world (log lines, sends, closes, prints) is
  appended to `Shop.trace`; the entries `call_cancel` and `call_notify` mark the entry of
  `cancel_order` and of `notify_clients_all_orders_completed`.
* `oven_sem` is the value of the counting semaphore.
* The delays (`simulate_computation_delay_prep`, `simulate_computation_delay_cook`, `usleep`,
  `sleep`) only take time and are left out.
-/

namespace PideShop

/-! ## Constants (lines 18-20) -/

def MAX_ORDERS : Nat := 1000
def MAX_OVEN_SIZE : Nat := 6
def MAX_DELIVERY_BAG : Nat := 3

/-- Value of `SIGINT` on Linux. -/
def SIGINT : Int := 2

/-! ## Data model (lines 23-71) -/

/-- The struct `Order` (lines 23-30). -/
structure Order where
  order_id : Int
  x : Int
  y : Int
  order_time : Int
  status : Int
  client_socket : Int
  canceled_flag : Int
deriving DecidableEq, Repr

/-- The struct `Cook` (lines 33-38), without the thread handle. -/
structure Cook where
  id : Int
  order : Option Nat
  prepared_orders : Int
deriving DecidableEq, Repr

/-- The struct `DeliveryPerson` (lines 41-48), without the thread handle. -/
structure DeliveryPerson where
  id : Int
  speed : Int
  bag : Nat → Option Nat
  bag_count : Nat
  delivered_orders : Int

/-- Observable actions of the server. -/
inductive Event where
  /-- The line written by `log_order_status` (line 389). -/
  | log (order_id x y status thread_id order_time : Int)
  /-- The extra line `log_order_status` writes for the statuses 2 and 3 (lines 367, 372). -/
  | log_aparatus (order_id : Int)
  /-- A call of `send(socket, &status, ...)` with the code sent and whether it succeeded. -/
  | send (socket code : Int) (ok : Bool)
  /-- A call of `close(socket)`. -/
  | close (socket : Int)
  /-- Entry of `cancel_order` for the order at this index. -/
  | call_cancel (order : Nat)
  /-- Entry of `notify_clients_all_orders_completed`. -/
  | call_notify
  /-- A call of `sem_wait(&oven_sem)` that returned. -/
  | sem_wait
  /-- A call of `sem_post(&oven_sem)`. -/
  | sem_post
  /-- The `printf` of line 349. -/
  | print_max_orders
  /-- The `printf` of line 329. -/
  | print_recv_failed
  /-- The `printf` of line 515. -/
  | print_cook (id count : Int)
  /-- The `printf` of line 527. -/
  | print_delivery_person (id count : Int)
  /-- The `printf` of line 96. -/
  | print_rip
  /-- The `printf` of lines 213, 227, 243, 278, 301. -/
  | print_canceled (order_id : Int)
deriving DecidableEq, Repr

/-- The global variables of the server (lines 56-69) and the trace of its actions. -/
structure Shop where
  orders : Nat → Order
  prep_queue : Nat → Option Nat
  delivery_queue : Nat → Option Nat
  order_count : Nat
  prep_queue_start : Nat
  prep_queue_end : Nat
  delivery_queue_start : Nat
  delivery_queue_end : Nat
  delivered_count : Nat
  oven_sem : Nat
  trace : List Event

/-- A zero-initialised `Order`, as in the static array `orders`. -/
def Order.zero : Order := ⟨0, 0, 0, 0, 0, 0, 0⟩

/-- The state when `main` reaches its accept loop: zeroed globals, `oven_sem` initialised
to `MAX_OVEN_SIZE` (line 134). -/
def Shop.init : Shop :=
  { orders := fun _ => Order.zero
    prep_queue := fun _ => none
    delivery_queue := fun _ => none
    order_count := 0
    prep_queue_start := 0
    prep_queue_end := 0
    delivery_queue_start := 0
    delivery_queue_end := 0
    delivered_count := 0
    oven_sem := MAX_OVEN_SIZE
    trace := [] }

/-- Assignment through an `Order *`: the order at index `i` becomes `f` of itself. -/
def Shop.modify_order (s : Shop) (i : Nat) (f : Order → Order) : Shop :=
  { s with orders := fun k => if k = i then f (s.orders k) else s.orders k }

/-- Appends one action to the trace. -/
def Shop.emit (s : Shop) (e : Event) : Shop :=
  { s with trace := s.trace ++ [e] }

/-! ## Logging (lines 357-391) -/

/-- The lines `log_order_status(order, status, thread_id)` writes: for the statuses 2 and 3
the extra line of the `switch`, then the record of line 389. -/
def log_lines (o : Order) (status thread_id : Int) : List Event :=
  (if status = 2 ∨ status = 3 then [Event.log_aparatus o.order_id] else [])
    ++ [Event.log o.order_id o.x o.y status thread_id o.order_time]

/-- The function `log_order_status(&orders[i], status, thread_id)`. -/
def log_order_status (s : Shop) (i : Nat) (status thread_id : Int) : Shop :=
  { s with trace := s.trace ++ log_lines (s.orders i) status thread_id }

/-! ## Stage queues (lines 400-439) -/

/-- The function `enqueue_preparation(&orders[order])`: store at the tail, advance the tail,
wrap it to 0 when it reaches `MAX_ORDERS`. -/
def enqueue_preparation (s : Shop) (order : Nat) : Shop :=
  { s with
    prep_queue := fun k => if k = s.prep_queue_end then some order else s.prep_queue k
    prep_queue_end := if s.prep_queue_end + 1 = MAX_ORDERS then 0 else s.prep_queue_end + 1 }

/-- The function `dequeue_preparation()`: the returned pointer and the new state. -/
def dequeue_preparation (s : Shop) : Option Nat × Shop :=
  if s.prep_queue_start = s.prep_queue_end then (none, s)
  else
    (s.prep_queue s.prep_queue_start,
      { s with
        prep_queue_start :=
          if s.prep_queue_start + 1 = MAX_ORDERS then 0 else s.prep_queue_start + 1 })

/-- The function `enqueue_delivery(&orders[order])`. -/
def enqueue_delivery (s : Shop) (order : Nat) : Shop :=
  { s with
    delivery_queue := fun k => if k = s.delivery_queue_end then some order else s.delivery_queue k
    delivery_queue_end :=
      if s.delivery_queue_end + 1 = MAX_ORDERS then 0 else s.delivery_queue_end + 1 }

/-- The function `dequeue_delivery()`: the returned pointer and the new state. -/
def dequeue_delivery (s : Shop) : Option Nat × Shop :=
  if s.delivery_queue_start = s.delivery_queue_end then (none, s)
  else
    (s.delivery_queue s.delivery_queue_start,
      { s with
        delivery_queue_start :=
          if s.delivery_queue_start + 1 = MAX_ORDERS then 0 else s.delivery_queue_start + 1 })

/-! ## Status emission and cancellation (lines 495-502) -/

/-- The call `send(order->client_socket, &order->status, sizeof(int), 0)` with outcome `ok`. -/
def send_status (s : Shop) (i : Nat) (ok : Bool) : Shop :=
  s.emit (Event.send (s.orders i).client_socket (s.orders i).status ok)

/-- The function `cancel_order(&orders[i])`; `ok` is the outcome of its `send`. -/
def cancel_order (s : Shop) (i : Nat) (ok : Bool) : Shop :=
  let s0 := s.emit (Event.call_cancel i)
  let s1 := s0.modify_order i (fun o => { o with status := 6 })
  let s2 := log_order_status s1 i 6 (-1)
  let s3 := send_status s2 i ok
  if ok then s3
  else
    let s4 := s3.emit (Event.close (s3.orders i).client_socket)
    s4.modify_order i (fun o => { o with client_socket := -1 })

/-- The block `printf(...); order->canceled_flag = 1; cancel_order(order);` (lines 213-215). -/
def flag_and_cancel (s : Shop) (i : Nat) (cok : Bool) : Shop :=
  let s1 := s.emit (Event.print_canceled (s.orders i).order_id)
  let s2 := s1.modify_order i (fun o => { o with canceled_flag := 1 })
  cancel_order s2 i cok

/-- The block `if (order->canceled_flag == 0) { printf(...); order->canceled_flag = 1;
cancel_order(order); }` (lines 226-230, 242-246, 277-281, 300-304). -/
def cancel_if_not_canceled (s : Shop) (i : Nat) (cok : Bool) : Shop :=
  if (s.orders i).canceled_flag = 0 then flag_and_cancel s i cok else s

/-- The three statements `log_order_status(order, st, id); order->status = st; send(...)`
that open every stage. -/
def announce (s : Shop) (i : Nat) (st thread_id : Int) (ok : Bool) : Shop :=
  let s1 := log_order_status s i st thread_id
  let s2 := s1.modify_order i (fun o => { o with status := st })
  send_status s2 i ok

/-! ## Order intake (lines 326-354) -/

/-- The function `manager(socket)`. `rx` and `ry` are the results of the two `recv` calls
(`none` when `recv` returns `<= 0`), `now` is the value of `time(NULL)`. -/
def manager (s : Shop) (socket : Int) (rx ry : Option Int) (now : Int) : Shop :=
  match rx, ry with
  | some x, some y =>
    if s.order_count < MAX_ORDERS then
      let s1 := s.modify_order s.order_count (fun _ =>
        { order_id := (s.order_count : Int) + 1
          x := x
          y := y
          order_time := now
          status := 0
          client_socket := socket
          canceled_flag := 0 })
      let s2 := log_order_status s1 s.order_count 0 (-1)
      let s3 := enqueue_preparation s2 s.order_count
      { s3 with order_count := s3.order_count + 1 }
    else
      (s.emit Event.print_max_orders).emit (Event.close socket)
  | _, _ => (s.emit Event.print_recv_failed).emit (Event.close socket)

/-! ## Cooks (lines 198-260) -/

/-- Program points of a cook thread between two of its atomic sections. -/
inductive CookPc where
  /-- Line 202: about to lock and take an order from the preparation queue. -/
  | take
  /-- Line 221: the order is announced as Preparing; about to call `sem_wait`. -/
  | wait_oven (order : Nat)
  /-- Line 222: holds an oven unit; about to announce Cooking. -/
  | cook (order : Nat)
  /-- Line 238: holds an oven unit; about to announce ReadyForDelivery. -/
  | ready (order : Nat)
  /-- Lines 232, 248, 256: about to call `sem_post` and restart the loop. -/
  | post
deriving DecidableEq, Repr

/-- The call `sem_wait(&oven_sem)`: `none` while the counter is 0 (the caller blocks). -/
def sem_wait (s : Shop) : Option Shop :=
  if 0 < s.oven_sem then some ({ s with oven_sem := s.oven_sem - 1 }.emit Event.sem_wait)
  else none

/-- The call `sem_post(&oven_sem)`. -/
def sem_post (s : Shop) : Shop :=
  { s with oven_sem := s.oven_sem + 1 }.emit Event.sem_post

/-- Lines 202-219: take an order and announce Preparing. When `dequeue_preparation` returns
`NULL` the cook waits on `order_cond` and dequeues again, that is, it stays at `take`. -/
def cook_take (s : Shop) (c : Cook) (ok cok : Bool) : Shop × CookPc :=
  match dequeue_preparation s with
  | (none, s1) => (s1, CookPc.take)
  | (some o, s1) =>
    let s2 := announce s1 o 1 c.id ok
    if ok then (s2, CookPc.wait_oven o) else (flag_and_cancel s2 o cok, CookPc.take)

/-- Lines 222-235: announce Cooking. -/
def cook_cook (s : Shop) (c : Cook) (o : Nat) (ok cok : Bool) : Shop × CookPc :=
  let s1 := announce s o 2 c.id ok
  if ok then (s1, CookPc.ready o) else (cancel_if_not_canceled s1 o cok, CookPc.post)

/-- Lines 238-254: announce ReadyForDelivery and hand the order to the delivery queue. -/
def cook_ready (s : Shop) (c : Cook) (o : Nat) (ok cok : Bool) : Shop × Cook × CookPc :=
  let s1 := announce s o 3 c.id ok
  if ok then
    (enqueue_delivery s1 o, { c with prepared_orders := c.prepared_orders + 1 }, CookPc.post)
  else (cancel_if_not_canceled s1 o cok, c, CookPc.post)

/-- One atomic step of a cook at program point `pc`; `none` when the cook is blocked in
`sem_wait`. `ok` is the outcome of the status send of the section, `cok` the outcome of the
send inside `cancel_order`. -/
def cook_step (s : Shop) (c : Cook) (pc : CookPc) (ok cok : Bool) :
    Option (Shop × Cook × CookPc) :=
  match pc with
  | CookPc.take => let r := cook_take s c ok cok; some (r.1, c, r.2)
  | CookPc.wait_oven o => (sem_wait s).map (fun s1 => (s1, c, CookPc.cook o))
  | CookPc.cook o => let r := cook_cook s c o ok cok; some (r.1, c, r.2)
  | CookPc.ready o => some (cook_ready s c o ok cok)
  | CookPc.post => some (sem_post s, c, CookPc.take)

/-- Runs a cook from `pc` until it is back at `take` (at most `fuel` steps), with the send
outcomes `b1`, `b2`, `b3` for the statuses 1, 2, 3 and `bc` for `cancel_order`. `none` when the
cook blocks in `sem_wait` or the fuel runs out. -/
def cook_run (b1 b2 b3 bc : Bool) : Nat → Shop → Cook → CookPc → Option (Shop × Cook)
  | 0, _, _, _ => none
  | fuel + 1, s, c, pc =>
    let ok := match pc with
      | CookPc.take => b1
      | CookPc.cook _ => b2
      | CookPc.ready _ => b3
      | _ => true
    match cook_step s c pc ok bc with
    | none => none
    | some (s1, c1, CookPc.take) => some (s1, c1)
    | some (s1, c1, pc1) => cook_run b1 b2 b3 bc fuel s1 c1 pc1

/-- One pass through the body of the `while (1)` of `cook_routine`: from line 202 until the
next `continue` or the end of the body. -/
def cook_iteration (s : Shop) (c : Cook) (b1 b2 b3 bc : Bool) : Option (Shop × Cook) :=
  cook_run b1 b2 b3 bc 5 s c CookPc.take

/-! ## Couriers (lines 263-323, 486-492) -/

/-- Ways in which the model of `delivery_routine` can fail to produce a state. -/
inductive Fault where
  /-- A write to `bag[k]` with `k >= MAX_DELIVERY_BAG`. -/
  | bag_overflow
  /-- A dereference of a `NULL` entry of the bag. -/
  | null_order
  /-- The loop did not finish within the given number of iterations. -/
  | out_of_fuel
deriving DecidableEq, Repr

/-- The function `notify_clients_all_orders_completed()`. -/
def notify_clients_all_orders_completed (s : Shop) : Shop :=
  (List.range s.order_count).foldl
    (fun acc i =>
      if (acc.orders i).client_socket ≠ -1 then acc.emit (Event.close (acc.orders i).client_socket)
      else acc)
    (s.emit Event.call_notify)

/-- The statement `delivery_person->bag[delivery_person->bag_count++] = order` (line 273). -/
def bag_put (d : DeliveryPerson) (order : Nat) : Except Fault DeliveryPerson :=
  if d.bag_count < MAX_DELIVERY_BAG then
    Except.ok { d with
      bag := fun k => if k = d.bag_count then some order else d.bag k
      bag_count := d.bag_count + 1 }
  else Except.error Fault.bag_overflow

/-- The fill loop of lines 270-286 executed on its own, at most `fuel` evaluations of its
condition. The `k`-th iteration uses `(env k).1` as outcome of the status send and `(env k).2`
as outcome of the send inside `cancel_order`. The mutex taken at line 267 is released at line
282 after a failed send and the loop continues without it (line 283), so in the running server
other threads can act between and inside the following iterations; this function is the
effect of the loop when none does (see `fill_statement` for the interleaved execution). -/
def fill_bag (env : Nat → Bool × Bool) :
    Nat → Shop → DeliveryPerson → Except Fault (Shop × DeliveryPerson)
  | 0, _, _ => Except.error Fault.out_of_fuel
  | fuel + 1, s, d =>
    if d.bag_count < MAX_DELIVERY_BAG ∧ s.delivery_queue_start ≠ s.delivery_queue_end then
      match dequeue_delivery s with
      | (none, s1) => fill_bag (fun k => env (k + 1)) fuel s1 d
      | (some o, s1) =>
        match bag_put d o with
        | Except.error e => Except.error e
        | Except.ok d1 =>
          let s2 := announce s1 o 4 d.id (env 0).1
          let s3 := if (env 0).1 then s2 else cancel_if_not_canceled s2 o (env 0).2
          fill_bag (fun k => env (k + 1)) fuel s3 d1
    else Except.ok (s, d)

/-- The body of the trip loop for the order `o` (lines 296-313). The travel time computed
and slept before the section (lines 293-295) does not touch the state. -/
def deliver_order (s : Shop) (d : DeliveryPerson) (o : Nat) (ok cok : Bool) :
    Shop × DeliveryPerson :=
  let s1 := announce s o 5 d.id ok
  if ok then
    let s2 := { s1 with delivered_count := s1.delivered_count + 1 }
    let d2 := { d with delivered_orders := d.delivered_orders + 1 }
    let s3 :=
      if s2.delivered_count = s2.order_count then notify_clients_all_orders_completed s2 else s2
    (s3, d2)
  else (cancel_if_not_canceled s1 o cok, d)

/-- The trip loop of lines 291-314 from bag position `i`, `n` positions to go. Position `k`
uses the outcomes `env k`. -/
def trip_from (env : Nat → Bool × Bool) :
    Nat → Nat → Shop → DeliveryPerson → Except Fault (Shop × DeliveryPerson)
  | 0, _, s, d => Except.ok (s, d)
  | n + 1, i, s, d =>
    match d.bag i with
    | none => Except.error Fault.null_order
    | some o =>
      let r := deliver_order s d o (env i).1 (env i).2
      trip_from env n (i + 1) r.1 r.2

/-- One pass through the body of the `while (1)` of `delivery_routine` (lines 267-319). -/
def delivery_iteration (s : Shop) (d : DeliveryPerson) (fenv tenv : Nat → Bool × Bool) :
    Except Fault (Shop × DeliveryPerson) :=
  match fill_bag fenv MAX_ORDERS s d with
  | Except.error e => Except.error e
  | Except.ok (s1, d1) =>
    if 0 < d1.bag_count then
      match trip_from tenv d1.bag_count 0 s1 d1 with
      | Except.error e => Except.error e
      | Except.ok (s2, d2) => Except.ok (s2, { d2 with bag_count := 0 })
    else Except.ok (s1, d1)

/-! ## Shutdown (lines 93-108, 505-529) -/

/-- Either loop of `print_most_efficient_workers` over the pairs `(id, count)` of a pool:
the final values of the maximum and of the worker id. -/
def most_efficient (pool : List (Int × Int)) : Int × Int :=
  pool.foldl (fun acc w => if w.2 > acc.1 then (w.2, w.1) else acc) (0, -1)

/-- The function `print_most_efficient_workers()`. -/
def print_most_efficient_workers (s : Shop) (cooks : List Cook)
    (delivery_persons : List DeliveryPerson) : Shop :=
  let rc := most_efficient (cooks.map (fun c => (c.id, c.prepared_orders)))
  let s1 := if rc.2 ≠ -1 then s.emit (Event.print_cook rc.2 rc.1) else s
  let rd := most_efficient (delivery_persons.map (fun d => (d.id, d.delivered_orders)))
  if rd.2 ≠ -1 then s1.emit (Event.print_delivery_person rd.2 rd.1) else s1

/-- The body of the loop of lines 97-102 for the index `i`. -/
def cancel_round (s : Shop) (i : Nat) : Shop :=
  if (s.orders i).status ≠ 5 then
    log_order_status (s.modify_order i (fun o => { o with status := 6 })) i 6 (-1)
  else s

/-- The loop of lines 97-102. -/
def cancel_all (s : Shop) : Shop :=
  (List.range s.order_count).foldl cancel_round s

/-- The function `signal_handler(signal)` up to its call of `exit`. -/
def signal_handler (s : Shop) (signal : Int) (cooks : List Cook)
    (delivery_persons : List DeliveryPerson) : Shop :=
  if signal = SIGINT then
    print_most_efficient_workers (cancel_all (s.emit Event.print_rip)) cooks delivery_persons
  else s

/-! ## The travel time (lines 394-397) -/

/-- Rounding of a rational number to the nearest integer, ties to the even one. -/
def round_half_even (r : ℚ) : ℤ :=
  if r - ⌊r⌋ < 1 / 2 then ⌊r⌋
  else if 1 / 2 < r - ⌊r⌋ then ⌊r⌋ + 1
  else if ⌊r⌋ % 2 = 0 then ⌊r⌋
  else ⌊r⌋ + 1

/-- The value of type `double` (IEEE 754 binary64, 53 significant bits) nearest to `q`, ties
to the even significand: the result of a correctly rounded arithmetic operation whose exact
result is `q`. Exponent range is not limited; every value met in `calculate_delivery_time`
is 0 or lies between `2 ^ (-31)` and `2 ^ 22`, well inside the normal range. -/
def to_double (q : ℚ) : ℚ :=
  (round_half_even (q / 2 ^ (Int.log 2 |q| - 52)) : ℚ) * 2 ^ (Int.log 2 |q| - 52)

/-- The integer nearest to the square root of `k`. The root is never half-way between two
integers, so no tie rule is needed: it lies above `m + 1/2` exactly when `m * m + m < k`. -/
def nearest_sqrt (k : ℕ) : ℕ :=
  if Nat.sqrt k * Nat.sqrt k + Nat.sqrt k < k then Nat.sqrt k + 1 else Nat.sqrt k

/-- The result of `sqrt` on the `double` `n`, for a natural number `n < 4 ^ 53`: the `double`
nearest to the square root of `n`. With `t = Nat.log 4 n` the root lies in
`[2 ^ t, 2 ^ (t + 1))`, so its 53-bit significand is the integer nearest to the root of
`n * 4 ^ (52 - t)`, in units of `2 ^ (t - 52)`. -/
def double_sqrt (n : ℕ) : ℚ :=
  (nearest_sqrt (n * 4 ^ (52 - Nat.log 4 n)) : ℚ) * 2 ^ ((Nat.log 4 n : ℤ) - 52)

/-- The conversion `(int)` of a `double`: truncation toward zero. -/
def truncate (q : ℚ) : ℤ :=
  if 0 ≤ q then ⌊q⌋ else ⌈q⌉

/-- The function `calculate_delivery_time(x, y, speed)`. The result is `none` where the C
program has no defined result: `x * x + y * y` overflows `int`, or `speed` is 0. -/
def calculate_delivery_time (x y speed : Int) : Option Int :=
  if x * x + y * y < 2 ^ 31 ∧ speed ≠ 0 then
    let distance := double_sqrt (x * x + y * y).toNat
    some (truncate (to_double (to_double (distance / speed) * 60)))
  else none

/-! ## Runs of intakes and deliveries -/

/-- A step of a run in which every send succeeds: either `manager` handles a connection, or
some courier executes the body of its trip loop for the order `o` of its bag. -/
inductive Move where
  | intake (socket : Int) (rx ry : Option Int) (now : Int)
  | deliver (d : DeliveryPerson) (o : Nat)

/-- The effect of one step on the globals. -/
def Move.apply (s : Shop) : Move → Shop
  | Move.intake socket rx ry now => manager s socket rx ry now
  | Move.deliver d o => (deliver_order s d o true true).1

/-- The state after the steps `ms`, in order. -/
def play (s : Shop) (ms : List Move) : Shop :=
  ms.foldl Move.apply s

/-- Whether the step is a delivery. -/
def Move.is_delivery : Move → Bool
  | Move.deliver _ _ => true
  | Move.intake _ _ _ _ => false

/-- Whether the steps can happen from `s`: a delivery needs a registered order that is not yet
delivered. -/
def legal : Shop → List Move → Bool
  | _, [] => true
  | s, m :: ms =>
    (!m.is_delivery || decide (s.delivered_count < s.order_count)) && legal (m.apply s) ms

/-! ## The interleaving of the cook threads -/

/-- A cook thread: its `Cook` record and its program point (with its local `order`). -/
structure CookThread where
  cook : Cook
  pc : CookPc

/-- The server together with its cook threads. -/
structure Kitchen where
  shop : Shop
  cooks : List CookThread

/-- A step of the interleaving: the accept loop calls `manager`, or the cook thread `i`
executes its next atomic section; `ok` and `cok` are the outcomes of the sends in it. -/
inductive Action where
  | intake (socket : Int) (rx ry : Option Int) (now : Int)
  | cook (i : Nat) (ok cok : Bool)

/-- The effect of one step. A cook that does not exist or is blocked in `sem_wait` leaves the
state as it is. -/
def Kitchen.step (k : Kitchen) : Action → Kitchen
  | Action.intake socket rx ry now => { k with shop := manager k.shop socket rx ry now }
  | Action.cook i ok cok =>
    match k.cooks[i]? with
    | none => k
    | some t =>
      match cook_step k.shop t.cook t.pc ok cok with
      | none => k
      | some r => { shop := r.1, cooks := k.cooks.set i ⟨r.2.1, r.2.2⟩ }

/-- The state after the steps `acts`, in order. -/
def Kitchen.run (k : Kitchen) (acts : List Action) : Kitchen :=
  acts.foldl Kitchen.step k

/-- The state in which `main` has started the cook threads of `pool`: every cook is at the
top of its loop, the store is empty and the oven semaphore holds `MAX_OVEN_SIZE`. -/
def Kitchen.init (pool : List Cook) : Kitchen :=
  { shop := Shop.init, cooks := pool.map (fun c => ⟨c, CookPc.take⟩) }

/-- Number of registered orders whose status is Cooking (2). -/
def cooking_count (s : Shop) : Nat :=
  (List.range s.order_count).countP (fun i => decide ((s.orders i).status = 2))

/-- The order a cook holds in its local variable between two sections. -/
def CookPc.held : CookPc → Option Nat
  | CookPc.wait_oven o => some o
  | CookPc.cook o => some o
  | CookPc.ready o => some o
  | _ => none

/-- Whether the cook is between a `sem_wait` and the matching `sem_post`. -/
def CookPc.holds_oven : CookPc → Bool
  | CookPc.cook _ => true
  | CookPc.ready _ => true
  | CookPc.post => true
  | _ => false

/-- Whether the cook has announced Cooking and not yet left that stage. -/
def CookPc.is_ready : CookPc → Bool
  | CookPc.ready _ => true
  | _ => false

/-- What a cook at `pc` knows about the order it holds: it is registered; before Cooking is
announced it has status 1 and flag 0, afterwards status 2. -/
def ThreadOk (s : Shop) (pc : CookPc) : Prop :=
  match pc with
  | CookPc.wait_oven o =>
    o < s.order_count ∧ (s.orders o).status = 1 ∧ (s.orders o).canceled_flag = 0
  | CookPc.cook o =>
    o < s.order_count ∧ (s.orders o).status = 1 ∧ (s.orders o).canceled_flag = 0
  | CookPc.ready o => o < s.order_count ∧ (s.orders o).status = 2
  | _ => True

/-- The waiting part of the preparation queue: when the indices differ, the slots from
`prep_queue_start` up to `order_count` point to the orders with the same index, and these
orders are as `manager` wrote them (status 0, flag 0). -/
def QueueOk (s : Shop) : Prop :=
  s.prep_queue_start ≠ s.prep_queue_end →
    s.prep_queue_start < s.order_count ∧
    ∀ j, s.prep_queue_start ≤ j → j < s.order_count →
      s.prep_queue j = some j ∧ (s.orders j).status = 0 ∧ (s.orders j).canceled_flag = 0

/-- The invariant of the interleaving of `manager` and the cooks. -/
structure KitchenInv (k : Kitchen) : Prop where
  count_le : k.shop.order_count ≤ MAX_ORDERS
  queue_end : k.shop.prep_queue_end = k.shop.order_count % MAX_ORDERS
  queue_ok : QueueOk k.shop
  thread_ok : ∀ (i : Nat) (t : CookThread), k.cooks[i]? = some t → ThreadOk k.shop t.pc
  distinct : ∀ (i j : Nat) (t u : CookThread) (o : Nat), k.cooks[i]? = some t →
    k.cooks[j]? = some u → t.pc.held = some o → u.pc.held = some o → i = j
  oven : k.shop.oven_sem + k.cooks.countP (fun t => t.pc.holds_oven) = MAX_OVEN_SIZE
  cooking : cooking_count k.shop = k.cooks.countP (fun t => t.pc.is_ready)

/-! ## Sequences of queue operations -/

/-- The calls `enqueue_preparation(&orders[o])` for the orders `os`, in order. -/
def enqueue_all_preparation (s : Shop) (os : List Nat) : Shop :=
  os.foldl enqueue_preparation s

/-- The results of `n` successive calls of `dequeue_preparation()` and the final state. -/
def dequeue_many_preparation : Nat → Shop → List (Option Nat) × Shop
  | 0, s => ([], s)
  | n + 1, s =>
    ((dequeue_preparation s).1 :: (dequeue_many_preparation n (dequeue_preparation s).2).1,
      (dequeue_many_preparation n (dequeue_preparation s).2).2)

/-- The calls `enqueue_delivery(&orders[o])` for the orders `os`, in order. -/
def enqueue_all_delivery (s : Shop) (os : List Nat) : Shop :=
  os.foldl enqueue_delivery s

/-- The results of `n` successive calls of `dequeue_delivery()` and the final state. -/
def dequeue_many_delivery : Nat → Shop → List (Option Nat) × Shop
  | 0, s => ([], s)
  | n + 1, s =>
    ((dequeue_delivery s).1 :: (dequeue_many_delivery n (dequeue_delivery s).2).1,
      (dequeue_many_delivery n (dequeue_delivery s).2).2)

/-- The three variables of one stage queue: the array and its two indices. Both stage queues
of the server are instances of it (`prep_ring`, `delivery_ring`). -/
structure Ring where
  buf : Nat → Option Nat
  first : Nat
  last : Nat

/-- The enqueue function of lines 400-403 and 428-431 on the variables of one queue. -/
def Ring.enqueue (r : Ring) (order : Nat) : Ring :=
  { buf := fun k => if k = r.last then some order else r.buf k
    first := r.first
    last := if r.last + 1 = MAX_ORDERS then 0 else r.last + 1 }

/-- The dequeue function of lines 406-411 and 434-439 on the variables of one queue. -/
def Ring.dequeue (r : Ring) : Option Nat × Ring :=
  if r.first = r.last then (none, r)
  else
    (r.buf r.first,
      { buf := r.buf
        first := if r.first + 1 = MAX_ORDERS then 0 else r.first + 1
        last := r.last })

/-- Successive enqueues on one queue. -/
def Ring.enqueue_all (r : Ring) (os : List Nat) : Ring :=
  os.foldl Ring.enqueue r

/-- Successive dequeues on one queue. -/
def Ring.dequeue_many : Nat → Ring → List (Option Nat) × Ring
  | 0, r => ([], r)
  | n + 1, r =>
    (r.dequeue.1 :: (Ring.dequeue_many n r.dequeue.2).1, (Ring.dequeue_many n r.dequeue.2).2)

/-- The preparation queue of the server. -/
def prep_ring (s : Shop) : Ring :=
  ⟨s.prep_queue, s.prep_queue_start, s.prep_queue_end⟩

/-- The delivery queue of the server. -/
def delivery_ring (s : Shop) : Ring :=
  ⟨s.delivery_queue, s.delivery_queue_start, s.delivery_queue_end⟩

/-! ## Observations on the trace -/

/-- Number of entries of `notify_clients_all_orders_completed` in the trace. -/
def notify_calls (s : Shop) : Nat :=
  s.trace.count Event.call_notify

/-- Number of `sem_wait` calls on `oven_sem` that returned, in the trace. -/
def oven_acquisitions (s : Shop) : Nat :=
  s.trace.count Event.sem_wait

/-- Number of `sem_post` calls on `oven_sem` in the trace. -/
def oven_releases (s : Shop) : Nat :=
  s.trace.count Event.sem_post

/-- Number of Canceled records (status 6) of `log_order_status` in a list of actions. -/
def canceled_records (tr : List Event) : Nat :=
  tr.countP (fun e => match e with
    | Event.log _ _ _ st _ _ => decide (st = 6)
    | _ => false)

/-- The Canceled record `log_order_status(&orders[i], 6, -1)` writes for the order `o`. -/
def canceled_record (o : Order) : Event :=
  Event.log o.order_id o.x o.y 6 (-1) o.order_time

/-- Indices of the registered orders whose status is not Delivered (5). -/
def undelivered (s : Shop) : List Nat :=
  (List.range s.order_count).filter (fun i => decide ((s.orders i).status ≠ 5))

/-- The distance from `delivery_queue_start` to `delivery_queue_end` around the circular
buffer: the number of orders `dequeue_delivery` can still return. It is the number of queued
orders as long as fewer than `MAX_ORDERS` are queued; with `MAX_ORDERS` queued orders the tail
has wrapped onto the head and the distance is 0. -/
def delivery_waiting (s : Shop) : Nat :=
  if s.delivery_queue_start ≤ s.delivery_queue_end then
    s.delivery_queue_end - s.delivery_queue_start
  else s.delivery_queue_end + MAX_ORDERS - s.delivery_queue_start

/-- The free places of the bag of `d` or the index distance `delivery_waiting`, whichever is
smaller. -/
def fill_amount (s : Shop) (d : DeliveryPerson) : Nat :=
  min (MAX_DELIVERY_BAG - d.bag_count) (delivery_waiting s)

/-! ## Specification vocabulary -/

/-- In the list `counts`, position `k` holds the value `m`, `m` is positive, no position
holds more than `m`, and every position before `k` holds less: `k` is the lowest index of the
maximum `m`. -/
def FirstMaximum (counts : List Int) (k : Nat) (m : Int) : Prop :=
  counts[k]? = some m ∧ 0 < m ∧
    (∀ (j : Nat) (v : Int), counts[j]? = some v → v ≤ m) ∧
    ∀ (j : Nat) (v : Int), j < k → counts[j]? = some v → v < m

/-! ## Example states -/

/-- A fresh server after one accepted intake: order 1 at (3, 4) on socket 7, at time 100. -/
def one_order : Shop := manager Shop.init 7 (some 3) (some 4) 100

/-- The cook with id 0 that has prepared nothing yet. -/
def cook0 : Cook := ⟨0, none, 0⟩

/-- The state `one_order` after a cook took the order, failed to announce Preparing and
canceled it (the send of code 6 succeeded). -/
def canceled_once : Shop := (cook_take one_order cook0 false true).1

/-- The idle courier with id 0 and speed 1 (lines 144-146). -/
def courier0 : DeliveryPerson := ⟨0, 1, fun _ => none, 0, 0⟩

/-- A pool of three cooks in which the cooks 1 and 2 share the highest count. -/
def cooks3 : List Cook := [⟨0, none, 2⟩, ⟨1, none, 5⟩, ⟨2, none, 5⟩]

/-- The state `one_order` after a cook ran the order through Preparing, Cooking and
ReadyForDelivery with every send succeeding: the order waits in the delivery queue. -/
def ready_one : Shop :=
  match cook_iteration one_order cook0 true true true true with
  | some r => r.1
  | none => one_order

/-- The state after the first order went through intake, cook and courier, then a second
order was accepted and went the same way; every send succeeded. -/
def two_rounds : Option Shop :=
  match cook_iteration one_order cook0 true true true true with
  | none => none
  | some (s1, c1) =>
    match delivery_iteration s1 courier0 (fun _ => (true, true)) (fun _ => (true, true)) with
    | Except.error _ => none
    | Except.ok (s2, d2) =>
      match cook_iteration (manager s2 8 (some 6) (some 8) 200) c1 true true true true with
      | none => none
      | some (s3, _) =>
        match delivery_iteration s3 d2 (fun _ => (true, true)) (fun _ => (true, true)) with
        | Except.error _ => none
        | Except.ok (s4, _) => some s4

/-- An idle server whose queue indices all stand at the last slot of their buffers. -/
def at_last_slot : Shop :=
  { Shop.init with
    prep_queue_start := 999
    prep_queue_end := 999
    delivery_queue_start := 999
    delivery_queue_end := 999 }

/-- The state after `n` connections were handled by `manager` on a fresh server, with no
cook running in between; connection `i` uses socket `i` and sends the coordinates (0, 0). -/
def after_intakes (n : Nat) : Shop :=
  (List.range n).foldl (fun acc i => manager acc (i : Int) (some 0) (some 0) 0) Shop.init

/-! ## Rounds of intake and cooking -/

/-- One round on a store and a cook: `manager` accepts connection `i` (socket `i`,
coordinates (0, 0), time 0), then the cook runs one iteration of `cook_routine` in which every
send succeeds, so the new order goes through Preparing, Cooking and ReadyForDelivery and is
handed to the delivery queue. -/
def cooked_round (r : Shop × Cook) (i : Nat) : Shop × Cook :=
  match cook_iteration (manager r.1 (i : Int) (some 0) (some 0) 0) r.2 true true true true with
  | some r1 => r1
  | none => r

/-- The store and the cook after `n` such rounds on a fresh server, while no courier has
looked at the delivery queue yet. -/
def after_rounds (n : Nat) : Shop × Cook :=
  (List.range n).foldl cooked_round (Shop.init, cook0)

/-! ## The fill loop statement by statement (lines 267-286, 434-439)

`fill_bag` gives the effect of the fill loop when nothing else runs in between. The loop does
not keep `order_mutex`, however: after a failed send line 282 releases it and line 283
continues the loop, so the following iterations run next to the critical sections of other
threads. Here the loop is executed one statement at a time by several courier threads, with
the mutex as part of the state. -/

/-- Program points of a courier thread in the fill loop; the local variable `order` (and the
index read by `delivery_queue_start++`) is carried by the program point. -/
inductive FillPc where
  /-- Line 267: `pthread_mutex_lock(&order_mutex)`. -/
  | lock
  /-- Line 270: the condition of the `while`. -/
  | test
  /-- Line 435: `if (delivery_queue_start == delivery_queue_end) return NULL`. -/
  | deq_test
  /-- Line 436, first half: the read of `delivery_queue_start` in `delivery_queue_start++`. -/
  | deq_read
  /-- Line 436, second half: `order = delivery_queue[k]` and the write of `k + 1` to
  `delivery_queue_start`, for the index `k` read before. -/
  | deq_store (k : Nat)
  /-- Lines 437-438: the wrap of `delivery_queue_start` and the return of `order`. -/
  | deq_wrap (order : Option Nat)
  /-- Line 272: `if (order != NULL)`. -/
  | null_test (order : Option Nat)
  /-- Line 273: `bag[bag_count++] = order`. -/
  | put (order : Nat)
  /-- Line 274: `log_order_status(order, 4, id)`. -/
  | log (order : Nat)
  /-- Line 275: `order->status = 4`. -/
  | set_status (order : Nat)
  /-- Line 276: the `send` of the status. -/
  | send (order : Nat)
  /-- Line 277: `if (order->canceled_flag == 0)`. -/
  | flag_test (order : Nat)
  /-- Line 278: the `printf`. -/
  | print (order : Nat)
  /-- Line 279: `order->canceled_flag = 1`. -/
  | set_flag (order : Nat)
  /-- Line 280: the call `cancel_order(order)`. -/
  | cancel (order : Nat)
  /-- Line 282: `pthread_mutex_unlock(&order_mutex)`, followed by the `continue` of line 283. -/
  | unlock
  /-- Line 289: the loop is left. -/
  | left
deriving DecidableEq, Repr

/-- A courier thread in the fill loop: its `DeliveryPerson` record and its program point. -/
structure CourierThread where
  person : DeliveryPerson
  pc : FillPc

/-- The server with its courier threads; `mutex` is the index of the thread that holds
`order_mutex`, `none` when it is free. -/
structure Dispatch where
  shop : Shop
  mutex : Option Nat
  couriers : List CourierThread

/-- The courier `i`, whose record is now `d`, continues at `pc`. -/
def Dispatch.goto (f : Dispatch) (i : Nat) (d : DeliveryPerson) (pc : FillPc) : Dispatch :=
  { f with couriers := f.couriers.set i ⟨d, pc⟩ }

/-- The courier thread `i` executes the statement at its program point; `ok` is the outcome
of the `send` when the statement is the send of line 276 or the call of `cancel_order`.
A thread at `lock` while another thread holds the mutex is blocked and leaves the state as it
is. An unlock by a thread that does not hold the mutex has no defined effect in POSIX; here it
leaves the mutex as it is. -/
def fill_statement (f : Dispatch) (i : Nat) (ok : Bool) : Dispatch :=
  match f.couriers[i]? with
  | none => f
  | some t =>
    match t.pc with
    | FillPc.lock =>
      if f.mutex = none then { f with mutex := some i }.goto i t.person FillPc.test else f
    | FillPc.test =>
      if t.person.bag_count < MAX_DELIVERY_BAG
          ∧ f.shop.delivery_queue_start ≠ f.shop.delivery_queue_end then
        f.goto i t.person FillPc.deq_test
      else f.goto i t.person FillPc.left
    | FillPc.deq_test =>
      if f.shop.delivery_queue_start = f.shop.delivery_queue_end then
        f.goto i t.person (FillPc.null_test none)
      else f.goto i t.person FillPc.deq_read
    | FillPc.deq_read => f.goto i t.person (FillPc.deq_store f.shop.delivery_queue_start)
    | FillPc.deq_store k =>
      { f with shop := { f.shop with delivery_queue_start := k + 1 } }.goto i t.person
        (FillPc.deq_wrap (f.shop.delivery_queue k))
    | FillPc.deq_wrap order =>
      if f.shop.delivery_queue_start = MAX_ORDERS then
        { f with shop := { f.shop with delivery_queue_start := 0 } }.goto i t.person
          (FillPc.null_test order)
      else f.goto i t.person (FillPc.null_test order)
    | FillPc.null_test none => f.goto i t.person FillPc.test
    | FillPc.null_test (some o) => f.goto i t.person (FillPc.put o)
    | FillPc.put o =>
      match bag_put t.person o with
      | Except.ok d1 => f.goto i d1 (FillPc.log o)
      | Except.error _ => f
    | FillPc.log o =>
      { f with shop := log_order_status f.shop o 4 t.person.id }.goto i t.person
        (FillPc.set_status o)
    | FillPc.set_status o =>
      { f with shop := f.shop.modify_order o (fun r => { r with status := 4 }) }.goto i
        t.person (FillPc.send o)
    | FillPc.send o =>
      { f with shop := send_status f.shop o ok }.goto i t.person
        (if ok then FillPc.test else FillPc.flag_test o)
    | FillPc.flag_test o =>
      if (f.shop.orders o).canceled_flag = 0 then f.goto i t.person (FillPc.print o)
      else f.goto i t.person FillPc.unlock
    | FillPc.print o =>
      { f with shop := f.shop.emit (Event.print_canceled (f.shop.orders o).order_id) }.goto i
        t.person (FillPc.set_flag o)
    | FillPc.set_flag o =>
      { f with shop := f.shop.modify_order o (fun r => { r with canceled_flag := 1 }) }.goto i
        t.person (FillPc.cancel o)
    | FillPc.cancel o =>
      { f with shop := cancel_order f.shop o ok }.goto i t.person FillPc.unlock
    | FillPc.unlock =>
      { f with mutex := if f.mutex = some i then none else f.mutex }.goto i t.person FillPc.test
    | FillPc.left => f

/-- The state after the statements of a schedule: each entry names the thread that executes
its next statement and the outcome of the send in it, if there is one. -/
def Dispatch.run (f : Dispatch) (schedule : List (Nat × Bool)) : Dispatch :=
  schedule.foldl (fun g a => fill_statement g a.1 a.2) f

/-- The program point of the courier thread `i`. -/
def Dispatch.pc_of (f : Dispatch) (i : Nat) : Option FillPc :=
  (f.couriers[i]?).map (fun t => t.pc)

/-- The `DeliveryPerson` record of the courier thread `i`. -/
def Dispatch.person_of (f : Dispatch) (i : Nat) : Option DeliveryPerson :=
  (f.couriers[i]?).map (fun t => t.person)
/-- The idle courier with id 1 and speed 1. -/
def courier1 : DeliveryPerson := ⟨1, 1, fun _ => none, 0, 0⟩

/-- Two orders (0 and 1) wait in the delivery queue with status 3, and the two couriers are
about to lock the mutex at the top of their loops. -/
def two_couriers : Dispatch :=
  { shop := (after_rounds 2).1
    mutex := none
    couriers := [⟨courier0, FillPc.lock⟩, ⟨courier1, FillPc.lock⟩] }

/-- Courier 0 runs its first iteration under the mutex (16 statements, lines 267-282): it
takes order 0, the send of 4 fails, it cancels the order and releases the mutex. -/
def first_iteration_fails : List (Nat × Bool) :=
  [(0, true), (0, true), (0, true), (0, true), (0, true), (0, true), (0, true), (0, true),
    (0, true), (0, true), (0, false), (0, true), (0, true), (0, true), (0, true), (0, true)]

/-- Courier 0 continues its loop without the mutex up to the read of `delivery_queue_start`
(3 statements; it reads 1). Courier 1 then locks the mutex, dequeues order 1, announces it,
its send of 4 fails and it finds `canceled_flag == 0` at line 277 (12 statements). -/
def both_read_the_index : List (Nat × Bool) :=
  [(0, true), (0, true), (0, true),
    (1, true), (1, true), (1, true), (1, true), (1, true), (1, true), (1, true), (1, true),
    (1, true), (1, true), (1, false), (1, true)]

/-- Courier 0 completes its dequeue with the index it read, so it obtains order 1 as well;
its send of 4 fails, it finds `canceled_flag == 0`, sets the flag and calls `cancel_order`,
whose send succeeds (11 statements). -/
def first_cancellation : List (Nat × Bool) :=
  [(0, true), (0, true), (0, true), (0, true), (0, true), (0, true), (0, false), (0, true),
    (0, true), (0, true), (0, true)]

/-- Courier 1 goes on after its test of line 277: the `printf` and `canceled_flag = 1`. -/
def second_attempt : List (Nat × Bool) :=
  [(1, true), (1, true)]

/-- The state in which courier 1 is about to call `cancel_order` on order 1. -/
def before_second_cancel : Dispatch :=
  two_couriers.run
    (first_iteration_fails ++ both_read_the_index ++ first_cancellation ++ second_attempt)

/-- Agreement of the statement-wise execution with `fill_bag` on the two waiting orders: the
courier thread 0, executing `n` statements alone with the send outcome `ok` throughout, has
left the loop with the bag, the trace, the queue start and the orders that `fill_bag`
computes. -/
def agrees_with_fill_bag (ok : Bool) (n : Nat) : Prop :=
  (two_couriers.run (List.replicate n (0, ok))).pc_of 0 = some FillPc.left ∧
    ((two_couriers.run (List.replicate n (0, ok))).person_of 0).map
        (fun d => (d.bag_count, d.bag 0, d.bag 1, d.bag 2))
      = (fill_bag (fun _ => (ok, ok)) MAX_ORDERS (after_rounds 2).1 courier0).toOption.map
          (fun r => (r.2.bag_count, r.2.bag 0, r.2.bag 1, r.2.bag 2)) ∧
    some ((two_couriers.run (List.replicate n (0, ok))).shop.trace,
        (two_couriers.run (List.replicate n (0, ok))).shop.delivery_queue_start,
        (two_couriers.run (List.replicate n (0, ok))).shop.orders 0,
        (two_couriers.run (List.replicate n (0, ok))).shop.orders 1)
      = (fill_bag (fun _ => (ok, ok)) MAX_ORDERS (after_rounds 2).1 courier0).toOption.map
          (fun r => (r.1.trace, r.1.delivery_queue_start, r.1.orders 0, r.1.orders 1))

/-- The entries of `cancel_order` in the trace match the flags: an order whose `canceled_flag`
is 0 has never been handed to `cancel_order`; otherwise the flag is 1, the order is registered
and `cancel_order` has been entered exactly once for it. -/
def CancelOnce (s : Shop) : Prop :=
  ∀ o, ((s.orders o).canceled_flag = 0 ∧ s.trace.count (Event.call_cancel o) = 0) ∨
    ((s.orders o).canceled_flag = 1 ∧ s.trace.count (Event.call_cancel o) = 1 ∧
      o < s.order_count)

/-! ## The interleaving of cooks and couriers, section by section -/

/-- Program points of a courier thread between two passes of its loops. -/
inductive CourierPc where
  /-- Line 270: about to evaluate the condition of the fill loop. -/
  | fill
  /-- Line 291: about to evaluate the condition of the trip loop for the bag position `i`. -/
  | trip (i : Nat)
deriving DecidableEq, Repr

/-- One pass of a courier, executed without interruption. At `fill`: the condition of line
270 and, when it holds, one iteration of the fill loop (lines 271-284, the body of
`fill_bag`); when it fails, the test of line 289. At `trip i`: the condition of line 291 and,
when it holds, the delivery of `bag[i]` (lines 292-313, `deliver_order`); when it fails, the
reset of `bag_count` (line 315). A `NULL` entry of the bag stops the thread. -/
def courier_step (s : Shop) (d : DeliveryPerson) (pc : CourierPc) (ok cok : Bool) :
    Shop × DeliveryPerson × CourierPc :=
  match pc with
  | CourierPc.fill =>
    if d.bag_count < MAX_DELIVERY_BAG ∧ s.delivery_queue_start ≠ s.delivery_queue_end then
      match dequeue_delivery s with
      | (none, s1) => (s1, d, CourierPc.fill)
      | (some o, s1) =>
        match bag_put d o with
        | Except.error _ => (s1, d, CourierPc.fill)
        | Except.ok d1 =>
          (if ok then announce s1 o 4 d.id ok
            else cancel_if_not_canceled (announce s1 o 4 d.id ok) o cok, d1, CourierPc.fill)
    else if 0 < d.bag_count then (s, d, CourierPc.trip 0)
    else (s, d, CourierPc.fill)
  | CourierPc.trip i =>
    if i < d.bag_count then
      match d.bag i with
      | none => (s, d, CourierPc.trip i)
      | some o =>
        ((deliver_order s d o ok cok).1, (deliver_order s d o ok cok).2, CourierPc.trip (i + 1))
    else (s, { d with bag_count := 0 }, CourierPc.fill)

/-- A courier thread between two passes: its `DeliveryPerson` record and its program point. -/
structure Rider where
  person : DeliveryPerson
  pc : CourierPc

/-- The server with its cook threads and its courier threads. -/
structure Floor where
  kitchen : Kitchen
  riders : List Rider

/-- A step of the interleaving: a step of the kitchen (an intake or a section of a cook), or
one pass of the courier `i` with the send outcomes `ok` and `cok`. -/
inductive Turn where
  | kitchen (a : Action)
  | courier (i : Nat) (ok cok : Bool)

/-- The effect of one step; a courier that does not exist leaves the state as it is. -/
def Floor.step (f : Floor) : Turn → Floor
  | Turn.kitchen a => { f with kitchen := f.kitchen.step a }
  | Turn.courier i ok cok =>
    match f.riders[i]? with
    | none => f
    | some r =>
      { kitchen := { f.kitchen with
          shop := (courier_step f.kitchen.shop r.person r.pc ok cok).1 }
        riders := f.riders.set i
          ⟨(courier_step f.kitchen.shop r.person r.pc ok cok).2.1,
            (courier_step f.kitchen.shop r.person r.pc ok cok).2.2⟩ }

/-- The state after the steps `turns`, in order. -/
def Floor.run (f : Floor) (turns : List Turn) : Floor :=
  turns.foldl Floor.step f

/-- The state in which `main` has started the threads: the cooks of `pool` and the couriers
of `staff`, each with an empty bag (line 146), at the top of their loops. -/
def Floor.init (pool : List Cook) (staff : List DeliveryPerson) : Floor :=
  { kitchen := Kitchen.init pool
    riders := staff.map (fun d => ⟨{ d with bag_count := 0 }, CourierPc.fill⟩) }

/-- The order `o` is registered and has been announced as ReadyForDelivery or later. -/
def HandedOver (s : Shop) (o : Nat) : Prop :=
  o < s.order_count ∧ 3 ≤ (s.orders o).status

/-- A change of the store that leaves the kitchen side alone: the counters and the
preparation queue are the same, the delivery queue holds the same pointers, and an order
either is unchanged or was handed over before and still has a status of 3 or more. -/
def OnlyHandedOver (s s' : Shop) : Prop :=
  s'.order_count = s.order_count ∧ s'.prep_queue = s.prep_queue ∧
    s'.prep_queue_start = s.prep_queue_start ∧ s'.prep_queue_end = s.prep_queue_end ∧
    s'.oven_sem = s.oven_sem ∧ s'.delivery_queue = s.delivery_queue ∧
    ∀ j, s'.orders j = s.orders j ∨ (HandedOver s j ∧ 3 ≤ (s'.orders j).status)

/-- The invariant of the interleaving of `manager`, cooks and couriers. -/
structure FloorInv (f : Floor) : Prop where
  kitchen : KitchenInv f.kitchen
  once : CancelOnce f.kitchen.shop
  queue : ∀ k o, f.kitchen.shop.delivery_queue k = some o → HandedOver f.kitchen.shop o
  bags : ∀ (i : Nat) (r : Rider), f.riders[i]? = some r →
    ∀ k o, k < r.person.bag_count → r.person.bag k = some o → HandedOver f.kitchen.shop o

/-- A run of one cook and one courier on one order: the order is accepted and cooked with
every send succeeding; in the fill loop the send of 4 fails and the order is canceled (the
send of 6 succeeds); the courier leaves the fill loop and, in the trip loop, its send of 5
fails as well. -/
def canceled_in_bag : List Turn :=
  [Turn.kitchen (Action.intake 7 (some 3) (some 4) 100),
    Turn.kitchen (Action.cook 0 true true), Turn.kitchen (Action.cook 0 true true),
    Turn.kitchen (Action.cook 0 true true), Turn.kitchen (Action.cook 0 true true),
    Turn.kitchen (Action.cook 0 true true),
    Turn.courier 0 false true, Turn.courier 0 true true, Turn.courier 0 false true]

/-! # Theorems -/

/-! ## Field-wise effect of the two primitive updates -/

section Fields

@[simp] theorem modify_order_orders (s : Shop) (i : Nat) (f : Order → Order) (k : Nat) :
    (s.modify_order i f).orders k = if k = i then f (s.orders k) else s.orders k := rfl

@[simp] theorem modify_order_prep_queue (s : Shop) (i : Nat) (f : Order → Order) :
    (s.modify_order i f).prep_queue = s.prep_queue := rfl

@[simp] theorem modify_order_delivery_queue (s : Shop) (i : Nat) (f : Order → Order) :
    (s.modify_order i f).delivery_queue = s.delivery_queue := rfl

@[simp] theorem modify_order_order_count (s : Shop) (i : Nat) (f : Order → Order) :
    (s.modify_order i f).order_count = s.order_count := rfl

@[simp] theorem modify_order_prep_queue_start (s : Shop) (i : Nat) (f : Order → Order) :
    (s.modify_order i f).prep_queue_start = s.prep_queue_start := rfl

@[simp] theorem modify_order_prep_queue_end (s : Shop) (i : Nat) (f : Order → Order) :
    (s.modify_order i f).prep_queue_end = s.prep_queue_end := rfl

@[simp] theorem modify_order_delivery_queue_start (s : Shop) (i : Nat) (f : Order → Order) :
    (s.modify_order i f).delivery_queue_start = s.delivery_queue_start := rfl

@[simp] theorem modify_order_delivery_queue_end (s : Shop) (i : Nat) (f : Order → Order) :
    (s.modify_order i f).delivery_queue_end = s.delivery_queue_end := rfl

@[simp] theorem modify_order_delivered_count (s : Shop) (i : Nat) (f : Order → Order) :
    (s.modify_order i f).delivered_count = s.delivered_count := rfl

@[simp] theorem modify_order_oven_sem (s : Shop) (i : Nat) (f : Order → Order) :
    (s.modify_order i f).oven_sem = s.oven_sem := rfl

@[simp] theorem modify_order_trace (s : Shop) (i : Nat) (f : Order → Order) :
    (s.modify_order i f).trace = s.trace := rfl

@[simp] theorem emit_trace (s : Shop) (e : Event) : (s.emit e).trace = s.trace ++ [e] := rfl

@[simp] theorem emit_orders (s : Shop) (e : Event) : (s.emit e).orders = s.orders := rfl

@[simp] theorem emit_prep_queue (s : Shop) (e : Event) : (s.emit e).prep_queue = s.prep_queue := rfl

@[simp] theorem emit_delivery_queue (s : Shop) (e : Event) : (s.emit e).delivery_queue = s.delivery_queue := rfl

@[simp] theorem emit_order_count (s : Shop) (e : Event) : (s.emit e).order_count = s.order_count := rfl

@[simp] theorem emit_prep_queue_start (s : Shop) (e : Event) : (s.emit e).prep_queue_start = s.prep_queue_start := rfl

@[simp] theorem emit_prep_queue_end (s : Shop) (e : Event) : (s.emit e).prep_queue_end = s.prep_queue_end := rfl

@[simp] theorem emit_delivery_queue_start (s : Shop) (e : Event) : (s.emit e).delivery_queue_start = s.delivery_queue_start := rfl

@[simp] theorem emit_delivery_queue_end (s : Shop) (e : Event) : (s.emit e).delivery_queue_end = s.delivery_queue_end := rfl

@[simp] theorem emit_delivered_count (s : Shop) (e : Event) : (s.emit e).delivered_count = s.delivered_count := rfl

@[simp] theorem emit_oven_sem (s : Shop) (e : Event) : (s.emit e).oven_sem = s.oven_sem := rfl

@[simp] theorem log_order_status_trace (s : Shop) (i : Nat) (st tid : Int) :
    (log_order_status s i st tid).trace = s.trace ++ log_lines (s.orders i) st tid := rfl

@[simp] theorem log_order_status_orders (s : Shop) (i : Nat) (st tid : Int) :
    (log_order_status s i st tid).orders = s.orders := rfl

@[simp] theorem log_order_status_prep_queue (s : Shop) (i : Nat) (st tid : Int) :
    (log_order_status s i st tid).prep_queue = s.prep_queue := rfl

@[simp] theorem log_order_status_delivery_queue (s : Shop) (i : Nat) (st tid : Int) :
    (log_order_status s i st tid).delivery_queue = s.delivery_queue := rfl

@[simp] theorem log_order_status_order_count (s : Shop) (i : Nat) (st tid : Int) :
    (log_order_status s i st tid).order_count = s.order_count := rfl

@[simp] theorem log_order_status_prep_queue_start (s : Shop) (i : Nat) (st tid : Int) :
    (log_order_status s i st tid).prep_queue_start = s.prep_queue_start := rfl

@[simp] theorem log_order_status_prep_queue_end (s : Shop) (i : Nat) (st tid : Int) :
    (log_order_status s i st tid).prep_queue_end = s.prep_queue_end := rfl

@[simp] theorem log_order_status_delivery_queue_start (s : Shop) (i : Nat) (st tid : Int) :
    (log_order_status s i st tid).delivery_queue_start = s.delivery_queue_start := rfl

@[simp] theorem log_order_status_delivery_queue_end (s : Shop) (i : Nat) (st tid : Int) :
    (log_order_status s i st tid).delivery_queue_end = s.delivery_queue_end := rfl

@[simp] theorem log_order_status_delivered_count (s : Shop) (i : Nat) (st tid : Int) :
    (log_order_status s i st tid).delivered_count = s.delivered_count := rfl

@[simp] theorem log_order_status_oven_sem (s : Shop) (i : Nat) (st tid : Int) :
    (log_order_status s i st tid).oven_sem = s.oven_sem := rfl

end Fields

/-! ## Frame of the status and cancellation blocks: they touch only `orders` and `trace` -/

section Frame

@[simp] theorem send_status_prep_queue (s : Shop) (i : Nat) (ok : Bool) :
    (send_status s i ok).prep_queue = s.prep_queue := rfl

@[simp] theorem send_status_delivery_queue (s : Shop) (i : Nat) (ok : Bool) :
    (send_status s i ok).delivery_queue = s.delivery_queue := rfl

@[simp] theorem send_status_order_count (s : Shop) (i : Nat) (ok : Bool) :
    (send_status s i ok).order_count = s.order_count := rfl

@[simp] theorem send_status_prep_queue_start (s : Shop) (i : Nat) (ok : Bool) :
    (send_status s i ok).prep_queue_start = s.prep_queue_start := rfl

@[simp] theorem send_status_prep_queue_end (s : Shop) (i : Nat) (ok : Bool) :
    (send_status s i ok).prep_queue_end = s.prep_queue_end := rfl

@[simp] theorem send_status_delivery_queue_start (s : Shop) (i : Nat) (ok : Bool) :
    (send_status s i ok).delivery_queue_start = s.delivery_queue_start := rfl

@[simp] theorem send_status_delivery_queue_end (s : Shop) (i : Nat) (ok : Bool) :
    (send_status s i ok).delivery_queue_end = s.delivery_queue_end := rfl

@[simp] theorem send_status_delivered_count (s : Shop) (i : Nat) (ok : Bool) :
    (send_status s i ok).delivered_count = s.delivered_count := rfl

@[simp] theorem send_status_oven_sem (s : Shop) (i : Nat) (ok : Bool) :
    (send_status s i ok).oven_sem = s.oven_sem := rfl

@[simp] theorem send_status_orders (s : Shop) (i : Nat) (ok : Bool) :
    (send_status s i ok).orders = s.orders := rfl

@[simp] theorem announce_prep_queue (s : Shop) (i : Nat) (st tid : Int) (ok : Bool) :
    (announce s i st tid ok).prep_queue = s.prep_queue := rfl

@[simp] theorem announce_delivery_queue (s : Shop) (i : Nat) (st tid : Int) (ok : Bool) :
    (announce s i st tid ok).delivery_queue = s.delivery_queue := rfl

@[simp] theorem announce_order_count (s : Shop) (i : Nat) (st tid : Int) (ok : Bool) :
    (announce s i st tid ok).order_count = s.order_count := rfl

@[simp] theorem announce_prep_queue_start (s : Shop) (i : Nat) (st tid : Int) (ok : Bool) :
    (announce s i st tid ok).prep_queue_start = s.prep_queue_start := rfl

@[simp] theorem announce_prep_queue_end (s : Shop) (i : Nat) (st tid : Int) (ok : Bool) :
    (announce s i st tid ok).prep_queue_end = s.prep_queue_end := rfl

@[simp] theorem announce_delivery_queue_start (s : Shop) (i : Nat) (st tid : Int) (ok : Bool) :
    (announce s i st tid ok).delivery_queue_start = s.delivery_queue_start := rfl

@[simp] theorem announce_delivery_queue_end (s : Shop) (i : Nat) (st tid : Int) (ok : Bool) :
    (announce s i st tid ok).delivery_queue_end = s.delivery_queue_end := rfl

@[simp] theorem announce_delivered_count (s : Shop) (i : Nat) (st tid : Int) (ok : Bool) :
    (announce s i st tid ok).delivered_count = s.delivered_count := rfl

@[simp] theorem announce_oven_sem (s : Shop) (i : Nat) (st tid : Int) (ok : Bool) :
    (announce s i st tid ok).oven_sem = s.oven_sem := rfl

@[simp] theorem cancel_order_prep_queue (s : Shop) (i : Nat) (ok : Bool) :
    (cancel_order s i ok).prep_queue = s.prep_queue := by
  cases ok <;> rfl

@[simp] theorem cancel_order_delivery_queue (s : Shop) (i : Nat) (ok : Bool) :
    (cancel_order s i ok).delivery_queue = s.delivery_queue := by
  cases ok <;> rfl

@[simp] theorem cancel_order_order_count (s : Shop) (i : Nat) (ok : Bool) :
    (cancel_order s i ok).order_count = s.order_count := by
  cases ok <;> rfl

@[simp] theorem cancel_order_prep_queue_start (s : Shop) (i : Nat) (ok : Bool) :
    (cancel_order s i ok).prep_queue_start = s.prep_queue_start := by
  cases ok <;> rfl

@[simp] theorem cancel_order_prep_queue_end (s : Shop) (i : Nat) (ok : Bool) :
    (cancel_order s i ok).prep_queue_end = s.prep_queue_end := by
  cases ok <;> rfl

@[simp] theorem cancel_order_delivery_queue_start (s : Shop) (i : Nat) (ok : Bool) :
    (cancel_order s i ok).delivery_queue_start = s.delivery_queue_start := by
  cases ok <;> rfl

@[simp] theorem cancel_order_delivery_queue_end (s : Shop) (i : Nat) (ok : Bool) :
    (cancel_order s i ok).delivery_queue_end = s.delivery_queue_end := by
  cases ok <;> rfl

@[simp] theorem cancel_order_delivered_count (s : Shop) (i : Nat) (ok : Bool) :
    (cancel_order s i ok).delivered_count = s.delivered_count := by
  cases ok <;> rfl

@[simp] theorem cancel_order_oven_sem (s : Shop) (i : Nat) (ok : Bool) :
    (cancel_order s i ok).oven_sem = s.oven_sem := by
  cases ok <;> rfl

@[simp] theorem flag_and_cancel_prep_queue (s : Shop) (i : Nat) (cok : Bool) :
    (flag_and_cancel s i cok).prep_queue = s.prep_queue := by
  cases cok <;> rfl

@[simp] theorem flag_and_cancel_delivery_queue (s : Shop) (i : Nat) (cok : Bool) :
    (flag_and_cancel s i cok).delivery_queue = s.delivery_queue := by
  cases cok <;> rfl

@[simp] theorem flag_and_cancel_order_count (s : Shop) (i : Nat) (cok : Bool) :
    (flag_and_cancel s i cok).order_count = s.order_count := by
  cases cok <;> rfl

@[simp] theorem flag_and_cancel_prep_queue_start (s : Shop) (i : Nat) (cok : Bool) :
    (flag_and_cancel s i cok).prep_queue_start = s.prep_queue_start := by
  cases cok <;> rfl

@[simp] theorem flag_and_cancel_prep_queue_end (s : Shop) (i : Nat) (cok : Bool) :
    (flag_and_cancel s i cok).prep_queue_end = s.prep_queue_end := by
  cases cok <;> rfl

@[simp] theorem flag_and_cancel_delivery_queue_start (s : Shop) (i : Nat) (cok : Bool) :
    (flag_and_cancel s i cok).delivery_queue_start = s.delivery_queue_start := by
  cases cok <;> rfl

@[simp] theorem flag_and_cancel_delivery_queue_end (s : Shop) (i : Nat) (cok : Bool) :
    (flag_and_cancel s i cok).delivery_queue_end = s.delivery_queue_end := by
  cases cok <;> rfl

@[simp] theorem flag_and_cancel_delivered_count (s : Shop) (i : Nat) (cok : Bool) :
    (flag_and_cancel s i cok).delivered_count = s.delivered_count := by
  cases cok <;> rfl

@[simp] theorem flag_and_cancel_oven_sem (s : Shop) (i : Nat) (cok : Bool) :
    (flag_and_cancel s i cok).oven_sem = s.oven_sem := by
  cases cok <;> rfl

@[simp] theorem cancel_if_not_canceled_prep_queue (s : Shop) (i : Nat) (cok : Bool) :
    (cancel_if_not_canceled s i cok).prep_queue = s.prep_queue := by
  unfold cancel_if_not_canceled
  split_ifs
  · exact flag_and_cancel_prep_queue s i cok
  · rfl

@[simp] theorem cancel_if_not_canceled_delivery_queue (s : Shop) (i : Nat) (cok : Bool) :
    (cancel_if_not_canceled s i cok).delivery_queue = s.delivery_queue := by
  unfold cancel_if_not_canceled
  split_ifs
  · exact flag_and_cancel_delivery_queue s i cok
  · rfl

@[simp] theorem cancel_if_not_canceled_order_count (s : Shop) (i : Nat) (cok : Bool) :
    (cancel_if_not_canceled s i cok).order_count = s.order_count := by
  unfold cancel_if_not_canceled
  split_ifs
  · exact flag_and_cancel_order_count s i cok
  · rfl

@[simp] theorem cancel_if_not_canceled_prep_queue_start (s : Shop) (i : Nat) (cok : Bool) :
    (cancel_if_not_canceled s i cok).prep_queue_start = s.prep_queue_start := by
  unfold cancel_if_not_canceled
  split_ifs
  · exact flag_and_cancel_prep_queue_start s i cok
  · rfl

@[simp] theorem cancel_if_not_canceled_prep_queue_end (s : Shop) (i : Nat) (cok : Bool) :
    (cancel_if_not_canceled s i cok).prep_queue_end = s.prep_queue_end := by
  unfold cancel_if_not_canceled
  split_ifs
  · exact flag_and_cancel_prep_queue_end s i cok
  · rfl

@[simp] theorem cancel_if_not_canceled_delivery_queue_start (s : Shop) (i : Nat) (cok : Bool) :
    (cancel_if_not_canceled s i cok).delivery_queue_start = s.delivery_queue_start := by
  unfold cancel_if_not_canceled
  split_ifs
  · exact flag_and_cancel_delivery_queue_start s i cok
  · rfl

@[simp] theorem cancel_if_not_canceled_delivery_queue_end (s : Shop) (i : Nat) (cok : Bool) :
    (cancel_if_not_canceled s i cok).delivery_queue_end = s.delivery_queue_end := by
  unfold cancel_if_not_canceled
  split_ifs
  · exact flag_and_cancel_delivery_queue_end s i cok
  · rfl

@[simp] theorem cancel_if_not_canceled_delivered_count (s : Shop) (i : Nat) (cok : Bool) :
    (cancel_if_not_canceled s i cok).delivered_count = s.delivered_count := by
  unfold cancel_if_not_canceled
  split_ifs
  · exact flag_and_cancel_delivered_count s i cok
  · rfl

@[simp] theorem cancel_if_not_canceled_oven_sem (s : Shop) (i : Nat) (cok : Bool) :
    (cancel_if_not_canceled s i cok).oven_sem = s.oven_sem := by
  unfold cancel_if_not_canceled
  split_ifs
  · exact flag_and_cancel_oven_sem s i cok
  · rfl

/-- An order other than the one a block works on is not changed by it. -/
theorem announce_orders_ne (s : Shop) (i k : Nat) (st tid : Int) (ok : Bool) (h : k ≠ i) :
    (announce s i st tid ok).orders k = s.orders k := by
  simp [announce, send_status, h]

theorem announce_orders_self (s : Shop) (i : Nat) (st tid : Int) (ok : Bool) :
    (announce s i st tid ok).orders i = { s.orders i with status := st } := by
  simp [announce, send_status]

theorem cancel_order_orders_ne (s : Shop) (i k : Nat) (ok : Bool) (h : k ≠ i) :
    (cancel_order s i ok).orders k = s.orders k := by
  cases ok <;> simp [cancel_order, send_status, h]

theorem flag_and_cancel_orders_ne (s : Shop) (i k : Nat) (cok : Bool) (h : k ≠ i) :
    (flag_and_cancel s i cok).orders k = s.orders k := by
  simp [flag_and_cancel, cancel_order_orders_ne _ _ _ _ h, h]

theorem cancel_if_not_canceled_orders_ne (s : Shop) (i k : Nat) (cok : Bool) (h : k ≠ i) :
    (cancel_if_not_canceled s i cok).orders k = s.orders k := by
  unfold cancel_if_not_canceled
  split_ifs
  · exact flag_and_cancel_orders_ne s i k cok h
  · rfl

theorem flag_and_cancel_status (s : Shop) (i : Nat) (cok : Bool) :
    ((flag_and_cancel s i cok).orders i).status = 6 ∧
      ((flag_and_cancel s i cok).orders i).canceled_flag = 1 := by
  cases cok <;> simp [flag_and_cancel, cancel_order, send_status]

end Frame

section Intake

/-- C4: when `order_count = MAX_ORDERS`, `manager` only prints the rejection and closes the
socket: `order_count`, the orders, both queues with their indices and every other global
variable are unchanged. -/
theorem manager_rejects_when_full (s : Shop) (socket x y now : Int)
    (h : s.order_count = MAX_ORDERS) :
    manager s socket (some x) (some y) now
      = { s with trace := s.trace ++ [Event.print_max_orders, Event.close socket] } := by
  have hlt : ¬ s.order_count < MAX_ORDERS := by omega
  simp [manager, if_neg hlt, Shop.emit]

/-- Witness of C4: a server whose store is full. -/
theorem manager_rejects_when_full_witness :
    ({ Shop.init with order_count := 1000 } : Shop).order_count = MAX_ORDERS ∧
      (manager { Shop.init with order_count := 1000 } 9 (some 1) (some 2) 5).order_count = 1000 ∧
      (manager { Shop.init with order_count := 1000 } 9 (some 1) (some 2) 5).trace
        = [Event.print_max_orders, Event.close 9] := by
  have h := manager_rejects_when_full { Shop.init with order_count := 1000 } 9 1 2 5 rfl
  exact ⟨rfl, by rw [h], by rw [h]; rfl⟩

end Intake

/-! ## One iteration of a cook -/

section CookIteration

theorem dequeue_preparation_frame (s : Shop) :
    (dequeue_preparation s).2
      = { s with prep_queue_start := (dequeue_preparation s).2.prep_queue_start } := by
  simp only [dequeue_preparation]
  split_ifs <;> rfl

theorem cook_run_take (b1 b2 b3 bc : Bool) (n : Nat) (s s0 : Shop) (c : Cook) (o : Nat)
    (h : dequeue_preparation s = (some o, s0)) :
    cook_run b1 b2 b3 bc (n + 1) s c CookPc.take
      = if b1 = true then
          cook_run b1 b2 b3 bc n (announce s0 o 1 c.id true) c (CookPc.wait_oven o)
        else some (flag_and_cancel (announce s0 o 1 c.id false) o bc, c) := by
  cases b1 <;> simp [cook_run, cook_step, cook_take, h]

theorem cook_run_wait_oven (b1 b2 b3 bc : Bool) (n : Nat) (s : Shop) (c : Cook) (o : Nat)
    (h : 0 < s.oven_sem) :
    cook_run b1 b2 b3 bc (n + 1) s c (CookPc.wait_oven o)
      = cook_run b1 b2 b3 bc n
          ({ s with oven_sem := s.oven_sem - 1 }.emit Event.sem_wait) c (CookPc.cook o) := by
  simp [cook_run, cook_step, sem_wait, h]

theorem cook_run_cook (b1 b2 b3 bc : Bool) (n : Nat) (s : Shop) (c : Cook) (o : Nat) :
    cook_run b1 b2 b3 bc (n + 1) s c (CookPc.cook o)
      = if b2 = true then cook_run b1 b2 b3 bc n (announce s o 2 c.id true) c (CookPc.ready o)
        else
          cook_run b1 b2 b3 bc n (cancel_if_not_canceled (announce s o 2 c.id false) o bc) c
            CookPc.post := by
  cases b2 <;> simp [cook_run, cook_step, cook_cook]

theorem cook_run_ready (b1 b2 b3 bc : Bool) (n : Nat) (s : Shop) (c : Cook) (o : Nat) :
    cook_run b1 b2 b3 bc (n + 1) s c (CookPc.ready o)
      = if b3 = true then
          cook_run b1 b2 b3 bc n (enqueue_delivery (announce s o 3 c.id true) o)
            { c with prepared_orders := c.prepared_orders + 1 } CookPc.post
        else
          cook_run b1 b2 b3 bc n (cancel_if_not_canceled (announce s o 3 c.id false) o bc) c
            CookPc.post := by
  cases b3 <;> simp [cook_run, cook_step, cook_ready]

theorem cook_run_post (b1 b2 b3 bc : Bool) (n : Nat) (s : Shop) (c : Cook) :
    cook_run b1 b2 b3 bc (n + 1) s c CookPc.post = some (sem_post s, c) := by
  simp [cook_run, cook_step]

end CookIteration

/-! ## The efficiency report -/

section Report

theorem most_efficient_snoc (pool : List (Int × Int)) (w : Int × Int) :
    most_efficient (pool ++ [w])
      = if w.2 > (most_efficient pool).1 then (w.2, w.1) else most_efficient pool := by
  simp [most_efficient, List.foldl_append]

/-- Either no count of the pool is positive and the loop ends with `(0, -1)`, or it ends with
the count and id of the first worker that holds the maximum count, which is positive. -/
theorem most_efficient_spec (pool : List (Int × Int)) :
    (most_efficient pool = (0, -1) ∧ ∀ (j : Nat) (v : Int × Int), pool[j]? = some v → v.2 ≤ 0) ∨
      ∃ (k : Nat) (w : Int × Int), pool[k]? = some w ∧ most_efficient pool = (w.2, w.1) ∧
        0 < w.2 ∧
        (∀ (j : Nat) (v : Int × Int), pool[j]? = some v → v.2 ≤ w.2) ∧
        ∀ (j : Nat) (v : Int × Int), j < k → pool[j]? = some v → v.2 < w.2 := by
  induction pool using List.reverseRecOn with
  | nil => left; simp [most_efficient]
  | append_singleton l a ih =>
    rw [most_efficient_snoc]
    have hget : ∀ j v, (l ++ [a])[j]? = some v →
        (j < l.length ∧ l[j]? = some v) ∨ (j = l.length ∧ v = a) := by
      intro j v hj
      rw [List.getElem?_append] at hj
      split_ifs at hj with hlt
      · exact Or.inl ⟨hlt, hj⟩
      · right
        have hlen : j - l.length < 1 := by
          by_contra hc
          rw [List.getElem?_eq_none (by simp only [List.length_singleton]; omega)] at hj
          exact Option.noConfusion hj
        have hz : j - l.length = 0 := by omega
        rw [hz] at hj
        simp at hj
        exact ⟨by omega, hj.symm⟩
    rcases ih with ⟨h0, hall⟩ | ⟨k, w, hk, hw, hpos, hmax, hfirst⟩
    · rw [h0]
      by_cases ha : a.2 > 0
      · right
        refine ⟨l.length, a, by simp, by simp [ha], ha, ?_, ?_⟩
        · intro j v hj
          rcases hget j v hj with ⟨_, h⟩ | ⟨_, h⟩
          · exact le_trans (hall j v h) (le_of_lt ha)
          · rw [h]
        · intro j v hlt hj
          rcases hget j v hj with ⟨_, h⟩ | ⟨h, _⟩
          · exact lt_of_le_of_lt (hall j v h) ha
          · omega
      · left
        refine ⟨by simp [ha], ?_⟩
        intro j v hj
        rcases hget j v hj with ⟨_, h⟩ | ⟨_, h⟩
        · exact hall j v h
        · rw [h]; exact not_lt.mp ha
    · rw [hw]
      have hkl : k < l.length := by
        by_contra hc
        rw [List.getElem?_eq_none (by omega)] at hk
        exact Option.noConfusion hk
      by_cases ha : a.2 > w.2
      · right
        refine ⟨l.length, a, by simp, by simp [ha], lt_trans hpos ha, ?_, ?_⟩
        · intro j v hj
          rcases hget j v hj with ⟨_, h⟩ | ⟨_, h⟩
          · exact le_trans (hmax j v h) (le_of_lt ha)
          · rw [h]
        · intro j v hlt hj
          rcases hget j v hj with ⟨_, h⟩ | ⟨h, _⟩
          · exact lt_of_le_of_lt (hmax j v h) ha
          · omega
      · right
        refine ⟨k, w, ?_, by simp [ha], hpos, ?_, ?_⟩
        · rw [List.getElem?_append_left hkl]; exact hk
        · intro j v hj
          rcases hget j v hj with ⟨_, h⟩ | ⟨_, h⟩
          · exact hmax j v h
          · rw [h]; exact not_lt.mp ha
        · intro j v hlt hj
          rcases hget j v hj with ⟨_, h⟩ | ⟨h, _⟩
          · exact hfirst j v hlt h
          · omega

theorem most_efficient_of_pool (pool : List (Int × Int))
    (hid : ∀ (k : Nat) (w : Int × Int), pool[k]? = some w → w.1 = k) :
    (most_efficient pool = (0, -1) ∧
        ∀ (j : Nat) (v : Int), (pool.map Prod.snd)[j]? = some v → v ≤ 0) ∨
      ∃ (k : Nat) (m : Int), FirstMaximum (pool.map Prod.snd) k m ∧
        most_efficient pool = (m, (k : Int)) := by
  have hmap : ∀ (j : Nat) (v : Int), (pool.map Prod.snd)[j]? = some v →
      ∃ w, pool[j]? = some w ∧ w.2 = v := by
    intro j v hj
    rw [List.getElem?_map] at hj
    cases hp : pool[j]? with
    | none => rw [hp] at hj; exact Option.noConfusion hj
    | some w =>
      rw [hp] at hj
      exact ⟨w, rfl, by simpa using hj⟩
  rcases most_efficient_spec pool with ⟨h0, hall⟩ | ⟨k, w, hk, hw, hpos, hmax, hfirst⟩
  · left
    refine ⟨h0, ?_⟩
    intro j v hj
    obtain ⟨w, hw, rfl⟩ := hmap j v hj
    exact hall j w hw
  · right
    refine ⟨k, w.2, ⟨?_, hpos, ?_, ?_⟩, ?_⟩
    · rw [List.getElem?_map, hk]; rfl
    · intro j v hj
      obtain ⟨u, hu, rfl⟩ := hmap j v hj
      exact hmax j u hu
    · intro j v hlt hj
      obtain ⟨u, hu, rfl⟩ := hmap j v hj
      exact hfirst j u hlt hu
    · rw [hw, hid k w hk]

/-- C10, as stated, fails: a pool of one cook and one courier whose counts are 0 is not
empty, yet `print_most_efficient_workers` reports nobody. -/
theorem no_report_without_positive_count :
    (print_most_efficient_workers Shop.init [cook0] [courier0]).trace
      = [] := by
  decide

/-- C10, amended: with worker ids equal to pool indices (as `main` assigns them),
`print_most_efficient_workers` appends a cook report and then a courier report to the trace.
Each report names the lowest pool index among the workers holding the maximum count, with
that count, when some count of the pool is positive; it is empty when no count is positive. -/
theorem report_first_maximum (s : Shop) (cooks : List Cook)
    (delivery_persons : List DeliveryPerson)
    (hc : ∀ (k : Nat) (c : Cook), cooks[k]? = some c → c.id = k)
    (hd : ∀ (k : Nat) (d : DeliveryPerson), delivery_persons[k]? = some d → d.id = k) :
    ∃ rc rd : List Event,
      (print_most_efficient_workers s cooks delivery_persons).trace = s.trace ++ rc ++ rd ∧
      ((rc = [] ∧ ∀ c ∈ cooks, c.prepared_orders ≤ 0) ∨
        ∃ (k : Nat) (m : Int), FirstMaximum (cooks.map Cook.prepared_orders) k m ∧
          rc = [Event.print_cook k m]) ∧
      ((rd = [] ∧ ∀ d ∈ delivery_persons, d.delivered_orders ≤ 0) ∨
        ∃ (k : Nat) (m : Int),
          FirstMaximum (delivery_persons.map DeliveryPerson.delivered_orders) k m ∧
          rd = [Event.print_delivery_person k m]) := by
  have hcp : ∀ (k : Nat) (w : Int × Int),
      (cooks.map (fun c => (c.id, c.prepared_orders)))[k]? = some w → w.1 = k := by
    intro k w hk
    rw [List.getElem?_map] at hk
    cases hq : cooks[k]? with
    | none => rw [hq] at hk; exact Option.noConfusion hk
    | some c =>
      rw [hq] at hk
      have : w = (c.id, c.prepared_orders) := by simpa using hk.symm
      rw [this]; exact hc k c hq
  have hdp : ∀ (k : Nat) (w : Int × Int),
      (delivery_persons.map (fun d => (d.id, d.delivered_orders)))[k]? = some w → w.1 = k := by
    intro k w hk
    rw [List.getElem?_map] at hk
    cases hq : delivery_persons[k]? with
    | none => rw [hq] at hk; exact Option.noConfusion hk
    | some d =>
      rw [hq] at hk
      have : w = (d.id, d.delivered_orders) := by simpa using hk.symm
      rw [this]; exact hd k d hq
  have e1 : (cooks.map (fun c => (c.id, c.prepared_orders))).map Prod.snd
      = cooks.map Cook.prepared_orders := by
    rw [List.map_map]; rfl
  have e2 : (delivery_persons.map (fun d => (d.id, d.delivered_orders))).map Prod.snd
      = delivery_persons.map DeliveryPerson.delivered_orders := by
    rw [List.map_map]; rfl
  have hC := most_efficient_of_pool _ hcp
  have hD := most_efficient_of_pool _ hdp
  rw [e1] at hC
  rw [e2] at hD
  have hneg : ∀ k : Nat, (k : Int) ≠ -1 := by intro k; omega
  simp only [print_most_efficient_workers]
  rcases hC with ⟨hc0, hcall⟩ | ⟨kc, mc, hcf, hcm⟩ <;>
    rcases hD with ⟨hd0, hdall⟩ | ⟨kd, md, hdf, hdm⟩
  · refine ⟨[], [], by simp [hc0, hd0], Or.inl ⟨rfl, ?_⟩, Or.inl ⟨rfl, ?_⟩⟩
    · intro c hcm
      obtain ⟨j, hj, rfl⟩ := List.getElem_of_mem hcm
      exact hcall j _ (by simp [hj])
    · intro d hdm
      obtain ⟨j, hj, rfl⟩ := List.getElem_of_mem hdm
      exact hdall j _ (by simp [hj])
  · refine ⟨[], [Event.print_delivery_person kd md], by simp [hc0, hdm, hneg],
      Or.inl ⟨rfl, ?_⟩, Or.inr ⟨kd, md, hdf, rfl⟩⟩
    intro c hcm
    obtain ⟨j, hj, rfl⟩ := List.getElem_of_mem hcm
    exact hcall j _ (by simp [hj])
  · refine ⟨[Event.print_cook kc mc], [], by simp [hcm, hd0, hneg],
      Or.inr ⟨kc, mc, hcf, rfl⟩, Or.inl ⟨rfl, ?_⟩⟩
    intro d hdm
    obtain ⟨j, hj, rfl⟩ := List.getElem_of_mem hdm
    exact hdall j _ (by simp [hj])
  · exact ⟨[Event.print_cook kc mc], [Event.print_delivery_person kd md],
      by simp [hcm, hdm, hneg], Or.inr ⟨kc, mc, hcf, rfl⟩, Or.inr ⟨kd, md, hdf, rfl⟩⟩

/-- Witness of C10 (amended): cooks 1 and 2 tie at 5 prepared orders, cook 1 is reported;
the only courier has delivered nothing and is not reported. -/
theorem report_first_maximum_witness :
    (print_most_efficient_workers Shop.init cooks3 [courier0]).trace = [Event.print_cook 1 5] ∧
      ∃ rc rd : List Event,
        (print_most_efficient_workers Shop.init cooks3 [courier0]).trace
          = Shop.init.trace ++ rc ++ rd ∧
        ((rc = [] ∧ ∀ c ∈ cooks3, c.prepared_orders ≤ 0) ∨
          ∃ (k : Nat) (m : Int), FirstMaximum (cooks3.map Cook.prepared_orders) k m ∧
            rc = [Event.print_cook k m]) ∧
        ((rd = [] ∧ ∀ d ∈ [courier0], d.delivered_orders ≤ 0) ∨
          ∃ (k : Nat) (m : Int),
            FirstMaximum ([courier0].map DeliveryPerson.delivered_orders) k m ∧
            rd = [Event.print_delivery_person k m]) := by
  refine ⟨by decide, report_first_maximum Shop.init cooks3 [courier0] ?_ ?_⟩
  · intro k c h
    rcases k with _ | _ | _ | k <;> simp [cooks3] at h <;> subst h <;> rfl
  · intro k d h
    rcases k with _ | k <;> simp at h
    subst h
    rfl

end Report

/-! ## Shutdown -/

section Shutdown

theorem cancel_round_orders (s : Shop) (i k : Nat) :
    (cancel_round s i).orders k
      = if k = i ∧ (s.orders k).status ≠ 5 then { s.orders k with status := 6 }
        else s.orders k := by
  unfold cancel_round
  by_cases hk : k = i
  · subst hk
    by_cases h5 : (s.orders k).status = 5 <;> simp [h5]
  · by_cases h5 : (s.orders i).status = 5 <;> simp [h5, hk]

theorem cancel_round_trace (s : Shop) (i : Nat) :
    (cancel_round s i).trace
      = s.trace ++ if (s.orders i).status ≠ 5 then [canceled_record (s.orders i)] else [] := by
  unfold cancel_round
  by_cases h5 : (s.orders i).status = 5 <;> simp [h5, log_lines, canceled_record]

theorem cancel_round_order_count (s : Shop) (i : Nat) :
    (cancel_round s i).order_count = s.order_count := by
  unfold cancel_round
  split_ifs <;> rfl

/-- The loop of `signal_handler` after its first `n` rounds. -/
theorem cancel_loop_spec (s : Shop) (n : Nat) :
    (∀ k, ((List.range n).foldl cancel_round s).orders k
        = if k < n ∧ (s.orders k).status ≠ 5 then { s.orders k with status := 6 }
          else s.orders k) ∧
      ((List.range n).foldl cancel_round s).trace
        = s.trace ++ (((List.range n).filter
            (fun i => decide ((s.orders i).status ≠ 5))).map
              (fun i => canceled_record (s.orders i))) := by
  induction n with
  | zero => simp
  | succ n ih =>
    rw [List.range_succ, List.foldl_append, List.filter_append, List.map_append]
    simp only [List.foldl_cons, List.foldl_nil]
    obtain ⟨ho, ht⟩ := ih
    have hn := ho n
    simp only [lt_irrefl, false_and, if_false] at hn
    refine ⟨?_, ?_⟩
    · intro k
      rw [cancel_round_orders, ho k]
      by_cases hk : k = n
      · subst hk
        by_cases h5 : (s.orders k).status = 5 <;> simp [h5]
      · have : k < n + 1 ↔ k < n := by omega
        simp only [hk, this, false_and, if_false]
    · rw [cancel_round_trace, ht, hn]
      by_cases h5 : (s.orders n).status = 5 <;> simp [h5]

theorem print_most_efficient_workers_effect (s : Shop) (cooks : List Cook)
    (delivery_persons : List DeliveryPerson) :
    (print_most_efficient_workers s cooks delivery_persons).orders = s.orders ∧
      ∃ report, (print_most_efficient_workers s cooks delivery_persons).trace
          = s.trace ++ report ∧ canceled_records report = 0 := by
  simp only [print_most_efficient_workers]
  split_ifs
  · exact ⟨rfl, _, List.append_assoc _ _ _, by simp [canceled_records]⟩
  · exact ⟨rfl, _, rfl, by simp [canceled_records]⟩
  · exact ⟨rfl, _, rfl, by simp [canceled_records]⟩
  · exact ⟨rfl, [], (List.append_nil _).symm, rfl⟩

/-- C7, as stated, fails: in `canceled_once` the only registered order is already Canceled,
so no order is non-terminal, yet the SIGINT branch writes a Canceled record for it again. -/
theorem handler_records_canceled_order_again :
    canceled_once.order_count = 1 ∧ (canceled_once.orders 0).status = 6 ∧
      (signal_handler canceled_once SIGINT [cook0] [courier0]).trace
        = canceled_once.trace ++ [Event.print_rip, Event.log 1 3 4 6 (-1) 100] := by
  decide

/-- C7, amended: the SIGINT branch of `signal_handler` sets the status of every registered
order that is not Delivered (5) to 6 and changes nothing else in any order; Delivered orders
and unregistered slots are untouched. It writes exactly one Canceled record for each
registered order that is not Delivered, in index order, and no other Canceled record, so the
number of Canceled records grows by the number of such orders. Orders that were already
Canceled are among them: they keep status 6 and are recorded again. -/
theorem signal_handler_cancels_undelivered (s : Shop) (cooks : List Cook)
    (delivery_persons : List DeliveryPerson) :
    (∀ k, (signal_handler s SIGINT cooks delivery_persons).orders k
        = if k < s.order_count ∧ (s.orders k).status ≠ 5 then { s.orders k with status := 6 }
          else s.orders k) ∧
      (∃ report, (signal_handler s SIGINT cooks delivery_persons).trace
          = s.trace ++ [Event.print_rip]
              ++ (undelivered s).map (fun i => canceled_record (s.orders i)) ++ report ∧
        canceled_records report = 0) ∧
      canceled_records (signal_handler s SIGINT cooks delivery_persons).trace
        = canceled_records s.trace + (undelivered s).length := by
  obtain ⟨ho, ht⟩ := cancel_loop_spec (s.emit Event.print_rip) s.order_count
  obtain ⟨hpo, report, hpt, hpr⟩ :=
    print_most_efficient_workers_effect (cancel_all (s.emit Event.print_rip)) cooks
      delivery_persons
  have hsig : signal_handler s SIGINT cooks delivery_persons
      = print_most_efficient_workers (cancel_all (s.emit Event.print_rip)) cooks
          delivery_persons := by
    simp [signal_handler]
  have htr : (signal_handler s SIGINT cooks delivery_persons).trace
      = s.trace ++ [Event.print_rip]
          ++ (undelivered s).map (fun i => canceled_record (s.orders i)) ++ report := by
    rw [hsig, hpt]
    simp only [cancel_all, emit_order_count]
    rw [ht]
    simp [undelivered]
  refine ⟨?_, ⟨report, htr, hpr⟩, ?_⟩
  · intro k
    rw [hsig, hpo]
    simp only [cancel_all, emit_order_count]
    rw [ho k]
    simp
  · rw [htr]
    have hall : canceled_records ((undelivered s).map (fun i => canceled_record (s.orders i)))
        = (undelivered s).length := by
      simp only [canceled_records, List.countP_map]
      rw [List.countP_eq_length.mpr]
      intro i _
      simp [canceled_record]
    simp only [canceled_records, List.countP_append] at hall hpr ⊢
    rw [hall, hpr]
    simp

end Shutdown

/-! ## One iteration of a courier -/

section Courier

/-- C1 fails in `delivery_routine`: the only order waits in the delivery queue; while the
bag is filled its OutForDelivery send fails, so it is canceled (status 6, flag 1) but stays
in the bag; the trip loop of the same iteration then sets its status to 5, sends 5 and
counts it as delivered. -/
theorem canceled_order_is_delivered :
    (ready_one.orders 0).status = 3 ∧
      ((fill_bag (fun _ => (false, true)) MAX_ORDERS ready_one courier0).toOption.map
          (fun r => ((r.1.orders 0).status, (r.1.orders 0).canceled_flag, r.2.bag 0, r.2.bag_count)))
        = some (6, 1, some 0, 1) ∧
      ((delivery_iteration ready_one courier0 (fun _ => (false, true))
          (fun _ => (true, true))).toOption.map
          (fun r => ((r.1.orders 0).status, (r.1.orders 0).canceled_flag, r.1.delivered_count,
            r.2.delivered_orders)))
        = some (5, 1, 1, 1) ∧
      ((delivery_iteration ready_one courier0 (fun _ => (false, true))
          (fun _ => (true, true))).toOption.map (fun r => r.1.trace.drop 11))
        = some [Event.log 1 3 4 4 0 100, Event.send 7 4 false, Event.print_canceled 1,
            Event.call_cancel 0, Event.log 1 3 4 6 (-1) 100, Event.send 7 6 true,
            Event.log 1 3 4 5 0 100, Event.send 7 5 true, Event.call_notify,
            Event.close 7] := by
  decide

theorem fill_bag_spec (fuel : Nat) :
    ∀ (env : Nat → Bool × Bool) (s : Shop) (d : DeliveryPerson),
      s.delivery_queue_start < MAX_ORDERS → s.delivery_queue_end < MAX_ORDERS →
      (∀ j, j < fill_amount s d →
        (s.delivery_queue ((s.delivery_queue_start + j) % MAX_ORDERS)).isSome = true) →
      fill_amount s d < fuel →
      ∃ s' d', fill_bag env fuel s d = Except.ok (s', d') ∧
        d'.bag_count = d.bag_count + fill_amount s d ∧
        (∀ j, j < fill_amount s d →
          d'.bag (d.bag_count + j)
            = s.delivery_queue ((s.delivery_queue_start + j) % MAX_ORDERS)) ∧
        (∀ k, k < d.bag_count ∨ d.bag_count + fill_amount s d ≤ k → d'.bag k = d.bag k) ∧
        s'.delivery_queue_start = (s.delivery_queue_start + fill_amount s d) % MAX_ORDERS ∧
        s'.delivery_queue_end = s.delivery_queue_end ∧
        s'.delivery_queue = s.delivery_queue := by
  induction fuel with
  | zero => intro env s d _ _ _ hf; omega
  | succ fuel ih =>
    intro env s d hs he hsome hf
    rw [fill_bag]
    by_cases hc : d.bag_count < MAX_DELIVERY_BAG ∧ s.delivery_queue_start ≠ s.delivery_queue_end
    · rw [if_pos hc]
      obtain ⟨hb, hne⟩ := hc
      have hpos : 0 < fill_amount s d := by
        simp only [fill_amount, delivery_waiting, MAX_ORDERS, MAX_DELIVERY_BAG] at *
        split_ifs <;> omega
      have h0 := hsome 0 hpos
      simp only [Nat.add_zero, Nat.mod_eq_of_lt hs] at h0
      obtain ⟨o, ho⟩ := Option.isSome_iff_exists.mp h0
      have hdq : dequeue_delivery s = (some o,
          { s with delivery_queue_start :=
              if s.delivery_queue_start + 1 = MAX_ORDERS then 0
              else s.delivery_queue_start + 1 }) := by
        simp [dequeue_delivery, hne, ho]
      rw [hdq]
      simp only [bag_put, if_pos hb]
      have key : ∀ (s3 : Shop) (d1 : DeliveryPerson),
          s3.delivery_queue_start
            = (if s.delivery_queue_start + 1 = MAX_ORDERS then 0
               else s.delivery_queue_start + 1) →
          s3.delivery_queue_end = s.delivery_queue_end →
          s3.delivery_queue = s.delivery_queue →
          d1.bag_count = d.bag_count + 1 →
          d1.bag = (fun k => if k = d.bag_count then some o else d.bag k) →
          ∃ s' d', fill_bag (fun k => env (k + 1)) fuel s3 d1 = Except.ok (s', d') ∧
            d'.bag_count = d.bag_count + fill_amount s d ∧
            (∀ j, j < fill_amount s d →
              d'.bag (d.bag_count + j)
                = s.delivery_queue ((s.delivery_queue_start + j) % MAX_ORDERS)) ∧
            (∀ k, k < d.bag_count ∨ d.bag_count + fill_amount s d ≤ k →
              d'.bag k = d.bag k) ∧
            s'.delivery_queue_start
              = (s.delivery_queue_start + fill_amount s d) % MAX_ORDERS ∧
            s'.delivery_queue_end = s.delivery_queue_end ∧
            s'.delivery_queue = s.delivery_queue := by
        intro s3 d1 e1 e2 e3 e4 e5
        have hfa : fill_amount s3 d1 + 1 = fill_amount s d := by
          simp only [fill_amount, delivery_waiting, e1, e2, e4, MAX_ORDERS,
            MAX_DELIVERY_BAG] at *
          split_ifs <;> omega
        have hs3 : s3.delivery_queue_start < MAX_ORDERS := by
          rw [e1]; simp only [MAX_ORDERS] at *; split_ifs <;> omega
        have hidx : ∀ j, (s3.delivery_queue_start + j) % MAX_ORDERS
            = (s.delivery_queue_start + (j + 1)) % MAX_ORDERS := by
          intro j
          rw [e1]; simp only [MAX_ORDERS] at *; split_ifs <;> omega
        obtain ⟨s', d', hrun, hcnt, hbag, hframe, hst, hen, hq⟩ :=
          ih (fun k => env (k + 1)) s3 d1 hs3 (by rw [e2]; exact he)
            (by
              intro j hj
              rw [e3, hidx j]
              exact hsome (j + 1) (by omega))
            (by omega)
        refine ⟨s', d', hrun, by omega, ?_, ?_, ?_, by rw [hen, e2], by rw [hq, e3]⟩
        · intro j hj
          rcases j with _ | j
          · rw [Nat.add_zero, Nat.add_zero, Nat.mod_eq_of_lt hs,
              hframe d.bag_count (Or.inl (by omega)), e5, ho]
            simp
          · have := hbag j (by omega)
            rw [e4, e3, hidx j] at this
            rw [← this]
            congr 1
            omega
        · intro k hk
          rw [hframe k (by omega), e5]
          have : k ≠ d.bag_count := by omega
          simp [this]
        · rw [hst, hidx, hfa]
      apply key
      · split_ifs <;> simp
      · split_ifs <;> simp
      · split_ifs <;> simp
      · rfl
      · rfl
    · rw [if_neg hc]
      have hz : fill_amount s d = 0 := by
        simp only [fill_amount, delivery_waiting, MAX_ORDERS, MAX_DELIVERY_BAG] at *
        split_ifs <;> omega
      refine ⟨s, d, rfl, ?_⟩
      simp [hz, Nat.mod_eq_of_lt hs]

/-- The fill loop on its own, in terms of the index distance. For a courier with
`bag_count <= MAX_DELIVERY_BAG`, queue indices in range and non-`NULL` pointers at the front
of the delivery queue, the loop returns for every outcome of the sends without ever writing
outside `bag[0..2]` (`bag_put` faults on such a write). It moves exactly
`fill_amount s d = min (3 - bag_count) (delivery_waiting s)` orders: the `j`-th order from
the front of the queue lands in `bag[bag_count + j]`, at an index below 3, no other bag entry
changes, `bag_count` grows by that amount and stays at most 3, and the queue start advances by
that amount around the buffer. The index distance is the number of queued orders only while
fewer than `MAX_ORDERS` are queued (see `full_delivery_queue_moves_nothing`). -/
theorem fill_loop_moves_queue_front (env : Nat → Bool × Bool) (s : Shop) (d : DeliveryPerson)
    (hb : d.bag_count ≤ MAX_DELIVERY_BAG)
    (hs : s.delivery_queue_start < MAX_ORDERS) (he : s.delivery_queue_end < MAX_ORDERS)
    (hsome : ∀ j, j < fill_amount s d →
      (s.delivery_queue ((s.delivery_queue_start + j) % MAX_ORDERS)).isSome = true) :
    ∃ s' d', fill_bag env MAX_ORDERS s d = Except.ok (s', d') ∧
      d'.bag_count = d.bag_count + fill_amount s d ∧
      d'.bag_count ≤ MAX_DELIVERY_BAG ∧
      (∀ j, j < fill_amount s d →
        d.bag_count + j < MAX_DELIVERY_BAG ∧
        d'.bag (d.bag_count + j)
          = s.delivery_queue ((s.delivery_queue_start + j) % MAX_ORDERS)) ∧
      (∀ k, k < d.bag_count ∨ d.bag_count + fill_amount s d ≤ k → d'.bag k = d.bag k) ∧
      s'.delivery_queue_start = (s.delivery_queue_start + fill_amount s d) % MAX_ORDERS ∧
      s'.delivery_queue_end = s.delivery_queue_end ∧
      s'.delivery_queue = s.delivery_queue := by
  have hle : fill_amount s d ≤ MAX_DELIVERY_BAG - d.bag_count := by
    unfold fill_amount; exact min_le_left _ _
  have hfuel : fill_amount s d < MAX_ORDERS := by
    simp only [MAX_ORDERS, MAX_DELIVERY_BAG] at *; omega
  obtain ⟨s', d', hrun, hcnt, hbag, hframe, hst, hen, hq⟩ :=
    fill_bag_spec MAX_ORDERS env s d hs he hsome hfuel
  refine ⟨s', d', hrun, hcnt, by omega, ?_, hframe, hst, hen, hq⟩
  intro j hj
  exact ⟨by omega, hbag j hj⟩

/-- Example: the courier with an empty bag and one order waiting. -/
theorem fill_loop_moves_queue_front_witness :
    courier0.bag_count ≤ MAX_DELIVERY_BAG ∧ fill_amount ready_one courier0 = 1 ∧
      ∃ s' d', fill_bag (fun _ => (true, true)) MAX_ORDERS ready_one courier0
          = Except.ok (s', d') ∧
        d'.bag_count = 1 ∧ d'.bag 0 = some 0 ∧ s'.delivery_queue_start = 1 := by
  refine ⟨by decide, by decide, ?_⟩
  obtain ⟨s', d', h1, h2, _, h4, _, h6, _⟩ :=
    fill_loop_moves_queue_front (fun _ => (true, true)) ready_one courier0 (by decide)
      (by decide) (by decide) (by decide)
  exact ⟨s', d', h1, by rw [h2]; decide, (h4 0 (by decide)).2.trans (by decide),
    by rw [h6]; decide⟩

end Courier

/-! ## The all-orders-completed broadcast -/

section Broadcast

theorem notify_loop_effect (s : Shop) (n : Nat) :
    ((List.range n).foldl
        (fun acc i =>
          if (acc.orders i).client_socket ≠ -1 then
            acc.emit (Event.close (acc.orders i).client_socket)
          else acc) s).order_count = s.order_count ∧
      ((List.range n).foldl
        (fun acc i =>
          if (acc.orders i).client_socket ≠ -1 then
            acc.emit (Event.close (acc.orders i).client_socket)
          else acc) s).delivered_count = s.delivered_count ∧
      notify_calls ((List.range n).foldl
        (fun acc i =>
          if (acc.orders i).client_socket ≠ -1 then
            acc.emit (Event.close (acc.orders i).client_socket)
          else acc) s) = notify_calls s := by
  induction n with
  | zero => simp
  | succ n ih =>
    rw [List.range_succ, List.foldl_append]
    simp only [List.foldl_cons, List.foldl_nil]
    obtain ⟨h1, h2, h3⟩ := ih
    split_ifs
    · refine ⟨by simpa using h1, by simpa using h2, ?_⟩
      rw [← h3]
      simp [notify_calls]
    · exact ⟨h1, h2, h3⟩

theorem notify_effect (s : Shop) :
    (notify_clients_all_orders_completed s).order_count = s.order_count ∧
      (notify_clients_all_orders_completed s).delivered_count = s.delivered_count ∧
      notify_calls (notify_clients_all_orders_completed s) = notify_calls s + 1 := by
  obtain ⟨h1, h2, h3⟩ := notify_loop_effect (s.emit Event.call_notify) s.order_count
  refine ⟨h1, h2, ?_⟩
  unfold notify_clients_all_orders_completed
  rw [h3]
  simp [notify_calls]

theorem announce_notify_calls (s : Shop) (i : Nat) (st tid : Int) (ok : Bool) :
    notify_calls (announce s i st tid ok) = notify_calls s := by
  simp only [notify_calls, announce, send_status, emit_trace, modify_order_trace,
    log_order_status_trace, log_lines]
  split_ifs <;> simp

/-- A successful delivery step: one more delivered order, the same `order_count`, and one
more broadcast exactly when the new `delivered_count` equals `order_count`. -/
theorem deliver_effect (s : Shop) (d : DeliveryPerson) (o : Nat) :
    (deliver_order s d o true true).1.order_count = s.order_count ∧
      (deliver_order s d o true true).1.delivered_count = s.delivered_count + 1 ∧
      notify_calls (deliver_order s d o true true).1
        = notify_calls s + (if s.delivered_count + 1 = s.order_count then 1 else 0) := by
  have ha1 : (announce s o 5 d.id true).order_count = s.order_count := rfl
  have ha2 : (announce s o 5 d.id true).delivered_count = s.delivered_count := rfl
  have ha3 := announce_notify_calls s o 5 d.id true
  simp only [deliver_order, if_true]
  generalize announce s o 5 d.id true = a at ha1 ha2 ha3 ⊢
  have hn : notify_calls { a with delivered_count := a.delivered_count + 1 } = notify_calls s :=
    ha3
  by_cases h : s.delivered_count + 1 = s.order_count
  · have hc : a.delivered_count + 1 = a.order_count := by rw [ha1, ha2]; exact h
    rw [if_pos hc, if_pos h]
    obtain ⟨h1, h2, h3⟩ := notify_effect { a with delivered_count := a.delivered_count + 1 }
    exact ⟨h1.trans ha1, h2.trans (by rw [← ha2]), h3.trans (by rw [hn])⟩
  · have hc : ¬ a.delivered_count + 1 = a.order_count := by rw [ha1, ha2]; exact h
    rw [if_neg hc, if_neg h]
    exact ⟨ha1, by rw [← ha2], hn⟩

/-- An intake never lowers `order_count` and touches neither `delivered_count` nor the
broadcast. -/
theorem manager_effect (s : Shop) (socket : Int) (rx ry : Option Int) (now : Int) :
    s.order_count ≤ (manager s socket rx ry now).order_count ∧
      (manager s socket rx ry now).delivered_count = s.delivered_count ∧
      notify_calls (manager s socket rx ry now) = notify_calls s := by
  unfold manager
  rcases rx with _ | x <;> rcases ry with _ | y <;>
    first
      | (refine ⟨le_refl _, rfl, ?_⟩; simp [notify_calls])
      | skip
  simp only
  split_ifs
  · refine ⟨by simp [enqueue_preparation], by simp [enqueue_preparation], ?_⟩
    simp [notify_calls, enqueue_preparation, log_lines]
  · refine ⟨le_refl _, rfl, ?_⟩
    simp [notify_calls]

/-- The effect of one step of a run on the three counters. -/
theorem move_effect (s : Shop) (m : Move) :
    s.order_count ≤ (m.apply s).order_count ∧
      (m.apply s).delivered_count
        = s.delivered_count + (if m.is_delivery = true then 1 else 0) ∧
      notify_calls (m.apply s)
        = notify_calls s
          + (if m.is_delivery = true ∧ (m.apply s).delivered_count = (m.apply s).order_count
             then 1 else 0) := by
  cases m with
  | intake socket rx ry now =>
    obtain ⟨h1, h2, h3⟩ := manager_effect s socket rx ry now
    exact ⟨h1, by simpa [Move.apply, Move.is_delivery] using h2,
      by simpa [Move.apply, Move.is_delivery] using h3⟩
  | deliver d o =>
    obtain ⟨h1, h2, h3⟩ := deliver_effect s d o
    refine ⟨le_of_eq h1.symm, by simpa [Move.apply, Move.is_delivery] using h2, ?_⟩
    simp only [Move.apply, Move.is_delivery, true_and]
    rw [h3, h2, h1]

theorem play_append (s : Shop) (a b : List Move) : play s (a ++ b) = play (play s a) b := by
  simp [play, List.foldl_append]

theorem play_snoc (s : Shop) (a : List Move) (m : Move) :
    play s (a ++ [m]) = m.apply (play s a) := by
  simp [play, List.foldl_append]

theorem play_cons (s : Shop) (m : Move) (ms : List Move) :
    play s (m :: ms) = play (m.apply s) ms := rfl

/-- Along a run `order_count`, `delivered_count` and the number of broadcasts never decrease. -/
theorem play_monotone (ms : List Move) :
    ∀ s : Shop, s.order_count ≤ (play s ms).order_count ∧
      s.delivered_count ≤ (play s ms).delivered_count ∧
      notify_calls s ≤ notify_calls (play s ms) := by
  induction ms with
  | nil => intro s; exact ⟨le_refl _, le_refl _, le_refl _⟩
  | cons m ms ih =>
    intro s
    obtain ⟨h1, h2, h3⟩ := move_effect s m
    obtain ⟨i1, i2, i3⟩ := ih (m.apply s)
    rw [play_cons]
    exact ⟨le_trans h1 i1, le_trans (by omega) i2, le_trans (by omega) i3⟩

theorem legal_append (a b : List Move) :
    ∀ s : Shop, legal s (a ++ b) = (legal s a && legal (play s a) b) := by
  induction a with
  | nil => intro s; simp [legal, play]
  | cons m a ih =>
    intro s
    show ((!m.is_delivery || decide (s.delivered_count < s.order_count))
        && legal (m.apply s) (a ++ b))
      = (((!m.is_delivery || decide (s.delivered_count < s.order_count))
        && legal (m.apply s) a) && legal (play (m.apply s) a) b)
    rw [ih (m.apply s), Bool.and_assoc]

/-- In a legal run the deliveries never overtake the intakes. -/
theorem legal_delivered_le (ms : List Move) :
    ∀ s : Shop, legal s ms = true → s.delivered_count ≤ s.order_count →
      (play s ms).delivered_count ≤ (play s ms).order_count := by
  induction ms with
  | nil => intro s _ h; exact h
  | cons m ms ih =>
    intro s hl h
    simp only [legal, Bool.and_eq_true, Bool.or_eq_true, Bool.not_eq_true',
      decide_eq_true_eq] at hl
    obtain ⟨h1, h2, _⟩ := move_effect s m
    rw [play_cons]
    apply ih (m.apply s) hl.2
    rcases hl.1 with hm | hm
    · rw [h2, hm]; simp only [Bool.false_eq_true, if_false]; omega
    · rw [h2]; split_ifs <;> omega

/-- A run that raises `delivered_count` to `k` contains the step that first makes it `k`. -/
theorem first_crossing (k : Nat) (s : Shop) (hs : s.delivered_count < k) (ms : List Move) :
    (play s ms).delivered_count = k →
      ∃ pre m post, ms = pre ++ m :: post ∧ (play s pre).delivered_count < k ∧
        (play s (pre ++ [m])).delivered_count = k := by
  induction ms using List.reverseRecOn with
  | nil => intro h; simp only [play, List.foldl_nil] at h; omega
  | append_singleton ms m ih =>
    intro h
    by_cases hk : (play s ms).delivered_count = k
    · obtain ⟨pre, m', post, e, h1, h2⟩ := ih hk
      exact ⟨pre, m', post ++ [m], by rw [e]; simp, h1, h2⟩
    · refine ⟨ms, m, [], rfl, ?_, h⟩
      rw [play_snoc] at h
      obtain ⟨_, h2, _⟩ := move_effect (play s ms) m
      rw [h2] at h
      split_ifs at h <;> omega

/-- A run of deliveries only: `order_count` is constant and the broadcast fires once if the
deliveries reach `order_count` from below, and not at all otherwise. -/
theorem deliveries_only (dels : List Move) :
    ∀ s : Shop, (∀ m ∈ dels, m.is_delivery = true) →
      (play s dels).order_count = s.order_count ∧
      (play s dels).delivered_count = s.delivered_count + dels.length ∧
      notify_calls (play s dels)
        = notify_calls s
          + (if s.delivered_count < s.order_count
                ∧ s.order_count ≤ s.delivered_count + dels.length then 1 else 0) := by
  induction dels with
  | nil =>
    intro s _
    refine ⟨rfl, rfl, ?_⟩
    have : ¬ (s.delivered_count < s.order_count ∧ s.order_count ≤ s.delivered_count + 0) := by
      omega
    simp only [List.length_nil, if_neg this]
    rfl
  | cons m dels ih =>
    intro s hall
    have hm : m.is_delivery = true := hall m (List.mem_cons_self _ _)
    obtain ⟨i1, i2, i3⟩ := ih (m.apply s) (fun x hx => hall x (List.mem_cons_of_mem _ hx))
    cases m with
    | intake socket rx ry now => simp [Move.is_delivery] at hm
    | deliver d o =>
      obtain ⟨h1, h2, h3⟩ := deliver_effect s d o
      simp only [Move.apply] at i1 i2 i3
      rw [play_cons]
      simp only [Move.apply, List.length_cons]
      rw [i1, i2, i3]
      simp only [h1, h2, h3]
      refine ⟨trivial, by omega, ?_⟩
      split_ifs <;> omega

/-- A run of intakes only leaves `delivered_count` and the broadcast untouched. -/
theorem intakes_only (ins : List Move) :
    ∀ s : Shop, (∀ m ∈ ins, m.is_delivery = false) →
      (play s ins).delivered_count = s.delivered_count ∧
      notify_calls (play s ins) = notify_calls s := by
  induction ins with
  | nil => intro s _; exact ⟨rfl, rfl⟩
  | cons m ins ih =>
    intro s hall
    have hm : m.is_delivery = false := hall m (List.mem_cons_self _ _)
    obtain ⟨i1, i2⟩ := ih (m.apply s) (fun x hx => hall x (List.mem_cons_of_mem _ hx))
    obtain ⟨_, h2, h3⟩ := move_effect s m
    rw [play_cons, i1, i2, h2, h3, hm]
    simp

/-- C6, as stated, fails: two orders are registered in total and every send succeeds, but
the first order is delivered before the second one is accepted. The broadcast is triggered
twice, once after each delivery, both in the full pipeline (`two_rounds`) and in the
corresponding run of intakes and deliveries. -/
theorem broadcast_fires_twice :
    two_rounds.map (fun s => (s.order_count, s.delivered_count, notify_calls s))
        = some (2, 2, 2) ∧
      legal Shop.init [Move.intake 7 (some 3) (some 4) 100, Move.deliver courier0 0,
        Move.intake 8 (some 6) (some 8) 200, Move.deliver courier0 1] = true ∧
      (play Shop.init [Move.intake 7 (some 3) (some 4) 100, Move.deliver courier0 0,
        Move.intake 8 (some 6) (some 8) 200, Move.deliver courier0 1]).order_count = 2 ∧
      notify_calls (play Shop.init [Move.intake 7 (some 3) (some 4) 100,
        Move.deliver courier0 0, Move.intake 8 (some 6) (some 8) 200,
        Move.deliver courier0 1]) = 2 := by
  decide

/-- C6, amended: in every legal run from the initial state in which every send succeeds,
`N >= 1` orders are registered in total and all `N` are delivered, the broadcast is
triggered at exactly those delivery steps after which `delivered_count` equals the
`order_count` of that moment. Hence it is triggered at least once, and in particular at the
step that first makes `delivered_count` equal `N`; it is triggered exactly once when all
intakes come before all deliveries. -/
theorem broadcast_at_catch_up (ms : List Move) (hl : legal Shop.init ms = true)
    (hN : 1 ≤ (play Shop.init ms).order_count)
    (hall : (play Shop.init ms).delivered_count = (play Shop.init ms).order_count) :
    1 ≤ notify_calls (play Shop.init ms) ∧
      (∀ pre m post, ms = pre ++ m :: post →
        notify_calls (play Shop.init (pre ++ [m]))
          = notify_calls (play Shop.init pre)
            + (if m.is_delivery = true
                  ∧ (play Shop.init (pre ++ [m])).delivered_count
                    = (play Shop.init (pre ++ [m])).order_count
               then 1 else 0)) ∧
      (∀ pre m post, ms = pre ++ m :: post →
        (play Shop.init pre).delivered_count < (play Shop.init ms).order_count →
        (play Shop.init (pre ++ [m])).delivered_count = (play Shop.init ms).order_count →
        notify_calls (play Shop.init (pre ++ [m])) = notify_calls (play Shop.init pre) + 1) ∧
      (∀ ins dels, ms = ins ++ dels → (∀ m ∈ ins, m.is_delivery = false) →
        (∀ m ∈ dels, m.is_delivery = true) → notify_calls (play Shop.init ms) = 1) := by
  have hstep : ∀ pre m post, ms = pre ++ m :: post →
      notify_calls (play Shop.init (pre ++ [m]))
        = notify_calls (play Shop.init pre)
          + (if m.is_delivery = true
                ∧ (play Shop.init (pre ++ [m])).delivered_count
                  = (play Shop.init (pre ++ [m])).order_count
             then 1 else 0) := by
    intro pre m post _
    rw [play_snoc]
    exact (move_effect (play Shop.init pre) m).2.2
  have hfirst : ∀ pre m post, ms = pre ++ m :: post →
      (play Shop.init pre).delivered_count < (play Shop.init ms).order_count →
      (play Shop.init (pre ++ [m])).delivered_count = (play Shop.init ms).order_count →
      notify_calls (play Shop.init (pre ++ [m])) = notify_calls (play Shop.init pre) + 1 := by
    intro pre m post e hlt heq
    have hsplit : ms = (pre ++ [m]) ++ post := by rw [e]; simp
    have hlp : legal Shop.init (pre ++ [m]) = true := by
      have := hl
      rw [hsplit, legal_append] at this
      exact (Bool.and_eq_true _ _ ▸ this).1
    have hle := legal_delivered_le (pre ++ [m]) Shop.init hlp (le_refl _)
    have hmono := (play_monotone post (play Shop.init (pre ++ [m]))).1
    rw [← play_append, ← hsplit] at hmono
    have hm : m.is_delivery = true := by
      by_contra hc
      have h2 := (move_effect (play Shop.init pre) m).2.1
      rw [← play_snoc, heq] at h2
      have hf : m.is_delivery = false := by simpa using hc
      rw [hf] at h2
      simp only [Bool.false_eq_true, if_false, Nat.add_zero] at h2
      omega
    rw [hstep pre m post e, if_pos ⟨hm, by omega⟩]
  refine ⟨?_, hstep, hfirst, ?_⟩
  · have h0 : Shop.init.delivered_count < (play Shop.init ms).order_count := hN
    obtain ⟨pre, m, post, e, h1, h2⟩ :=
      first_crossing (play Shop.init ms).order_count Shop.init h0 ms hall
    have hf := hfirst pre m post e h1 h2
    have hsplit : ms = (pre ++ [m]) ++ post := by rw [e]; simp
    have hmono := (play_monotone post (play Shop.init (pre ++ [m]))).2.2
    rw [← play_append, ← hsplit] at hmono
    omega
  · intro ins dels e hi hd
    obtain ⟨a1, a2⟩ := intakes_only ins Shop.init hi
    obtain ⟨b1, b2, b3⟩ := deliveries_only dels (play Shop.init ins) hd
    rw [e, play_append] at hN hall ⊢
    rw [b3, a2]
    rw [b1] at hN hall
    rw [b2, a1] at hall
    have h00 : Shop.init.delivered_count = 0 := rfl
    have hn0 : notify_calls Shop.init = 0 := rfl
    rw [a1, h00, hn0]
    rw [h00] at hall
    rw [if_pos ⟨by omega, by omega⟩]

/-- Witness of C6 (amended): two intakes followed by two deliveries. -/
theorem broadcast_at_catch_up_witness :
    legal Shop.init [Move.intake 7 (some 3) (some 4) 100,
        Move.intake 8 (some 6) (some 8) 200, Move.deliver courier0 0,
        Move.deliver courier0 1] = true ∧
      notify_calls (play Shop.init [Move.intake 7 (some 3) (some 4) 100,
        Move.intake 8 (some 6) (some 8) 200, Move.deliver courier0 0,
        Move.deliver courier0 1]) = 1 :=
  ⟨by decide,
    (broadcast_at_catch_up [Move.intake 7 (some 3) (some 4) 100,
        Move.intake 8 (some 6) (some 8) 200, Move.deliver courier0 0,
        Move.deliver courier0 1] (by decide) (by decide) (by decide)).2.2.2
      [Move.intake 7 (some 3) (some 4) 100, Move.intake 8 (some 6) (some 8) 200]
      [Move.deliver courier0 0, Move.deliver courier0 1] rfl (by decide) (by decide)⟩

end Broadcast

/-! ## The oven bound -/

section Oven

theorem countP_set_add {α : Type} (p : α → Bool) (l : List α) (i : Nat) (a b : α)
    (h : l[i]? = some a) :
    (l.set i b).countP p + (if p a = true then 1 else 0)
      = l.countP p + (if p b = true then 1 else 0) := by
  induction l generalizing i with
  | nil => simp at h
  | cons x xs ih =>
    cases i with
    | zero =>
      simp only [List.getElem?_cons_zero, Option.some.injEq] at h
      subst h
      simp only [List.set_cons_zero, List.countP_cons]
      omega
    | succ i =>
      simp only [List.getElem?_cons_succ] at h
      simp only [List.set_cons_succ, List.countP_cons]
      have := ih i h
      omega

theorem getElem?_set_cases {α : Type} (l : List α) (i j : Nat) (b u : α)
    (h : (l.set i b)[j]? = some u) : (j = i ∧ u = b) ∨ (j ≠ i ∧ l[j]? = some u) := by
  by_cases hji : i = j
  · subst hji
    left
    rw [List.getElem?_set_self'] at h
    cases hl : l[i]? with
    | none => rw [hl] at h; simp at h
    | some a => rw [hl] at h; simp at h; exact ⟨rfl, h.symm⟩
  · right
    rw [List.getElem?_set_ne hji] at h
    exact ⟨fun e => hji e.symm, h⟩

/-- Counting the Cooking orders over the first `n` slots after one slot `o` changed. -/
theorem countP_range_update (f g : Nat → Order) (o n : Nat)
    (hne : ∀ k, k ≠ o → g k = f k) :
    (List.range n).countP (fun i => decide ((g i).status = 2))
        + (if o < n ∧ (f o).status = 2 then 1 else 0)
      = (List.range n).countP (fun i => decide ((f i).status = 2))
        + (if o < n ∧ (g o).status = 2 then 1 else 0) := by
  induction n with
  | zero => simp
  | succ n ih =>
    rw [List.range_succ, List.countP_append, List.countP_append]
    simp only [List.countP_cons, List.countP_nil, decide_eq_true_eq, Nat.zero_add]
    by_cases hn : n = o
    · subst hn
      have h1 : ¬ (n < n ∧ (f n).status = 2) := by omega
      have h2 : ¬ (n < n ∧ (g n).status = 2) := by omega
      simp only [h1, h2, if_false, Nat.add_zero] at ih
      have h3 : n < n + 1 := by omega
      simp only [h3, true_and]
      omega
    · rw [hne n hn]
      have h1 : (o < n + 1) ↔ o < n := by omega
      simp only [h1]
      omega

theorem cooking_count_update (s s' : Shop) (o : Nat) (hoc : s'.order_count = s.order_count)
    (ho : o < s.order_count) (hne : ∀ k, k ≠ o → s'.orders k = s.orders k) :
    cooking_count s' + (if (s.orders o).status = 2 then 1 else 0)
      = cooking_count s + (if (s'.orders o).status = 2 then 1 else 0) := by
  have := countP_range_update s.orders s'.orders o s.order_count hne
  simp only [ho, true_and] at this
  simp only [cooking_count, hoc]
  exact this

theorem cooking_count_same (s s' : Shop) (hoc : s'.order_count = s.order_count)
    (hsame : s'.orders = s.orders) : cooking_count s' = cooking_count s := by
  simp only [cooking_count, hoc, hsame]

/-- A cook whose held order is not `o` is not affected by a change of the order `o`. -/
theorem ThreadOk_frame (s s' : Shop) (pc : CookPc) (o : Nat)
    (hoc : s'.order_count = s.order_count) (hne : ∀ k, k ≠ o → s'.orders k = s.orders k)
    (hnot : pc.held ≠ some o) (h : ThreadOk s pc) : ThreadOk s' pc := by
  cases pc with
  | take => trivial
  | post => trivial
  | wait_oven p =>
    have hp : p ≠ o := fun e => hnot (by rw [e]; rfl)
    simp only [ThreadOk, hoc, hne p hp] at h ⊢
    exact h
  | cook p =>
    have hp : p ≠ o := fun e => hnot (by rw [e]; rfl)
    simp only [ThreadOk, hoc, hne p hp] at h ⊢
    exact h
  | ready p =>
    have hp : p ≠ o := fun e => hnot (by rw [e]; rfl)
    simp only [ThreadOk, hoc, hne p hp] at h ⊢
    exact h

/-- The waiting part of the queue is not affected by a change of an order that is not in
its initial state. -/
theorem QueueOk_frame (s s' : Shop) (o : Nat)
    (hoc : s'.order_count = s.order_count) (hqs : s'.prep_queue_start = s.prep_queue_start)
    (hqe : s'.prep_queue_end = s.prep_queue_end) (hq : s'.prep_queue = s.prep_queue)
    (hne : ∀ k, k ≠ o → s'.orders k = s.orders k) (hst : (s.orders o).status ≠ 0)
    (h : QueueOk s) : QueueOk s' := by
  intro hdiff
  rw [hqs, hqe] at hdiff
  obtain ⟨h1, h2⟩ := h hdiff
  rw [hqs, hoc, hq]
  refine ⟨h1, ?_⟩
  intro j hj1 hj2
  obtain ⟨a, b, c⟩ := h2 j hj1 hj2
  have hjo : j ≠ o := by
    intro e
    rw [e] at b
    exact hst b
  rw [hne j hjo]
  exact ⟨a, b, c⟩

/-- A cook that holds an order knows that its status is not 0. -/
theorem ThreadOk_status (s : Shop) (pc : CookPc) (o : Nat) (h : ThreadOk s pc)
    (ho : pc.held = some o) : o < s.order_count ∧ (s.orders o).status ≠ 0 := by
  cases pc with
  | take => simp [CookPc.held] at ho
  | post => simp [CookPc.held] at ho
  | wait_oven p =>
    simp only [CookPc.held, Option.some.injEq] at ho
    subst ho
    exact ⟨h.1, by rw [h.2.1]; decide⟩
  | cook p =>
    simp only [CookPc.held, Option.some.injEq] at ho
    subst ho
    exact ⟨h.1, by rw [h.2.1]; decide⟩
  | ready p =>
    simp only [CookPc.held, Option.some.injEq] at ho
    subst ho
    exact ⟨h.1, by rw [h.2]; decide⟩

/-- The invariant survives a step of cook `i` that leaves the store size and the queue tail
alone, keeps the other cooks' knowledge, and balances the oven and Cooking counts. -/
theorem inv_update (k : Kitchen) (hinv : KitchenInv k) (i : Nat) (t : CookThread)
    (hi : k.cooks[i]? = some t) (s' : Shop) (c' : Cook) (pc' : CookPc)
    (h_oc : s'.order_count = k.shop.order_count)
    (h_pe : s'.prep_queue_end = k.shop.prep_queue_end)
    (h_q : QueueOk s')
    (h_frame : ∀ (j : Nat) (u : CookThread), j ≠ i → k.cooks[j]? = some u →
      ThreadOk s' u.pc)
    (h_ok : ThreadOk s' pc')
    (h_held : ∀ o, pc'.held = some o → ∀ (j : Nat) (u : CookThread), j ≠ i →
      k.cooks[j]? = some u → u.pc.held ≠ some o)
    (h_oven : s'.oven_sem + (if pc'.holds_oven = true then 1 else 0)
      = k.shop.oven_sem + (if t.pc.holds_oven = true then 1 else 0))
    (h_cook : cooking_count s' + (if t.pc.is_ready = true then 1 else 0)
      = cooking_count k.shop + (if pc'.is_ready = true then 1 else 0)) :
    KitchenInv ⟨s', k.cooks.set i ⟨c', pc'⟩⟩ := by
  have hov := countP_set_add (fun t : CookThread => t.pc.holds_oven) k.cooks i t ⟨c', pc'⟩ hi
  have hrd := countP_set_add (fun t : CookThread => t.pc.is_ready) k.cooks i t ⟨c', pc'⟩ hi
  simp only at hov hrd
  refine ⟨?_, ?_, h_q, ?_, ?_, ?_, ?_⟩
  · show s'.order_count ≤ MAX_ORDERS
    rw [h_oc]; exact hinv.count_le
  · show s'.prep_queue_end = s'.order_count % MAX_ORDERS
    rw [h_pe, h_oc]; exact hinv.queue_end
  · intro j u hj
    rcases getElem?_set_cases _ _ _ _ _ hj with ⟨_, hu⟩ | ⟨hne, hu⟩
    · rw [hu]; exact h_ok
    · exact h_frame j u hne hu
  · intro a b u v o ha hb hu hv
    rcases getElem?_set_cases _ _ _ _ _ ha with ⟨ha1, ha2⟩ | ⟨ha1, ha2⟩ <;>
      rcases getElem?_set_cases _ _ _ _ _ hb with ⟨hb1, hb2⟩ | ⟨hb1, hb2⟩
    · rw [ha1, hb1]
    · rw [ha2] at hu
      exact absurd hv (h_held o hu b v hb1 hb2)
    · rw [hb2] at hv
      exact absurd hu (h_held o hv a u ha1 ha2)
    · exact hinv.distinct a b u v o ha2 hb2 hu hv
  · show s'.oven_sem + (k.cooks.set i ⟨c', pc'⟩).countP (fun t => t.pc.holds_oven)
      = MAX_OVEN_SIZE
    have := hinv.oven
    omega
  · show cooking_count s' = (k.cooks.set i ⟨c', pc'⟩).countP (fun t => t.pc.is_ready)
    have := hinv.cooking
    omega

theorem ThreadOk_congr (s s' : Shop) (pc : CookPc) (hoc : s'.order_count = s.order_count)
    (ho : s'.orders = s.orders) (h : ThreadOk s pc) : ThreadOk s' pc := by
  cases pc <;> simp only [ThreadOk, hoc, ho] at h ⊢ <;> exact h

theorem QueueOk_congr (s s' : Shop) (hoc : s'.order_count = s.order_count)
    (hqs : s'.prep_queue_start = s.prep_queue_start)
    (hqe : s'.prep_queue_end = s.prep_queue_end) (hq : s'.prep_queue = s.prep_queue)
    (ho : s'.orders = s.orders) (h : QueueOk s) : QueueOk s' := by
  simp only [QueueOk, hoc, hqs, hqe, hq, ho] at h ⊢
  exact h

/-- No other cook holds the order that cook `i` holds. -/
theorem others_do_not_hold (k : Kitchen) (hinv : KitchenInv k) (i : Nat) (t : CookThread)
    (hi : k.cooks[i]? = some t) (o : Nat) (ho : t.pc.held = some o) :
    ∀ (j : Nat) (u : CookThread), j ≠ i → k.cooks[j]? = some u → u.pc.held ≠ some o := by
  intro j u hj hu hc
  exact hj (hinv.distinct j i u t o hu hi hc ho)

/-- Line 221: a successful `sem_wait`. -/
theorem inv_wait_oven (k : Kitchen) (hinv : KitchenInv k) (i : Nat) (c : Cook) (o : Nat)
    (hi : k.cooks[i]? = some ⟨c, CookPc.wait_oven o⟩) (s' : Shop)
    (hs : sem_wait k.shop = some s') :
    KitchenInv ⟨s', k.cooks.set i ⟨c, CookPc.cook o⟩⟩ := by
  have hpos : 0 < k.shop.oven_sem := by
    by_contra hc
    simp [sem_wait, hc] at hs
  have hs' : s' = { k.shop with oven_sem := k.shop.oven_sem - 1 }.emit Event.sem_wait := by
    simp only [sem_wait, if_pos hpos, Option.some.injEq] at hs
    exact hs.symm
  subst hs'
  apply inv_update k hinv i _ hi
  · rfl
  · rfl
  · exact QueueOk_congr _ _ rfl rfl rfl rfl rfl hinv.queue_ok
  · intro j u _ hu
    exact ThreadOk_congr _ _ _ rfl rfl (hinv.thread_ok j u hu)
  · exact ThreadOk_congr _ _ _ rfl rfl (hinv.thread_ok i _ hi)
  · intro p hp
    exact others_do_not_hold k hinv i _ hi p hp
  · simp only [CookPc.holds_oven, emit_oven_sem]
    simp only [if_true, Bool.false_eq_true, if_false]
    omega
  · rw [cooking_count_same _ k.shop rfl rfl]
    rfl

/-- Lines 232, 248, 256: `sem_post`. -/
theorem inv_post (k : Kitchen) (hinv : KitchenInv k) (i : Nat) (c : Cook)
    (hi : k.cooks[i]? = some ⟨c, CookPc.post⟩) :
    KitchenInv ⟨sem_post k.shop, k.cooks.set i ⟨c, CookPc.take⟩⟩ := by
  apply inv_update k hinv i _ hi
  · rfl
  · rfl
  · exact QueueOk_congr _ _ rfl rfl rfl rfl rfl hinv.queue_ok
  · intro j u _ hu
    exact ThreadOk_congr _ _ _ rfl rfl (hinv.thread_ok j u hu)
  · trivial
  · intro p hp
    simp [CookPc.held] at hp
  · simp only [CookPc.holds_oven, sem_post, emit_oven_sem]
    simp only [if_true, Bool.false_eq_true, if_false]
  · rw [cooking_count_same _ k.shop rfl rfl]
    rfl

/-- The status of the order after a stage whose announcement failed: 6 when the flag was 0,
the announced status otherwise; never 2 unless 2 was announced to a flagged order. -/
theorem failed_stage_status (s : Shop) (o : Nat) (st tid : Int) (cok : Bool) :
    ((s.orders o).canceled_flag = 0 →
        ((cancel_if_not_canceled (announce s o st tid false) o cok).orders o).status = 6) ∧
      ((s.orders o).canceled_flag ≠ 0 →
        ((cancel_if_not_canceled (announce s o st tid false) o cok).orders o).status = st) := by
  have hf : ((announce s o st tid false).orders o).canceled_flag = (s.orders o).canceled_flag := by
    rw [announce_orders_self]
  constructor
  · intro h0
    unfold cancel_if_not_canceled
    rw [if_pos (by rw [hf]; exact h0)]
    exact (flag_and_cancel_status _ _ _).1
  · intro h1
    unfold cancel_if_not_canceled
    rw [if_neg (by rw [hf]; exact h1), announce_orders_self]

theorem failed_stage_orders_ne (s : Shop) (o k : Nat) (st tid : Int) (cok : Bool)
    (h : k ≠ o) :
    (cancel_if_not_canceled (announce s o st tid false) o cok).orders k = s.orders k := by
  rw [cancel_if_not_canceled_orders_ne _ _ _ _ h, announce_orders_ne _ _ _ _ _ _ h]

/-- Lines 222-235: the Cooking section. -/
theorem inv_cook (k : Kitchen) (hinv : KitchenInv k) (i : Nat) (c : Cook) (o : Nat)
    (hi : k.cooks[i]? = some ⟨c, CookPc.cook o⟩) (ok cok : Bool) :
    KitchenInv ⟨(cook_cook k.shop c o ok cok).1,
      k.cooks.set i ⟨c, (cook_cook k.shop c o ok cok).2⟩⟩ := by
  have hth : ThreadOk k.shop (CookPc.cook o) := hinv.thread_ok i _ hi
  obtain ⟨ho, hst, hfl⟩ := hth
  have hst0 : (k.shop.orders o).status ≠ 0 := by rw [hst]; decide
  have hothers := others_do_not_hold k hinv i _ hi o rfl
  cases ok with
  | true =>
    simp only [cook_cook, if_true]
    have hne : ∀ j, j ≠ o → (announce k.shop o 2 c.id true).orders j = k.shop.orders j :=
      fun j hj => announce_orders_ne _ _ _ _ _ _ hj
    have hnew : ((announce k.shop o 2 c.id true).orders o).status = 2 := by
      rw [announce_orders_self]
    apply inv_update k hinv i _ hi
    · rfl
    · rfl
    · exact QueueOk_frame k.shop _ o rfl rfl rfl rfl hne hst0 hinv.queue_ok
    · intro j u hj hu
      exact ThreadOk_frame k.shop _ _ o rfl hne (hothers j u hj hu) (hinv.thread_ok j u hu)
    · exact ⟨ho, hnew⟩
    · intro p hp
      simp only [CookPc.held, Option.some.injEq] at hp
      subst hp
      exact hothers
    · rfl
    · have := cooking_count_update k.shop (announce k.shop o 2 c.id true) o rfl ho hne
      rw [hst, hnew] at this
      simpa [CookPc.is_ready] using this
  | false =>
    simp only [cook_cook, Bool.false_eq_true, if_false]
    have hne : ∀ j, j ≠ o →
        (cancel_if_not_canceled (announce k.shop o 2 c.id false) o cok).orders j
          = k.shop.orders j :=
      fun j hj => failed_stage_orders_ne _ _ _ _ _ _ hj
    have hnew := (failed_stage_status k.shop o 2 c.id cok).1 hfl
    apply inv_update k hinv i _ hi
    · simp
    · simp
    · exact QueueOk_frame k.shop _ o (by simp) (by simp) (by simp) (by simp) hne hst0
        hinv.queue_ok
    · intro j u hj hu
      exact ThreadOk_frame k.shop _ _ o (by simp) hne (hothers j u hj hu)
        (hinv.thread_ok j u hu)
    · trivial
    · intro p hp
      simp [CookPc.held] at hp
    · simp [CookPc.holds_oven]
    · have := cooking_count_update k.shop
        (cancel_if_not_canceled (announce k.shop o 2 c.id false) o cok) o (by simp) ho hne
      rw [hst, hnew] at this
      simpa [CookPc.is_ready] using this

/-- Lines 238-254: the ReadyForDelivery section. -/
theorem inv_ready (k : Kitchen) (hinv : KitchenInv k) (i : Nat) (c : Cook) (o : Nat)
    (hi : k.cooks[i]? = some ⟨c, CookPc.ready o⟩) (ok cok : Bool) :
    KitchenInv ⟨(cook_ready k.shop c o ok cok).1,
      k.cooks.set i ⟨(cook_ready k.shop c o ok cok).2.1,
        (cook_ready k.shop c o ok cok).2.2⟩⟩ := by
  have hth : ThreadOk k.shop (CookPc.ready o) := hinv.thread_ok i _ hi
  obtain ⟨ho, hst⟩ := hth
  have hst0 : (k.shop.orders o).status ≠ 0 := by rw [hst]; decide
  have hothers := others_do_not_hold k hinv i _ hi o rfl
  cases ok with
  | true =>
    simp only [cook_ready, if_true]
    have hne : ∀ j, j ≠ o →
        (enqueue_delivery (announce k.shop o 3 c.id true) o).orders j = k.shop.orders j :=
      fun j hj => announce_orders_ne k.shop o j 3 c.id true hj
    have hnew : ((enqueue_delivery (announce k.shop o 3 c.id true) o).orders o).status = 3 := by
      show ((announce k.shop o 3 c.id true).orders o).status = 3
      rw [announce_orders_self]
    apply inv_update k hinv i _ hi
    · rfl
    · rfl
    · exact QueueOk_frame k.shop _ o rfl rfl rfl rfl hne hst0 hinv.queue_ok
    · intro j u hj hu
      exact ThreadOk_frame k.shop _ _ o rfl hne (hothers j u hj hu) (hinv.thread_ok j u hu)
    · trivial
    · intro p hp
      simp [CookPc.held] at hp
    · rfl
    · have := cooking_count_update k.shop (enqueue_delivery (announce k.shop o 3 c.id true) o)
        o rfl ho hne
      rw [hst, hnew] at this
      simpa [CookPc.is_ready] using this
  | false =>
    simp only [cook_ready, Bool.false_eq_true, if_false]
    have hne : ∀ j, j ≠ o →
        (cancel_if_not_canceled (announce k.shop o 3 c.id false) o cok).orders j
          = k.shop.orders j :=
      fun j hj => failed_stage_orders_ne _ _ _ _ _ _ hj
    have hnew : ((cancel_if_not_canceled (announce k.shop o 3 c.id false) o cok).orders
        o).status ≠ 2 := by
      by_cases hfl : (k.shop.orders o).canceled_flag = 0
      · rw [(failed_stage_status k.shop o 3 c.id cok).1 hfl]; decide
      · rw [(failed_stage_status k.shop o 3 c.id cok).2 hfl]; decide
    apply inv_update k hinv i _ hi
    · simp
    · simp
    · exact QueueOk_frame k.shop _ o (by simp) (by simp) (by simp) (by simp) hne hst0
        hinv.queue_ok
    · intro j u hj hu
      exact ThreadOk_frame k.shop _ _ o (by simp) hne (hothers j u hj hu)
        (hinv.thread_ok j u hu)
    · trivial
    · intro p hp
      simp [CookPc.held] at hp
    · simp [CookPc.holds_oven]
    · have := cooking_count_update k.shop
        (cancel_if_not_canceled (announce k.shop o 3 c.id false) o cok) o (by simp) ho hne
      rw [hst, if_neg hnew] at this
      simpa [CookPc.is_ready] using this

/-- Taking the order at the head of the preparation queue keeps the rest of the queue. -/
theorem QueueOk_advance (s s' : Shop) (hq : QueueOk s)
    (hdiff : s.prep_queue_start ≠ s.prep_queue_end)
    (hend : s.prep_queue_end = s.order_count % MAX_ORDERS) (hcount : s.order_count ≤ MAX_ORDERS)
    (hoc : s'.order_count = s.order_count) (hqe : s'.prep_queue_end = s.prep_queue_end)
    (hpq : s'.prep_queue = s.prep_queue)
    (hqs : s'.prep_queue_start
      = if s.prep_queue_start + 1 = MAX_ORDERS then 0 else s.prep_queue_start + 1)
    (hne : ∀ j, j ≠ s.prep_queue_start → s'.orders j = s.orders j) : QueueOk s' := by
  intro hd'
  obtain ⟨h1, h2⟩ := hq hdiff
  rw [hqe, hend] at hd'
  rw [hoc, hpq]
  simp only [MAX_ORDERS] at *
  have hs1 : s'.prep_queue_start = s.prep_queue_start + 1 := by
    rw [hqs] at hd' ⊢
    split_ifs at hd' ⊢ with hw
    · exfalso
      apply hd'
      omega
    · rfl
  have hlt : s.prep_queue_start + 1 < s.order_count := by
    rw [hs1] at hd'
    by_contra hc
    apply hd'
    have : s.order_count = s.prep_queue_start + 1 := by omega
    rw [hqs] at hs1
    split_ifs at hs1 with hw
    omega
  refine ⟨by omega, ?_⟩
  intro j hj1 hj2
  rw [hne j (by omega)]
  exact h2 j (by omega) hj2

/-- Lines 202-219: the Preparing section. -/
theorem inv_take (k : Kitchen) (hinv : KitchenInv k) (i : Nat) (c : Cook)
    (hi : k.cooks[i]? = some ⟨c, CookPc.take⟩) (ok cok : Bool) :
    KitchenInv ⟨(cook_take k.shop c ok cok).1,
      k.cooks.set i ⟨c, (cook_take k.shop c ok cok).2⟩⟩ := by
  by_cases hse : k.shop.prep_queue_start = k.shop.prep_queue_end
  · have hdq : dequeue_preparation k.shop = (none, k.shop) := by
      simp [dequeue_preparation, hse]
    simp only [cook_take, hdq]
    apply inv_update k hinv i _ hi
    · rfl
    · rfl
    · exact hinv.queue_ok
    · intro j u _ hu
      exact hinv.thread_ok j u hu
    · trivial
    · intro p hp
      simp [CookPc.held] at hp
    · rfl
    · rfl
  · obtain ⟨hlt, hall⟩ := hinv.queue_ok hse
    obtain ⟨hslot, hst, hfl⟩ := hall k.shop.prep_queue_start (le_refl _) hlt
    have hdq : dequeue_preparation k.shop = (some k.shop.prep_queue_start,
        { k.shop with prep_queue_start :=
            if k.shop.prep_queue_start + 1 = MAX_ORDERS then 0
            else k.shop.prep_queue_start + 1 }) := by
      simp [dequeue_preparation, hse, hslot]
    simp only [cook_take, hdq]
    generalize hs1 : ({ k.shop with prep_queue_start :=
        if k.shop.prep_queue_start + 1 = MAX_ORDERS then 0
        else k.shop.prep_queue_start + 1 } : Shop) = s1
    have e_or : s1.orders = k.shop.orders := by rw [← hs1]
    have e_oc : s1.order_count = k.shop.order_count := by rw [← hs1]
    have e_pq : s1.prep_queue = k.shop.prep_queue := by rw [← hs1]
    have e_pe : s1.prep_queue_end = k.shop.prep_queue_end := by rw [← hs1]
    have e_ov : s1.oven_sem = k.shop.oven_sem := by rw [← hs1]
    have e_ps : s1.prep_queue_start
        = if k.shop.prep_queue_start + 1 = MAX_ORDERS then 0
          else k.shop.prep_queue_start + 1 := by rw [← hs1]
    clear hs1 hdq
    generalize ho : k.shop.prep_queue_start = o at hlt hslot hst hfl e_ps
    have hothers : ∀ (j : Nat) (u : CookThread), j ≠ i → k.cooks[j]? = some u →
        u.pc.held ≠ some o := by
      intro j u _ hu hc
      exact (ThreadOk_status k.shop u.pc o (hinv.thread_ok j u hu) hc).2 hst
    cases ok with
    | true =>
      simp only [if_true]
      have hne : ∀ j, j ≠ o → (announce s1 o 1 c.id true).orders j = k.shop.orders j := by
        intro j hj
        rw [announce_orders_ne _ _ _ _ _ _ hj, e_or]
      have hnew : ((announce s1 o 1 c.id true).orders o).status = 1 ∧
          ((announce s1 o 1 c.id true).orders o).canceled_flag = 0 := by
        rw [announce_orders_self, e_or]
        exact ⟨rfl, hfl⟩
      apply inv_update k hinv i _ hi
      · simpa using e_oc
      · simpa using e_pe
      · exact QueueOk_advance k.shop _ hinv.queue_ok hse hinv.queue_end hinv.count_le
          (by simpa using e_oc) (by simpa using e_pe) (by simpa using e_pq)
          (by rw [ho]; simpa using e_ps) (by rw [ho]; exact hne)
      · intro j u hj hu
        exact ThreadOk_frame k.shop _ _ o (by simpa using e_oc) hne (hothers j u hj hu)
          (hinv.thread_ok j u hu)
      · exact ⟨by rw [announce_order_count, e_oc]; exact hlt, hnew.1, hnew.2⟩
      · intro p hp
        simp only [CookPc.held, Option.some.injEq] at hp
        subst hp
        exact hothers
      · simpa [CookPc.holds_oven] using e_ov
      · have := cooking_count_update k.shop (announce s1 o 1 c.id true) o
          (by simpa using e_oc) hlt hne
        rw [hst, hnew.1] at this
        simpa [CookPc.is_ready] using this
    | false =>
      simp only [Bool.false_eq_true, if_false]
      have hne : ∀ j, j ≠ o →
          (flag_and_cancel (announce s1 o 1 c.id false) o cok).orders j
            = k.shop.orders j := by
        intro j hj
        rw [flag_and_cancel_orders_ne _ _ _ _ hj, announce_orders_ne _ _ _ _ _ _ hj, e_or]
      have hnew := (flag_and_cancel_status (announce s1 o 1 c.id false) o cok).1
      apply inv_update k hinv i _ hi
      · simpa using e_oc
      · simpa using e_pe
      · exact QueueOk_advance k.shop _ hinv.queue_ok hse hinv.queue_end hinv.count_le
          (by simpa using e_oc) (by simpa using e_pe) (by simpa using e_pq)
          (by rw [ho]; simpa using e_ps) (by rw [ho]; exact hne)
      · intro j u hj hu
        exact ThreadOk_frame k.shop _ _ o (by simpa using e_oc) hne (hothers j u hj hu)
          (hinv.thread_ok j u hu)
      · trivial
      · intro p hp
        simp [CookPc.held] at hp
      · simpa [CookPc.holds_oven] using e_ov
      · have := cooking_count_update k.shop
          (flag_and_cancel (announce s1 o 1 c.id false) o cok) o (by simpa using e_oc) hlt hne
        rw [hst, hnew] at this
        simpa [CookPc.is_ready] using this

/-- What an accepted intake does to the fields the invariant speaks about. -/
theorem manager_accept_fields (s : Shop) (socket x y now : Int)
    (h : s.order_count < MAX_ORDERS) :
    (manager s socket (some x) (some y) now).order_count = s.order_count + 1 ∧
      ((manager s socket (some x) (some y) now).orders s.order_count).status = 0 ∧
      ((manager s socket (some x) (some y) now).orders s.order_count).canceled_flag = 0 ∧
      (∀ j, j ≠ s.order_count →
        (manager s socket (some x) (some y) now).orders j = s.orders j) ∧
      (manager s socket (some x) (some y) now).prep_queue s.prep_queue_end
        = some s.order_count ∧
      (∀ j, j ≠ s.prep_queue_end →
        (manager s socket (some x) (some y) now).prep_queue j = s.prep_queue j) ∧
      (manager s socket (some x) (some y) now).prep_queue_end
        = (if s.prep_queue_end + 1 = MAX_ORDERS then 0 else s.prep_queue_end + 1) ∧
      (manager s socket (some x) (some y) now).prep_queue_start = s.prep_queue_start ∧
      (manager s socket (some x) (some y) now).oven_sem = s.oven_sem := by
  simp only [manager, if_pos h, enqueue_preparation]
  refine ⟨?_, ?_, ?_, ?_, ?_, ?_, ?_, ?_, ?_⟩ <;>
    first
      | rfl
      | (intro j hj; simp [hj])
      | simp

theorem manager_reject_fields (s : Shop) (socket : Int) (rx ry : Option Int) (now : Int)
    (h : rx = none ∨ ry = none ∨ ¬ s.order_count < MAX_ORDERS) :
    (manager s socket rx ry now).order_count = s.order_count ∧
      (manager s socket rx ry now).orders = s.orders ∧
      (manager s socket rx ry now).prep_queue = s.prep_queue ∧
      (manager s socket rx ry now).prep_queue_end = s.prep_queue_end ∧
      (manager s socket rx ry now).prep_queue_start = s.prep_queue_start ∧
      (manager s socket rx ry now).oven_sem = s.oven_sem := by
  unfold manager
  rcases rx with _ | x <;> rcases ry with _ | y <;>
    first
      | exact ⟨rfl, rfl, rfl, rfl, rfl, rfl⟩
      | skip
  have hfull : ¬ s.order_count < MAX_ORDERS := by
    rcases h with h | h | h
    · exact Option.noConfusion h
    · exact Option.noConfusion h
    · exact h
  simp only [if_neg hfull]
  exact ⟨rfl, rfl, rfl, rfl, rfl, rfl⟩

/-- The invariant does not depend on the trace. -/
theorem inv_congr (k : Kitchen) (s' : Shop) (hinv : KitchenInv k)
    (hoc : s'.order_count = k.shop.order_count) (ho : s'.orders = k.shop.orders)
    (hpq : s'.prep_queue = k.shop.prep_queue)
    (hqe : s'.prep_queue_end = k.shop.prep_queue_end)
    (hqs : s'.prep_queue_start = k.shop.prep_queue_start)
    (hov : s'.oven_sem = k.shop.oven_sem) : KitchenInv ⟨s', k.cooks⟩ := by
  refine ⟨?_, ?_, ?_, ?_, hinv.distinct, ?_, ?_⟩
  · show s'.order_count ≤ MAX_ORDERS
    rw [hoc]; exact hinv.count_le
  · show s'.prep_queue_end = s'.order_count % MAX_ORDERS
    rw [hqe, hoc]; exact hinv.queue_end
  · exact QueueOk_congr k.shop s' hoc hqs hqe hpq ho hinv.queue_ok
  · intro i t hi
    exact ThreadOk_congr k.shop s' _ hoc ho (hinv.thread_ok i t hi)
  · show s'.oven_sem + _ = _
    rw [hov]; exact hinv.oven
  · show cooking_count s' = _
    rw [cooking_count_same k.shop s' hoc ho]; exact hinv.cooking

/-- A cook keeps its knowledge when a new order is registered behind the ones it can hold. -/
theorem ThreadOk_grow (s s' : Shop) (pc : CookPc)
    (hoc : s'.order_count = s.order_count + 1)
    (hne : ∀ j, j ≠ s.order_count → s'.orders j = s.orders j) (h : ThreadOk s pc) :
    ThreadOk s' pc := by
  cases pc with
  | take => trivial
  | post => trivial
  | wait_oven p =>
    obtain ⟨h1, h2⟩ := h
    have hp : p ≠ s.order_count := by omega
    simp only [ThreadOk, hoc, hne p hp]
    exact ⟨by omega, h2⟩
  | cook p =>
    obtain ⟨h1, h2⟩ := h
    have hp : p ≠ s.order_count := by omega
    simp only [ThreadOk, hoc, hne p hp]
    exact ⟨by omega, h2⟩
  | ready p =>
    obtain ⟨h1, h2⟩ := h
    have hp : p ≠ s.order_count := by omega
    simp only [ThreadOk, hoc, hne p hp]
    exact ⟨by omega, h2⟩

/-- Lines 326-354: an intake. -/
theorem inv_intake (k : Kitchen) (hinv : KitchenInv k) (socket : Int) (rx ry : Option Int)
    (now : Int) : KitchenInv ⟨manager k.shop socket rx ry now, k.cooks⟩ := by
  by_cases hrej : rx = none ∨ ry = none ∨ ¬ k.shop.order_count < MAX_ORDERS
  · obtain ⟨h1, h2, h3, h4, h5, h6⟩ := manager_reject_fields k.shop socket rx ry now hrej
    exact inv_congr k _ hinv h1 h2 h3 h4 h5 h6
  · have hx : ∃ x, rx = some x := by
      cases rx with
      | none => exact absurd (Or.inl rfl) hrej
      | some x => exact ⟨x, rfl⟩
    have hy : ∃ y, ry = some y := by
      cases ry with
      | none => exact absurd (Or.inr (Or.inl rfl)) hrej
      | some y => exact ⟨y, rfl⟩
    have hlt : k.shop.order_count < MAX_ORDERS := by
      by_contra hc
      exact hrej (Or.inr (Or.inr hc))
    obtain ⟨x, rfl⟩ := hx
    obtain ⟨y, rfl⟩ := hy
    obtain ⟨a1, a2, a3, a4, a5, a6, a7, a8, a9⟩ :=
      manager_accept_fields k.shop socket x y now hlt
    generalize manager k.shop socket (some x) (some y) now = s' at a1 a2 a3 a4 a5 a6 a7 a8 a9
    have hend := hinv.queue_end
    have hendeq : k.shop.prep_queue_end = k.shop.order_count := by
      rw [hend]; exact Nat.mod_eq_of_lt hlt
    refine ⟨?_, ?_, ?_, ?_, hinv.distinct, ?_, ?_⟩
    · show s'.order_count ≤ MAX_ORDERS
      omega
    · show s'.prep_queue_end = s'.order_count % MAX_ORDERS
      rw [a7, a1, hendeq]
      simp only [MAX_ORDERS] at hlt ⊢
      split_ifs <;> omega
    · show QueueOk s'
      intro hd
      rw [a8] at hd ⊢
      rw [a1]
      have hle : k.shop.prep_queue_start ≤ k.shop.order_count := by
        by_cases he : k.shop.prep_queue_start = k.shop.prep_queue_end
        · omega
        · have := (hinv.queue_ok he).1
          omega
      refine ⟨by omega, ?_⟩
      intro j hj1 hj2
      by_cases hj : j = k.shop.order_count
      · subst hj
        rw [← hendeq, a5, hendeq]
        exact ⟨rfl, a2, a3⟩
      · have hjlt : j < k.shop.order_count := by omega
        have he : k.shop.prep_queue_start ≠ k.shop.prep_queue_end := by omega
        rw [a4 j hj, a6 j (by omega)]
        exact (hinv.queue_ok he).2 j hj1 hjlt
    · intro i t hi
      exact ThreadOk_grow k.shop s' _ a1 a4 (hinv.thread_ok i t hi)
    · show s'.oven_sem + _ = _
      rw [a9]; exact hinv.oven
    · show cooking_count s' = _
      rw [← hinv.cooking]
      have hupd := countP_range_update k.shop.orders s'.orders k.shop.order_count
        k.shop.order_count a4
      simp only [lt_irrefl, false_and, if_false, Nat.add_zero] at hupd
      simp only [cooking_count, a1, List.range_succ, List.countP_append, List.countP_cons,
        List.countP_nil, a2, hupd]
      simp

theorem inv_init (pool : List Cook) : KitchenInv (Kitchen.init pool) := by
  have hpc : ∀ (i : Nat) (t : CookThread), (Kitchen.init pool).cooks[i]? = some t →
      t.pc = CookPc.take := by
    intro i t hi
    simp only [Kitchen.init, List.getElem?_map] at hi
    cases hp : pool[i]? with
    | none => rw [hp] at hi; exact Option.noConfusion hi
    | some c =>
      rw [hp] at hi
      simp only [Option.map_some', Option.some.injEq] at hi
      rw [← hi]
  have hmem : ∀ t ∈ (Kitchen.init pool).cooks, t.pc = CookPc.take := by
    intro t ht
    obtain ⟨i, hi, rfl⟩ := List.getElem_of_mem ht
    exact hpc i _ (by simp [hi])
  refine ⟨?_, ?_, ?_, ?_, ?_, ?_, ?_⟩
  · show (0 : Nat) ≤ MAX_ORDERS
    exact Nat.zero_le _
  · rfl
  · intro h
    exact absurd rfl h
  · intro i t hi
    rw [hpc i t hi]
    trivial
  · intro i j t u o hi _ ht _
    rw [hpc i t hi] at ht
    simp [CookPc.held] at ht
  · show MAX_OVEN_SIZE + _ = MAX_OVEN_SIZE
    rw [List.countP_eq_zero.mpr]
    · rfl
    · intro t ht
      rw [hmem t ht]
      simp [CookPc.holds_oven]
  · show cooking_count Shop.init = _
    rw [List.countP_eq_zero.mpr]
    · rfl
    · intro t ht
      rw [hmem t ht]
      simp [CookPc.is_ready]

theorem inv_step (k : Kitchen) (hinv : KitchenInv k) (a : Action) : KitchenInv (k.step a) := by
  cases a with
  | intake socket rx ry now => exact inv_intake k hinv socket rx ry now
  | cook i ok cok =>
    simp only [Kitchen.step]
    cases hi : k.cooks[i]? with
    | none => exact hinv
    | some t =>
      obtain ⟨c, pc⟩ := t
      simp only
      cases pc with
      | take => exact inv_take k hinv i c hi ok cok
      | wait_oven o =>
        simp only [cook_step]
        cases hs : sem_wait k.shop with
        | none => exact hinv
        | some s' => exact inv_wait_oven k hinv i c o hi s' hs
      | cook o => exact inv_cook k hinv i c o hi ok cok
      | ready o => exact inv_ready k hinv i c o hi ok cok
      | post => exact inv_post k hinv i c hi

theorem inv_run (acts : List Action) :
    ∀ k : Kitchen, KitchenInv k → KitchenInv (k.run acts) := by
  induction acts with
  | nil => intro k h; exact h
  | cons a acts ih =>
    intro k h
    exact ih (k.step a) (inv_step k h a)

/-- C2: from the start of the server, after every sequence of intakes and atomic cook steps
(any number of cooks, any send outcomes), the number of registered orders with status
Cooking (2) is at most `MAX_OVEN_SIZE`; more precisely it never exceeds the number of oven
units taken, `MAX_OVEN_SIZE - oven_sem`. -/
theorem cooking_never_exceeds_oven (pool : List Cook) (acts : List Action) :
    cooking_count ((Kitchen.init pool).run acts).shop ≤ MAX_OVEN_SIZE ∧
      cooking_count ((Kitchen.init pool).run acts).shop
          + ((Kitchen.init pool).run acts).shop.oven_sem ≤ MAX_OVEN_SIZE := by
  have hinv := inv_run acts (Kitchen.init pool) (inv_init pool)
  have h1 := hinv.cooking
  have h2 := hinv.oven
  have h3 : ((Kitchen.init pool).run acts).cooks.countP (fun t => t.pc.is_ready)
      ≤ ((Kitchen.init pool).run acts).cooks.countP (fun t => t.pc.holds_oven) := by
    apply List.countP_mono_left
    intro t _ ht
    cases hpc : t.pc <;> simp [hpc, CookPc.is_ready] at ht
    simp [CookPc.holds_oven]
  omega

/-- The bound is reached: seven cooks and seven orders, each cook advances as far as it can
with every send succeeding; six orders are Cooking and the seventh cook waits for the oven. -/
theorem oven_bound_is_reached :
    cooking_count ((Kitchen.init (List.replicate 7 cook0)).run
        ((List.range 7).map (fun i => Action.intake 7 (some 0) (some 0) (i : Int))
          ++ (List.range 7).map (fun i => Action.cook i true true)
          ++ (List.range 7).map (fun i => Action.cook i true true)
          ++ (List.range 7).map (fun i => Action.cook i true true))).shop = 6 := by
  decide

end Oven

/-! ## The effect of `cancel_order` -/

section CancelOrder

/-- C14: `cancel_order` sets the status of the order to 6, appends to the trace its entry
mark, exactly one Canceled record and exactly one send of code 6 on the order's socket, and,
only when that send fails, one `close` of that socket, after which `client_socket` is -1; when
the send succeeds `client_socket` is unchanged. The fields `order_id`, `x`, `y`, `order_time`
and `canceled_flag`, every other order and every other global variable are unchanged. -/
theorem cancel_order_effect (s : Shop) (i : Nat) (ok : Bool) :
    ((cancel_order s i ok).orders i).status = 6 ∧
      (cancel_order s i ok).trace
        = s.trace
          ++ [Event.call_cancel i, canceled_record (s.orders i),
              Event.send (s.orders i).client_socket 6 ok]
          ++ (if ok = true then [] else [Event.close (s.orders i).client_socket]) ∧
      canceled_records (cancel_order s i ok).trace = canceled_records s.trace + 1 ∧
      ((cancel_order s i ok).orders i).client_socket
        = (if ok = true then (s.orders i).client_socket else -1) ∧
      ((cancel_order s i ok).orders i).order_id = (s.orders i).order_id ∧
      ((cancel_order s i ok).orders i).x = (s.orders i).x ∧
      ((cancel_order s i ok).orders i).y = (s.orders i).y ∧
      ((cancel_order s i ok).orders i).order_time = (s.orders i).order_time ∧
      ((cancel_order s i ok).orders i).canceled_flag = (s.orders i).canceled_flag ∧
      (∀ k, k ≠ i → (cancel_order s i ok).orders k = s.orders k) ∧
      (cancel_order s i ok).order_count = s.order_count ∧
      (cancel_order s i ok).delivered_count = s.delivered_count ∧
      (cancel_order s i ok).oven_sem = s.oven_sem := by
  refine ⟨?_, ?_, ?_, ?_, ?_, ?_, ?_, ?_, ?_, ?_, ?_, ?_, ?_⟩
  · cases ok <;> simp [cancel_order, send_status]
  · cases ok <;> simp [cancel_order, send_status, log_lines, canceled_record]
  · cases ok <;> simp [cancel_order, send_status, log_lines, canceled_records]
  · cases ok <;> simp [cancel_order, send_status]
  · cases ok <;> simp [cancel_order, send_status]
  · cases ok <;> simp [cancel_order, send_status]
  · cases ok <;> simp [cancel_order, send_status]
  · cases ok <;> simp [cancel_order, send_status]
  · cases ok <;> simp [cancel_order, send_status]
  · intro k hk
    exact cancel_order_orders_ne s i k ok hk
  · simp
  · simp
  · simp

end CancelOrder

/-! ## The oven unit of one cook iteration -/

section OvenUnit

theorem announce_oven_events (s : Shop) (i : Nat) (st tid : Int) (ok : Bool) :
    oven_acquisitions (announce s i st tid ok) = oven_acquisitions s ∧
      oven_releases (announce s i st tid ok) = oven_releases s := by
  simp only [oven_acquisitions, oven_releases, announce, send_status, emit_trace,
    modify_order_trace, log_order_status_trace, log_lines]
  constructor <;> split_ifs <;> simp

theorem flag_and_cancel_oven_events (s : Shop) (i : Nat) (cok : Bool) :
    oven_acquisitions (flag_and_cancel s i cok) = oven_acquisitions s ∧
      oven_releases (flag_and_cancel s i cok) = oven_releases s := by
  cases cok <;>
    simp [oven_acquisitions, oven_releases, flag_and_cancel, cancel_order, send_status,
      log_lines]

theorem cancel_if_not_canceled_oven_events (s : Shop) (i : Nat) (cok : Bool) :
    oven_acquisitions (cancel_if_not_canceled s i cok) = oven_acquisitions s ∧
      oven_releases (cancel_if_not_canceled s i cok) = oven_releases s := by
  unfold cancel_if_not_canceled
  split_ifs
  · exact flag_and_cancel_oven_events s i cok
  · exact ⟨rfl, rfl⟩

theorem sem_post_oven_events (s : Shop) :
    oven_acquisitions (sem_post s) = oven_acquisitions s ∧
      oven_releases (sem_post s) = oven_releases s + 1 ∧
      (sem_post s).oven_sem = s.oven_sem + 1 := by
  simp [oven_acquisitions, oven_releases, sem_post]

theorem acquire_oven_events (s : Shop) :
    oven_acquisitions ({ s with oven_sem := s.oven_sem - 1 }.emit Event.sem_wait)
        = oven_acquisitions s + 1 ∧
      oven_releases ({ s with oven_sem := s.oven_sem - 1 }.emit Event.sem_wait)
        = oven_releases s ∧
      ({ s with oven_sem := s.oven_sem - 1 }.emit Event.sem_wait).oven_sem
        = s.oven_sem - 1 := by
  simp [oven_acquisitions, oven_releases]

/-- C12: one iteration of `cook_routine` on a dequeued order returns (an oven unit being
free when Preparing was announced) and, for every outcome of the sends, performs as many
`sem_post` as `sem_wait` on `oven_sem`: one of each when the Preparing send succeeded, none
of either when it failed. The value of `oven_sem` after the iteration is the value before. -/
theorem oven_unit_balanced (s : Shop) (c : Cook) (o : Nat) (b1 b2 b3 bc : Bool)
    (hq : (dequeue_preparation s).1 = some o)
    (hoven : b1 = true → 0 < s.oven_sem) :
    ∃ s' c', cook_iteration s c b1 b2 b3 bc = some (s', c') ∧
      oven_acquisitions s' = oven_acquisitions s + (if b1 = true then 1 else 0) ∧
      oven_releases s' = oven_releases s + (if b1 = true then 1 else 0) ∧
      oven_releases s' - oven_releases s = oven_acquisitions s' - oven_acquisitions s ∧
      s'.oven_sem = s.oven_sem := by
  rcases hd : dequeue_preparation s with ⟨r, s0⟩
  rw [hd] at hq
  simp only at hq
  subst hq
  have hf := dequeue_preparation_frame s
  rw [hd] at hf
  simp only at hf
  have e4 : s0.trace = s.trace := by rw [hf]
  have e5 : s0.oven_sem = s.oven_sem := by rw [hf]
  have ea : oven_acquisitions s0 = oven_acquisitions s := by
    simp only [oven_acquisitions, e4]
  have er : oven_releases s0 = oven_releases s := by
    simp only [oven_releases, e4]
  clear hf
  have key : ∀ (s' : Shop) (n : Nat),
      oven_acquisitions s' = oven_acquisitions s + n →
      oven_releases s' = oven_releases s + n → s'.oven_sem = s.oven_sem →
      oven_acquisitions s' = oven_acquisitions s + n ∧
        oven_releases s' = oven_releases s + n ∧
        oven_releases s' - oven_releases s = oven_acquisitions s' - oven_acquisitions s ∧
        s'.oven_sem = s.oven_sem := by
    intro s' n h1 h2 h3
    exact ⟨h1, h2, by omega, h3⟩
  rw [cook_iteration, cook_run_take _ _ _ _ _ _ _ _ _ hd]
  cases b1
  · refine ⟨_, _, rfl, ?_⟩
    simp only [Bool.false_eq_true, if_false]
    apply key
    · rw [(flag_and_cancel_oven_events _ _ _).1, (announce_oven_events _ _ _ _ _).1, ea]
      rfl
    · rw [(flag_and_cancel_oven_events _ _ _).2, (announce_oven_events _ _ _ _ _).2, er]
      rfl
    · simp [e5]
  · have hpos : 0 < s.oven_sem := hoven rfl
    have hov : 0 < (announce s0 o 1 c.id true).oven_sem := by
      rw [announce_oven_sem, e5]; exact hpos
    rw [if_pos rfl, cook_run_wait_oven _ _ _ _ _ _ _ _ hov, cook_run_cook]
    obtain ⟨q1, q2, _⟩ := acquire_oven_events (announce s0 o 1 c.id true)
    rw [(announce_oven_events _ _ _ _ _).1, ea] at q1
    rw [(announce_oven_events _ _ _ _ _).2, er] at q2
    have q3 : ({ announce s0 o 1 c.id true with
        oven_sem := (announce s0 o 1 c.id true).oven_sem - 1 }.emit Event.sem_wait).oven_sem
        = s.oven_sem - 1 := by
      show (announce s0 o 1 c.id true).oven_sem - 1 = _
      rw [announce_oven_sem, e5]
    generalize ({ announce s0 o 1 c.id true with
      oven_sem := (announce s0 o 1 c.id true).oven_sem - 1 }.emit Event.sem_wait) = s2
      at q1 q2 q3 ⊢
    simp only [if_true]
    cases b2
    · rw [if_neg (by decide), cook_run_post]
      refine ⟨_, _, rfl, ?_⟩
      apply key
      · rw [(sem_post_oven_events _).1, (cancel_if_not_canceled_oven_events _ _ _).1,
          (announce_oven_events _ _ _ _ _).1, q1]
      · rw [(sem_post_oven_events _).2.1, (cancel_if_not_canceled_oven_events _ _ _).2,
          (announce_oven_events _ _ _ _ _).2, q2]
      · rw [(sem_post_oven_events _).2.2, cancel_if_not_canceled_oven_sem, announce_oven_sem,
          q3]
        omega
    · rw [if_pos rfl, cook_run_ready]
      cases b3
      · rw [if_neg (by decide), cook_run_post]
        refine ⟨_, _, rfl, ?_⟩
        apply key
        · rw [(sem_post_oven_events _).1, (cancel_if_not_canceled_oven_events _ _ _).1,
            (announce_oven_events _ _ _ _ _).1, (announce_oven_events _ _ _ _ _).1, q1]
        · rw [(sem_post_oven_events _).2.1, (cancel_if_not_canceled_oven_events _ _ _).2,
            (announce_oven_events _ _ _ _ _).2, (announce_oven_events _ _ _ _ _).2, q2]
        · rw [(sem_post_oven_events _).2.2, cancel_if_not_canceled_oven_sem,
            announce_oven_sem, announce_oven_sem, q3]
          omega
      · rw [if_pos rfl, cook_run_post]
        refine ⟨_, _, rfl, ?_⟩
        apply key
        · rw [(sem_post_oven_events _).1]
          show oven_acquisitions (announce (announce s2 o 2 c.id true) o 3 c.id true) = _
          rw [(announce_oven_events _ _ _ _ _).1, (announce_oven_events _ _ _ _ _).1, q1]
        · rw [(sem_post_oven_events _).2.1]
          show oven_releases (announce (announce s2 o 2 c.id true) o 3 c.id true) + 1 = _
          rw [(announce_oven_events _ _ _ _ _).2, (announce_oven_events _ _ _ _ _).2, q2]
        · rw [(sem_post_oven_events _).2.2]
          show (announce (announce s2 o 2 c.id true) o 3 c.id true).oven_sem + 1 = _
          rw [announce_oven_sem, announce_oven_sem, q3]
          omega

/-- Witness of C12: the first order of a fresh server, whose Cooking announcement fails
after the oven unit was acquired. -/
theorem oven_unit_balanced_witness :
    (dequeue_preparation one_order).1 = some 0 ∧
      ∃ s' c', cook_iteration one_order cook0 true false true true = some (s', c') ∧
        oven_acquisitions s' = 1 ∧ oven_releases s' = 1 ∧ s'.oven_sem = 6 := by
  refine ⟨by decide, ?_⟩
  obtain ⟨s', c', h1, h2, h3, _, h5⟩ :=
    oven_unit_balanced one_order cook0 0 true false true true (by decide) (fun _ => by decide)
  exact ⟨s', c', h1, by rw [h2]; decide, by rw [h3]; decide, by rw [h5]; decide⟩

end OvenUnit

/-! ## The stage queues are FIFO -/

section Fifo

theorem Ring.enqueue_all_cons (r : Ring) (o : Nat) (os : List Nat) :
    r.enqueue_all (o :: os) = (r.enqueue o).enqueue_all os := rfl

/-- Enqueuing `os` writes the orders to consecutive slots (modulo `MAX_ORDERS`) from the
old tail on, moves the tail by their number and leaves every other slot and the head. -/
theorem Ring.enqueue_all_spec (os : List Nat) :
    ∀ r : Ring, r.last < MAX_ORDERS → os.length ≤ MAX_ORDERS →
      (r.enqueue_all os).last = (r.last + os.length) % MAX_ORDERS ∧
      (r.enqueue_all os).first = r.first ∧
      (∀ j, j < os.length →
        (r.enqueue_all os).buf ((r.last + j) % MAX_ORDERS) = os[j]?) ∧
      (∀ q, (∀ j, j < os.length → q ≠ (r.last + j) % MAX_ORDERS) →
        (r.enqueue_all os).buf q = r.buf q) := by
  induction os with
  | nil =>
    intro r hl _
    refine ⟨?_, rfl, ?_, ?_⟩
    · simp [Ring.enqueue_all, Nat.mod_eq_of_lt hl]
    · intro j hj; simp at hj
    · intro q _; rfl
  | cons o os ih =>
    intro r hl hlen
    simp only [List.length_cons] at hlen
    have hl1 : (r.enqueue o).last < MAX_ORDERS := by
      simp only [Ring.enqueue, MAX_ORDERS] at *
      split_ifs <;> omega
    have hlast : (r.enqueue o).last = (r.last + 1) % MAX_ORDERS := by
      simp only [Ring.enqueue, MAX_ORDERS] at *
      split_ifs <;> omega
    obtain ⟨h1, h2, h3, h4⟩ := ih (r.enqueue o) hl1 (by omega)
    rw [Ring.enqueue_all_cons]
    have hidx : ∀ j, ((r.enqueue o).last + j) % MAX_ORDERS
        = (r.last + (j + 1)) % MAX_ORDERS := by
      intro j
      rw [hlast]
      simp only [MAX_ORDERS] at *
      omega
    refine ⟨?_, ?_, ?_, ?_⟩
    · rw [h1, hidx]
      simp only [List.length_cons]
    · rw [h2]; rfl
    · intro j hj
      simp only [List.length_cons] at hj
      rcases j with _ | j
      · rw [Nat.add_zero, Nat.mod_eq_of_lt hl, h4]
        · simp [Ring.enqueue]
        · intro i hi
          rw [hidx]
          simp only [MAX_ORDERS] at *
          omega
      · rw [← hidx, h3 j (by omega)]
        simp
    · intro q hq
      rw [h4 q]
      · have hq0 := hq 0 (by simp)
        rw [Nat.add_zero, Nat.mod_eq_of_lt hl] at hq0
        simp [Ring.enqueue, hq0]
      · intro j hj
        rw [hidx]
        exact hq (j + 1) (by simp only [List.length_cons]; omega)

/-- With `m < MAX_ORDERS` orders between head and tail, the first `j <= m` dequeues return
the slots from the head on, in order, and move the head by `j`. -/
theorem Ring.dequeue_many_spec (j : Nat) :
    ∀ (r : Ring) (m : Nat), r.first < MAX_ORDERS → m < MAX_ORDERS →
      r.last = (r.first + m) % MAX_ORDERS → j ≤ m →
      (Ring.dequeue_many j r).1
        = (List.range j).map (fun i => r.buf ((r.first + i) % MAX_ORDERS)) ∧
      (Ring.dequeue_many j r).2.first = (r.first + j) % MAX_ORDERS ∧
      (Ring.dequeue_many j r).2.last = r.last ∧
      (Ring.dequeue_many j r).2.buf = r.buf := by
  induction j with
  | zero =>
    intro r m hf _ _ _
    refine ⟨rfl, ?_, rfl, rfl⟩
    simp [Ring.dequeue_many, Nat.mod_eq_of_lt hf]
  | succ j ih =>
    intro r m hf hm hlast hj
    have hne : r.first ≠ r.last := by
      rw [hlast]
      simp only [MAX_ORDERS] at *
      omega
    have hdq : r.dequeue = (r.buf r.first,
        { buf := r.buf
          first := if r.first + 1 = MAX_ORDERS then 0 else r.first + 1
          last := r.last }) := by
      simp [Ring.dequeue, hne]
    have hf1 : (if r.first + 1 = MAX_ORDERS then 0 else r.first + 1) < MAX_ORDERS := by
      simp only [MAX_ORDERS] at *
      split_ifs <;> omega
    have hidx : ∀ i, ((if r.first + 1 = MAX_ORDERS then 0 else r.first + 1) + i) % MAX_ORDERS
        = (r.first + (i + 1)) % MAX_ORDERS := by
      intro i
      simp only [MAX_ORDERS] at *
      split_ifs <;> omega
    obtain ⟨h1, h2, h3, h4⟩ := ih
      { buf := r.buf
        first := if r.first + 1 = MAX_ORDERS then 0 else r.first + 1
        last := r.last } (m - 1) hf1 (by omega)
      (by
        simp only
        rw [hidx, hlast]
        congr 1
        omega)
      (by omega)
    simp only [Ring.dequeue_many, hdq]
    refine ⟨?_, ?_, h3, h4⟩
    · rw [h1, List.range_succ_eq_map]
      simp only [List.map_cons, List.map_map, Nat.add_zero, Nat.mod_eq_of_lt hf]
      congr 1
      apply List.map_congr_left
      intro i _
      simp only [Function.comp]
      rw [hidx]
    · rw [h2, hidx]

theorem range_map_getElem? (os : List Nat) :
    (List.range os.length).map (fun j => os[j]?) = os.map some := by
  apply List.ext_getElem?
  intro i
  by_cases hi : i < os.length
  · simp [hi, List.getElem?_range hi]
  · have h1 : os.length ≤ i := by omega
    rw [List.getElem?_eq_none (by simpa using h1), List.getElem?_eq_none (by simpa using h1)]

/-- FIFO on the variables of one queue: `k < MAX_ORDERS` orders enqueued on an empty queue
(head = tail, anywhere in the buffer) come back in the same order; afterwards head = tail
again; both indices stay below `MAX_ORDERS` after every enqueue and every dequeue. -/
theorem Ring.fifo (r : Ring) (os : List Nat) (he : r.first = r.last)
    (hf : r.first < MAX_ORDERS) (hlen : os.length < MAX_ORDERS) :
    (Ring.dequeue_many os.length (r.enqueue_all os)).1 = os.map some ∧
      (Ring.dequeue_many os.length (r.enqueue_all os)).2.first
        = (Ring.dequeue_many os.length (r.enqueue_all os)).2.last ∧
      (∀ j, (r.enqueue_all (os.take j)).first < MAX_ORDERS ∧
        (r.enqueue_all (os.take j)).last < MAX_ORDERS) ∧
      (∀ j, j ≤ os.length →
        (Ring.dequeue_many j (r.enqueue_all os)).2.first < MAX_ORDERS ∧
        (Ring.dequeue_many j (r.enqueue_all os)).2.last < MAX_ORDERS) := by
  have hl : r.last < MAX_ORDERS := by rw [← he]; exact hf
  have hpos : 0 < MAX_ORDERS := by decide
  obtain ⟨e1, e2, e3, _⟩ := Ring.enqueue_all_spec os r hl (le_of_lt hlen)
  have hlast : (r.enqueue_all os).last
      = ((r.enqueue_all os).first + os.length) % MAX_ORDERS := by
    rw [e1, e2, he]
  have hf' : (r.enqueue_all os).first < MAX_ORDERS := by rw [e2]; exact hf
  obtain ⟨d1, d2, d3, _⟩ :=
    Ring.dequeue_many_spec os.length (r.enqueue_all os) os.length hf' hlen hlast (le_refl _)
  refine ⟨?_, ?_, ?_, ?_⟩
  · rw [d1, ← range_map_getElem?]
    apply List.map_congr_left
    intro j hj
    rw [e2, he]
    exact e3 j (by simpa using hj)
  · rw [d2, d3, hlast]
  · intro j
    have hlj : (os.take j).length ≤ MAX_ORDERS := by
      rw [List.length_take]
      omega
    obtain ⟨t1, t2, _, _⟩ := Ring.enqueue_all_spec (os.take j) r hl hlj
    exact ⟨by rw [t2]; exact hf, by rw [t1]; exact Nat.mod_lt _ hpos⟩
  · intro j hj
    obtain ⟨_, j2, j3, _⟩ :=
      Ring.dequeue_many_spec j (r.enqueue_all os) os.length hf' hlen hlast hj
    exact ⟨by rw [j2]; exact Nat.mod_lt _ hpos, by rw [j3, e1]; exact Nat.mod_lt _ hpos⟩

theorem prep_ring_enqueue_all (os : List Nat) :
    ∀ s : Shop, prep_ring (enqueue_all_preparation s os) = (prep_ring s).enqueue_all os := by
  induction os with
  | nil => intro s; rfl
  | cons o os ih => intro s; exact ih (enqueue_preparation s o)

theorem prep_ring_dequeue (s : Shop) :
    (dequeue_preparation s).1 = (prep_ring s).dequeue.1 ∧
      prep_ring (dequeue_preparation s).2 = (prep_ring s).dequeue.2 := by
  simp only [dequeue_preparation, Ring.dequeue, prep_ring]
  split_ifs <;> exact ⟨rfl, rfl⟩

theorem prep_ring_dequeue_many (n : Nat) :
    ∀ s : Shop, (dequeue_many_preparation n s).1 = (Ring.dequeue_many n (prep_ring s)).1 ∧
      prep_ring (dequeue_many_preparation n s).2 = (Ring.dequeue_many n (prep_ring s)).2 := by
  induction n with
  | zero => intro s; exact ⟨rfl, rfl⟩
  | succ n ih =>
    intro s
    obtain ⟨h1, h2⟩ := prep_ring_dequeue s
    obtain ⟨i1, i2⟩ := ih (dequeue_preparation s).2
    simp only [dequeue_many_preparation, Ring.dequeue_many]
    rw [i1, i2, h1, h2]
    exact ⟨rfl, rfl⟩

theorem delivery_ring_enqueue_all (os : List Nat) :
    ∀ s : Shop, delivery_ring (enqueue_all_delivery s os)
      = (delivery_ring s).enqueue_all os := by
  induction os with
  | nil => intro s; rfl
  | cons o os ih => intro s; exact ih (enqueue_delivery s o)

theorem delivery_ring_dequeue (s : Shop) :
    (dequeue_delivery s).1 = (delivery_ring s).dequeue.1 ∧
      delivery_ring (dequeue_delivery s).2 = (delivery_ring s).dequeue.2 := by
  simp only [dequeue_delivery, Ring.dequeue, delivery_ring]
  split_ifs <;> exact ⟨rfl, rfl⟩

theorem delivery_ring_dequeue_many (n : Nat) :
    ∀ s : Shop, (dequeue_many_delivery n s).1 = (Ring.dequeue_many n (delivery_ring s)).1 ∧
      delivery_ring (dequeue_many_delivery n s).2
        = (Ring.dequeue_many n (delivery_ring s)).2 := by
  induction n with
  | zero => intro s; exact ⟨rfl, rfl⟩
  | succ n ih =>
    intro s
    obtain ⟨h1, h2⟩ := delivery_ring_dequeue s
    obtain ⟨i1, i2⟩ := ih (dequeue_delivery s).2
    simp only [dequeue_many_delivery, Ring.dequeue_many]
    rw [i1, i2, h1, h2]
    exact ⟨rfl, rfl⟩

/-- C13: both stage queues are FIFO. For fewer than `MAX_ORDERS` orders `os` enqueued on a
queue whose indices are equal (at any slot, so also when they wrap past the last slot), the
next `os.length` dequeues return exactly `os` in the same order, one more dequeue returns
`NULL` and leaves the state as it is, and after every enqueue and every dequeue both indices
are below `MAX_ORDERS`. -/
theorem stage_queues_fifo (s : Shop) (os : List Nat) (hlen : os.length < MAX_ORDERS) :
    (s.prep_queue_start = s.prep_queue_end → s.prep_queue_start < MAX_ORDERS →
      (dequeue_many_preparation os.length (enqueue_all_preparation s os)).1 = os.map some ∧
      dequeue_preparation (dequeue_many_preparation os.length (enqueue_all_preparation s os)).2
        = (none, (dequeue_many_preparation os.length (enqueue_all_preparation s os)).2) ∧
      (∀ j, (enqueue_all_preparation s (os.take j)).prep_queue_start < MAX_ORDERS ∧
        (enqueue_all_preparation s (os.take j)).prep_queue_end < MAX_ORDERS) ∧
      (∀ j, j ≤ os.length →
        (dequeue_many_preparation j (enqueue_all_preparation s os)).2.prep_queue_start
          < MAX_ORDERS ∧
        (dequeue_many_preparation j (enqueue_all_preparation s os)).2.prep_queue_end
          < MAX_ORDERS)) ∧
    (s.delivery_queue_start = s.delivery_queue_end → s.delivery_queue_start < MAX_ORDERS →
      (dequeue_many_delivery os.length (enqueue_all_delivery s os)).1 = os.map some ∧
      dequeue_delivery (dequeue_many_delivery os.length (enqueue_all_delivery s os)).2
        = (none, (dequeue_many_delivery os.length (enqueue_all_delivery s os)).2) ∧
      (∀ j, (enqueue_all_delivery s (os.take j)).delivery_queue_start < MAX_ORDERS ∧
        (enqueue_all_delivery s (os.take j)).delivery_queue_end < MAX_ORDERS) ∧
      (∀ j, j ≤ os.length →
        (dequeue_many_delivery j (enqueue_all_delivery s os)).2.delivery_queue_start
          < MAX_ORDERS ∧
        (dequeue_many_delivery j (enqueue_all_delivery s os)).2.delivery_queue_end
          < MAX_ORDERS)) := by
  constructor
  · intro he hf
    obtain ⟨f1, f2, f3, f4⟩ := Ring.fifo (prep_ring s) os he hf hlen
    refine ⟨?_, ?_, ?_, ?_⟩
    · rw [(prep_ring_dequeue_many _ _).1, prep_ring_enqueue_all]
      exact f1
    · have h2 := (prep_ring_dequeue_many os.length (enqueue_all_preparation s os)).2
      rw [prep_ring_enqueue_all] at h2
      rw [← h2] at f2
      have f2' : (dequeue_many_preparation os.length
            (enqueue_all_preparation s os)).2.prep_queue_start
          = (dequeue_many_preparation os.length
            (enqueue_all_preparation s os)).2.prep_queue_end := f2
      simp [dequeue_preparation, f2']
    · intro j
      have := f3 j
      rw [← prep_ring_enqueue_all] at this
      exact this
    · intro j hj
      have := f4 j hj
      rw [← prep_ring_enqueue_all, ← (prep_ring_dequeue_many _ _).2] at this
      exact this
  · intro he hf
    obtain ⟨f1, f2, f3, f4⟩ := Ring.fifo (delivery_ring s) os he hf hlen
    refine ⟨?_, ?_, ?_, ?_⟩
    · rw [(delivery_ring_dequeue_many _ _).1, delivery_ring_enqueue_all]
      exact f1
    · have h2 := (delivery_ring_dequeue_many os.length (enqueue_all_delivery s os)).2
      rw [delivery_ring_enqueue_all] at h2
      rw [← h2] at f2
      have f2' : (dequeue_many_delivery os.length
            (enqueue_all_delivery s os)).2.delivery_queue_start
          = (dequeue_many_delivery os.length
            (enqueue_all_delivery s os)).2.delivery_queue_end := f2
      simp [dequeue_delivery, f2']
    · intro j
      have := f3 j
      rw [← delivery_ring_enqueue_all] at this
      exact this
    · intro j hj
      have := f4 j hj
      rw [← delivery_ring_enqueue_all, ← (delivery_ring_dequeue_many _ _).2] at this
      exact this

/-- Witness of C13: three orders enqueued when both indices stand at slot 999, so that the
tail wraps to 0 after the first enqueue. -/
theorem stage_queues_fifo_witness :
    [4, 5, 6].length < MAX_ORDERS ∧
      (enqueue_all_preparation at_last_slot [4, 5, 6]).prep_queue_end = 2 ∧
      (dequeue_many_preparation 3 (enqueue_all_preparation at_last_slot [4, 5, 6])).1
        = [some 4, some 5, some 6] ∧
      (dequeue_many_delivery 3 (enqueue_all_delivery at_last_slot [4, 5, 6])).1
        = [some 4, some 5, some 6] :=
  ⟨by decide, by decide,
    ((stage_queues_fifo at_last_slot [4, 5, 6] (by decide)).1 (by decide) (by decide)).1,
    ((stage_queues_fifo at_last_slot [4, 5, 6] (by decide)).2 (by decide) (by decide)).1⟩

end Fifo

/-! ## The preparation queue against the capacity of the store -/

section Capacity

/-- The counters after `n <= MAX_ORDERS` intakes without a dequeue. -/
theorem after_intakes_counters (n : Nat) (hn : n ≤ MAX_ORDERS) :
    (after_intakes n).order_count = n ∧ (after_intakes n).prep_queue_start = 0 ∧
      (after_intakes n).prep_queue_end = n % MAX_ORDERS := by
  induction n with
  | zero => exact ⟨rfl, rfl, rfl⟩
  | succ n ih =>
    obtain ⟨h1, h2, h3⟩ := ih (by omega)
    have hlt : (after_intakes n).order_count < MAX_ORDERS := by omega
    obtain ⟨a1, _, _, _, _, _, a7, a8, _⟩ :=
      manager_accept_fields (after_intakes n) (n : Int) 0 0 0 hlt
    have hstep : after_intakes (n + 1)
        = manager (after_intakes n) (n : Int) (some 0) (some 0) 0 := by
      simp [after_intakes, List.range_succ, List.foldl_append]
    rw [hstep, a1, a7, a8, h1, h2, h3]
    refine ⟨rfl, rfl, ?_⟩
    simp only [MAX_ORDERS] at *
    split_ifs <;> omega

/-- C11 fails at the capacity of the store: after `MAX_ORDERS` accepted intakes and no
dequeue at all, every one of the 1000 accepted orders is still waiting, yet the tail has
wrapped onto the head (`prep_queue_start = prep_queue_end = 0`) and `dequeue_preparation`
returns `NULL` without changing the state. One intake earlier the indices still differ. -/
theorem full_store_looks_empty :
    (after_intakes MAX_ORDERS).order_count = MAX_ORDERS ∧
      (after_intakes MAX_ORDERS).prep_queue_start = 0 ∧
      (after_intakes MAX_ORDERS).prep_queue_end = 0 ∧
      dequeue_preparation (after_intakes MAX_ORDERS) = (none, after_intakes MAX_ORDERS) ∧
      (after_intakes 999).prep_queue_start = 0 ∧ (after_intakes 999).prep_queue_end = 999 := by
  obtain ⟨h1, h2, h3⟩ := after_intakes_counters MAX_ORDERS (le_refl _)
  obtain ⟨_, g2, g3⟩ := after_intakes_counters 999 (by decide)
  have h3' : (after_intakes MAX_ORDERS).prep_queue_end = 0 := by rw [h3]; rfl
  refine ⟨h1, h2, h3', ?_, g2, by rw [g3]; rfl⟩
  simp [dequeue_preparation, h2, h3']

end Capacity

/-! ## The travel time in double precision -/

section TravelTime

/-- The rounded value is the floor or the floor plus one, according to the fractional part. -/
theorem round_half_even_cases (r : ℚ) :
    (r - ⌊r⌋ < 1 / 2 ∧ round_half_even r = ⌊r⌋) ∨
      (1 / 2 < r - ⌊r⌋ ∧ round_half_even r = ⌊r⌋ + 1) ∨
      (r - ⌊r⌋ = 1 / 2 ∧ (round_half_even r = ⌊r⌋ ∨ round_half_even r = ⌊r⌋ + 1)) := by
  unfold round_half_even
  by_cases h1 : r - ⌊r⌋ < 1 / 2
  · left
    exact ⟨h1, by rw [if_pos h1]⟩
  · by_cases h2 : 1 / 2 < r - ⌊r⌋
    · right; left
      exact ⟨h2, by rw [if_neg h1, if_pos h2]⟩
    · right; right
      refine ⟨le_antisymm (not_lt.mp h2) (not_lt.mp h1), ?_⟩
      rw [if_neg h1, if_neg h2]
      split_ifs
      · left; rfl
      · right; rfl

/-- Rounding moves a number by at most one half. -/
theorem round_half_even_near (r : ℚ) :
    (round_half_even r : ℚ) - r ≤ 1 / 2 ∧ r - (round_half_even r : ℚ) ≤ 1 / 2 := by
  have hf1 : (⌊r⌋ : ℚ) ≤ r := Int.floor_le r
  have hf2 : r < (⌊r⌋ : ℚ) + 1 := Int.lt_floor_add_one r
  rcases round_half_even_cases r with ⟨h, e⟩ | ⟨h, e⟩ | ⟨h, e | e⟩ <;>
    rw [e] <;> push_cast <;> constructor <;> linarith

/-- A number within less than one half of an integer is rounded to it. -/
theorem round_half_even_eq (r : ℚ) (k : ℤ) (h1 : (k : ℚ) - 1 / 2 < r)
    (h2 : r < (k : ℚ) + 1 / 2) : round_half_even r = k := by
  obtain ⟨a, b⟩ := round_half_even_near r
  have h3 : ((round_half_even r : ℤ) : ℚ) < (k : ℚ) + 1 := by linarith
  have h4 : (k : ℚ) - 1 < ((round_half_even r : ℤ) : ℚ) := by linarith
  have h5 : round_half_even r < k + 1 := by exact_mod_cast h3
  have h6 : k - 1 < round_half_even r := by exact_mod_cast h4
  omega

theorem round_half_even_int (k : ℤ) : round_half_even (k : ℚ) = k :=
  round_half_even_eq _ k (by linarith) (by linarith)

/-- Rounding is monotone. -/
theorem round_half_even_mono (r s : ℚ) (h : r ≤ s) :
    round_half_even r ≤ round_half_even s := by
  have hr1 : (⌊r⌋ : ℚ) ≤ r := Int.floor_le r
  have hs2 : s < (⌊s⌋ : ℚ) + 1 := Int.lt_floor_add_one s
  have hfl : ⌊r⌋ ≤ ⌊s⌋ := Int.floor_le_floor h
  by_cases hlt : ⌊r⌋ < ⌊s⌋
  · have hr : round_half_even r ≤ ⌊r⌋ + 1 := by
      rcases round_half_even_cases r with ⟨_, e⟩ | ⟨_, e⟩ | ⟨_, e | e⟩ <;> rw [e] <;> omega
    have hs : ⌊s⌋ ≤ round_half_even s := by
      rcases round_half_even_cases s with ⟨_, e⟩ | ⟨_, e⟩ | ⟨_, e | e⟩ <;> rw [e] <;> omega
    omega
  · have heq : ⌊r⌋ = ⌊s⌋ := by omega
    unfold round_half_even
    rw [heq]
    have hfr : r - (⌊s⌋ : ℚ) ≤ s - (⌊s⌋ : ℚ) := by linarith
    by_cases a1 : r - (⌊s⌋ : ℚ) < 1 / 2
    · rw [if_pos a1]
      split_ifs <;> omega
    · rw [if_neg a1]
      have b1 : ¬ s - (⌊s⌋ : ℚ) < 1 / 2 := by
        intro hc; exact a1 (lt_of_le_of_lt hfr hc)
      rw [if_neg b1]
      by_cases a2 : 1 / 2 < r - (⌊s⌋ : ℚ)
      · have b2 : 1 / 2 < s - (⌊s⌋ : ℚ) := lt_of_lt_of_le a2 hfr
        rw [if_pos a2, if_pos b2]
      · rw [if_neg a2]
        split_ifs <;> omega

theorem int_log_two_eq (q : ℚ) (e : ℤ) (h1 : (2 : ℚ) ^ e ≤ q) (h2 : q < (2 : ℚ) ^ (e + 1)) :
    Int.log 2 q = e := by
  have hq : 0 < q := lt_of_lt_of_le (zpow_pos (by norm_num) e) h1
  have a : e ≤ Int.log 2 q :=
    (Int.zpow_le_iff_le_log (by norm_num) hq).mp (by exact_mod_cast h1)
  have b : Int.log 2 q < e + 1 :=
    (Int.lt_zpow_iff_log_lt (by norm_num) hq).mp (by exact_mod_cast h2)
  omega

/-- The unit in the last place of a positive `q`: its significand `q / ulp` lies in
`[2 ^ 52, 2 ^ 53)`. -/
theorem ulp_bounds (q : ℚ) (hq : 0 < q) :
    0 < (2 : ℚ) ^ (Int.log 2 q - 52) ∧
      2 ^ 52 * (2 : ℚ) ^ (Int.log 2 q - 52) ≤ q ∧
      q < 2 ^ 53 * (2 : ℚ) ^ (Int.log 2 q - 52) := by
  have h1 : ((2 : ℕ) : ℚ) ^ Int.log 2 q ≤ q := Int.zpow_log_le_self (by norm_num) hq
  have h2 : q < ((2 : ℕ) : ℚ) ^ (Int.log 2 q + 1) := Int.lt_zpow_succ_log_self (by norm_num) q
  have e1 : (2 : ℚ) ^ (Int.log 2 q - 52) = (2 : ℚ) ^ Int.log 2 q / 2 ^ 52 := by
    rw [zpow_sub₀ (by norm_num)]
    norm_num
  have e2 : (2 : ℚ) ^ (Int.log 2 q + 1) = (2 : ℚ) ^ Int.log 2 q * 2 := by
    rw [zpow_add_one₀ (by norm_num)]
  have hp : 0 < (2 : ℚ) ^ Int.log 2 q := zpow_pos (by norm_num) _
  push_cast at h1 h2
  rw [e2] at h2
  rw [e1]
  refine ⟨by positivity, ?_, ?_⟩
  · have : (2 : ℚ) ^ 52 * ((2 : ℚ) ^ Int.log 2 q / 2 ^ 52) = (2 : ℚ) ^ Int.log 2 q := by
      field_simp
    rw [this]; exact h1
  · have : (2 : ℚ) ^ 53 * ((2 : ℚ) ^ Int.log 2 q / 2 ^ 52) = (2 : ℚ) ^ Int.log 2 q * 2 := by
      field_simp
      ring
    rw [this]; exact h2

theorem to_double_zero : to_double 0 = 0 := by
  simp [to_double, round_half_even]

theorem to_double_pos_eq (q : ℚ) (hq : 0 < q) :
    to_double q
      = (round_half_even (q / 2 ^ (Int.log 2 q - 52)) : ℚ) * 2 ^ (Int.log 2 q - 52) := by
  simp only [to_double, abs_of_pos hq]

/-- The significand of the rounded value lies in `[2 ^ 52, 2 ^ 53]`. -/
theorem to_double_range (q : ℚ) (hq : 0 < q) :
    2 ^ 52 * (2 : ℚ) ^ (Int.log 2 q - 52) ≤ to_double q ∧
      to_double q ≤ 2 ^ 53 * (2 : ℚ) ^ (Int.log 2 q - 52) := by
  obtain ⟨hp, h1, h2⟩ := ulp_bounds q hq
  rw [to_double_pos_eq q hq]
  have a1 : ((2 ^ 52 : ℤ) : ℚ) ≤ q / 2 ^ (Int.log 2 q - 52) := by
    rw [le_div_iff₀ hp]; push_cast; exact h1
  have a2 : q / 2 ^ (Int.log 2 q - 52) ≤ ((2 ^ 53 : ℤ) : ℚ) := by
    rw [div_le_iff₀ hp]; push_cast; exact le_of_lt h2
  have b1 := round_half_even_mono _ _ a1
  have b2 := round_half_even_mono _ _ a2
  rw [round_half_even_int] at b1 b2
  have c1 : ((2 : ℚ) ^ 52) ≤ (round_half_even (q / 2 ^ (Int.log 2 q - 52)) : ℚ) := by
    exact_mod_cast b1
  have c2 : (round_half_even (q / 2 ^ (Int.log 2 q - 52)) : ℚ) ≤ (2 : ℚ) ^ 53 := by
    exact_mod_cast b2
  exact ⟨mul_le_mul_of_nonneg_right c1 (le_of_lt hp),
    mul_le_mul_of_nonneg_right c2 (le_of_lt hp)⟩

/-- Rounding to `double` changes a non-negative number by at most the fraction `2 ^ (-53)`
of it. -/
theorem to_double_near (q : ℚ) (hq : 0 ≤ q) :
    q * (1 - 1 / 2 ^ 53) ≤ to_double q ∧ to_double q ≤ q * (1 + 1 / 2 ^ 53) := by
  rcases eq_or_lt_of_le hq with h0 | hpos
  · rw [← h0, to_double_zero]; simp
  · obtain ⟨hp, h1, _⟩ := ulp_bounds q hpos
    rw [to_double_pos_eq q hpos]
    obtain ⟨n1, n2⟩ := round_half_even_near (q / 2 ^ (Int.log 2 q - 52))
    have hq' : q / 2 ^ (Int.log 2 q - 52) * 2 ^ (Int.log 2 q - 52) = q := by
      field_simp
    generalize (round_half_even (q / 2 ^ (Int.log 2 q - 52)) : ℚ) = m at n1 n2
    generalize (2 : ℚ) ^ (Int.log 2 q - 52) = p at hp h1 n1 n2 hq'
    have k1 : (m - q / p) * p ≤ 1 / 2 * p := mul_le_mul_of_nonneg_right n1 (le_of_lt hp)
    have k2 : (q / p - m) * p ≤ 1 / 2 * p := mul_le_mul_of_nonneg_right n2 (le_of_lt hp)
    have k3 : (m - q / p) * p = m * p - q := by rw [sub_mul, hq']
    have k4 : (q / p - m) * p = q - m * p := by rw [sub_mul, hq']
    rw [k3] at k1
    rw [k4] at k2
    have k5 : 1 / 2 * p ≤ q * (1 / 2 ^ 53) := by
      have : q * (1 / 2 ^ 53) = q / 2 ^ 53 := by ring
      rw [this, le_div_iff₀ (by positivity)]
      linarith
    constructor <;> linarith

theorem to_double_nonneg (q : ℚ) (hq : 0 ≤ q) : 0 ≤ to_double q := by
  have h := (to_double_near q hq).1
  have : 0 ≤ q * (1 - 1 / 2 ^ 53) := mul_nonneg hq (by norm_num)
  linarith

/-- Rounding to `double` is monotone on the non-negative numbers. -/
theorem to_double_mono (q r : ℚ) (hq : 0 ≤ q) (h : q ≤ r) : to_double q ≤ to_double r := by
  rcases eq_or_lt_of_le hq with h0 | hpos
  · rw [← h0, to_double_zero]
    exact to_double_nonneg r (le_trans hq h)
  · have hr : 0 < r := lt_of_lt_of_le hpos h
    have hlog : Int.log 2 q ≤ Int.log 2 r := Int.log_mono_right hpos h
    rcases eq_or_lt_of_le hlog with he | hlt
    · rw [to_double_pos_eq q hpos, to_double_pos_eq r hr, ← he]
      have hp : 0 < (2 : ℚ) ^ (Int.log 2 q - 52) := zpow_pos (by norm_num) _
      have hdiv : q / 2 ^ (Int.log 2 q - 52) ≤ r / 2 ^ (Int.log 2 q - 52) :=
        div_le_div_of_nonneg_right h (le_of_lt hp)
      have hm := round_half_even_mono _ _ hdiv
      have hm' : (round_half_even (q / 2 ^ (Int.log 2 q - 52)) : ℚ)
          ≤ (round_half_even (r / 2 ^ (Int.log 2 q - 52)) : ℚ) := by exact_mod_cast hm
      exact mul_le_mul_of_nonneg_right hm' (le_of_lt hp)
    · have a := (to_double_range q hpos).2
      have b := (to_double_range r hr).1
      have hstep : (2 : ℚ) ^ 53 * 2 ^ (Int.log 2 q - 52) ≤ 2 ^ 52 * 2 ^ (Int.log 2 r - 52) := by
        have e1 : (2 : ℚ) ^ 53 * 2 ^ (Int.log 2 q - 52) = 2 ^ (Int.log 2 q + 1) := by
          rw [zpow_sub₀ (by norm_num), zpow_add_one₀ (by norm_num)]
          norm_num
          ring
        have e2 : (2 : ℚ) ^ 52 * 2 ^ (Int.log 2 r - 52) = 2 ^ (Int.log 2 r) := by
          rw [zpow_sub₀ (by norm_num)]
          norm_num
          field_simp
        rw [e1, e2]
        exact zpow_le_zpow_right₀ (by norm_num) (by omega)
      linarith

/-- Evaluation of `to_double`: a positive `q` in the binade `[2 ^ e, 2 ^ (e + 1))` whose
significand lies within less than one half of the integer `k` is rounded to
`k * 2 ^ (e - 52)`. -/
theorem to_double_eval (q : ℚ) (e k : ℤ) (h1 : (2 : ℚ) ^ e ≤ q) (h2 : q < (2 : ℚ) ^ (e + 1))
    (h3 : (k : ℚ) - 1 / 2 < q / 2 ^ (e - 52)) (h4 : q / 2 ^ (e - 52) < (k : ℚ) + 1 / 2) :
    to_double q = (k : ℚ) * 2 ^ (e - 52) := by
  have hq : 0 < q := lt_of_lt_of_le (zpow_pos (by norm_num) e) h1
  rw [to_double_pos_eq q hq, int_log_two_eq q e h1 h2, round_half_even_eq _ k h3 h4]

/-- The integer `nearest_sqrt k` is within one half of the real square root of `k`. -/
theorem nearest_sqrt_near (k : ℕ) :
    (nearest_sqrt k : ℝ) - Real.sqrt k ≤ 1 / 2 ∧ Real.sqrt k - (nearest_sqrt k : ℝ) ≤ 1 / 2 := by
  have h0 : (0 : ℝ) ≤ Real.sqrt k := Real.sqrt_nonneg _
  have hsq : Real.sqrt k * Real.sqrt k = (k : ℝ) := Real.mul_self_sqrt (Nat.cast_nonneg k)
  have h1 : Nat.sqrt k * Nat.sqrt k ≤ k := Nat.sqrt_le k
  have h2 : k < (Nat.sqrt k + 1) * (Nat.sqrt k + 1) := Nat.lt_succ_sqrt k
  have c1 : ((Nat.sqrt k : ℝ)) * (Nat.sqrt k : ℝ) ≤ (k : ℝ) := by exact_mod_cast h1
  have c2 : (k : ℝ) < ((Nat.sqrt k : ℝ) + 1) * ((Nat.sqrt k : ℝ) + 1) := by exact_mod_cast h2
  have hm : (0 : ℝ) ≤ (Nat.sqrt k : ℝ) := Nat.cast_nonneg _
  have lo : (Nat.sqrt k : ℝ) ≤ Real.sqrt k := by
    by_contra hc
    push_neg at hc
    nlinarith
  have hi : Real.sqrt k < (Nat.sqrt k : ℝ) + 1 := by
    by_contra hc
    push_neg at hc
    nlinarith
  unfold nearest_sqrt
  split_ifs with h
  · have h' : Nat.sqrt k * Nat.sqrt k + Nat.sqrt k + 1 ≤ k := h
    have c3 : (Nat.sqrt k : ℝ) * (Nat.sqrt k : ℝ) + (Nat.sqrt k : ℝ) + 1 ≤ (k : ℝ) := by
      exact_mod_cast h'
    have mid : (Nat.sqrt k : ℝ) + 1 / 2 ≤ Real.sqrt k := by
      by_contra hc
      push_neg at hc
      nlinarith
    push_cast
    constructor <;> linarith
  · have h' : k ≤ Nat.sqrt k * Nat.sqrt k + Nat.sqrt k := not_lt.mp h
    have c3 : (k : ℝ) ≤ (Nat.sqrt k : ℝ) * (Nat.sqrt k : ℝ) + (Nat.sqrt k : ℝ) := by
      exact_mod_cast h'
    have mid : Real.sqrt k ≤ (Nat.sqrt k : ℝ) + 1 / 2 := by
      by_contra hc
      push_neg at hc
      nlinarith
    constructor <;> linarith

theorem nearest_sqrt_mono (j k : ℕ) (h : j ≤ k) : nearest_sqrt j ≤ nearest_sqrt k := by
  have hs : Nat.sqrt j ≤ Nat.sqrt k := Nat.sqrt_le_sqrt h
  have j1 : Nat.sqrt j * Nat.sqrt j ≤ j := Nat.sqrt_le j
  have k2 : k < (Nat.sqrt k + 1) * (Nat.sqrt k + 1) := Nat.lt_succ_sqrt k
  unfold nearest_sqrt
  rcases Nat.eq_or_lt_of_le hs with he | hlt
  · rw [he]
    rw [he] at j1
    split_ifs <;> omega
  · split_ifs <;> omega

theorem nearest_sqrt_sq (m : ℕ) : nearest_sqrt (m * m) = m := by
  have : Nat.sqrt (m * m) = m := Nat.sqrt_eq m
  unfold nearest_sqrt
  rw [this]
  simp

/-- For `4 ^ 52 <= k < 4 ^ 53` the nearest root is a 53-bit significand. -/
theorem nearest_sqrt_range (k : ℕ) (h1 : 4 ^ 52 ≤ k) (h2 : k < 4 ^ 53) :
    2 ^ 52 ≤ nearest_sqrt k ∧ nearest_sqrt k ≤ 2 ^ 53 := by
  have a : 2 ^ 52 ≤ Nat.sqrt k := by
    rw [Nat.le_sqrt]
    calc 2 ^ 52 * 2 ^ 52 = 4 ^ 52 := by norm_num
      _ ≤ k := h1
  have b : Nat.sqrt k < 2 ^ 53 := by
    rw [Nat.sqrt_lt]
    calc k < 4 ^ 53 := h2
      _ = 2 ^ 53 * 2 ^ 53 := by norm_num
  unfold nearest_sqrt
  split_ifs <;> omega

/-- The binade of the square root of a positive `n < 4 ^ 53`. -/
theorem sqrt_scale (n : ℕ) (hn : 0 < n) (hb : n < 4 ^ 53) :
    Nat.log 4 n ≤ 52 ∧ 4 ^ Nat.log 4 n ≤ n ∧ n < 4 ^ (Nat.log 4 n + 1) ∧
      4 ^ 52 ≤ n * 4 ^ (52 - Nat.log 4 n) ∧ n * 4 ^ (52 - Nat.log 4 n) < 4 ^ 53 := by
  have h1 : Nat.log 4 n < 53 := Nat.log_lt_of_lt_pow (Nat.pos_iff_ne_zero.mp hn) hb
  have h2 : 4 ^ Nat.log 4 n ≤ n := Nat.pow_log_le_self 4 (Nat.pos_iff_ne_zero.mp hn)
  have h3 : n < 4 ^ (Nat.log 4 n + 1) := Nat.lt_pow_succ_log_self (by norm_num) n
  have hpos : 0 < 4 ^ (52 - Nat.log 4 n) := Nat.pow_pos (by norm_num)
  refine ⟨by omega, h2, h3, ?_, ?_⟩
  · calc 4 ^ 52 = 4 ^ (Nat.log 4 n + (52 - Nat.log 4 n)) := by congr 1; omega
      _ = 4 ^ Nat.log 4 n * 4 ^ (52 - Nat.log 4 n) := pow_add _ _ _
      _ ≤ n * 4 ^ (52 - Nat.log 4 n) := Nat.mul_le_mul_right _ h2
  · calc n * 4 ^ (52 - Nat.log 4 n)
        < 4 ^ (Nat.log 4 n + 1) * 4 ^ (52 - Nat.log 4 n) :=
          Nat.mul_lt_mul_of_pos_right h3 hpos
      _ = 4 ^ (Nat.log 4 n + 1 + (52 - Nat.log 4 n)) := (pow_add _ _ _).symm
      _ = 4 ^ 53 := by congr 1; omega

theorem ulp_factor (t : ℕ) (ht : t ≤ 52) :
    (2 : ℚ) ^ ((t : ℤ) - 52) = 1 / 2 ^ (52 - t) := by
  have : ((t : ℤ) - 52) = -((52 - t : ℕ) : ℤ) := by omega
  rw [this, zpow_neg, zpow_natCast]
  simp

theorem double_sqrt_zero : double_sqrt 0 = 0 := by
  simp [double_sqrt, nearest_sqrt]

theorem double_sqrt_nonneg (n : ℕ) : 0 ≤ double_sqrt n := by
  unfold double_sqrt
  exact mul_nonneg (Nat.cast_nonneg _) (le_of_lt (zpow_pos (by norm_num) _))

/-- The square root of a perfect square is exact. -/
theorem double_sqrt_sq (d : ℕ) (hd : d * d < 4 ^ 53) : double_sqrt (d * d) = d := by
  rcases Nat.eq_zero_or_pos d with h0 | hpos
  · subst h0; simpa using double_sqrt_zero
  · obtain ⟨ht, _⟩ := sqrt_scale (d * d) (Nat.mul_pos hpos hpos) hd
    unfold double_sqrt
    have e : d * d * 4 ^ (52 - Nat.log 4 (d * d))
        = (d * 2 ^ (52 - Nat.log 4 (d * d))) * (d * 2 ^ (52 - Nat.log 4 (d * d))) := by
      have : (4 : ℕ) ^ (52 - Nat.log 4 (d * d))
          = 2 ^ (52 - Nat.log 4 (d * d)) * 2 ^ (52 - Nat.log 4 (d * d)) := by
        rw [← mul_pow]
        norm_num
      rw [this]; ring
    rw [e, nearest_sqrt_sq, ulp_factor _ ht]
    push_cast
    field_simp

/-- The computed square root differs from the real one by at most the fraction `2 ^ (-53)`
of it. -/
theorem double_sqrt_near (n : ℕ) (hb : n < 4 ^ 53) :
    Real.sqrt n * (1 - 1 / 2 ^ 53) ≤ ((double_sqrt n : ℚ) : ℝ) ∧
      ((double_sqrt n : ℚ) : ℝ) ≤ Real.sqrt n * (1 + 1 / 2 ^ 53) := by
  rcases Nat.eq_zero_or_pos n with h0 | hpos
  · subst h0
    rw [double_sqrt_zero]
    simp
  · obtain ⟨ht, h2, _, _, _⟩ := sqrt_scale n hpos hb
    obtain ⟨a, b⟩ := nearest_sqrt_near (n * 4 ^ (52 - Nat.log 4 n))
    have hP : (0 : ℝ) < 2 ^ (52 - Nat.log 4 n) := by positivity
    have hroot : Real.sqrt ((n * 4 ^ (52 - Nat.log 4 n) : ℕ) : ℝ)
        = Real.sqrt n * 2 ^ (52 - Nat.log 4 n) := by
      have : ((n * 4 ^ (52 - Nat.log 4 n) : ℕ) : ℝ)
          = (n : ℝ) * ((2 : ℝ) ^ (52 - Nat.log 4 n)) ^ 2 := by
        push_cast
        rw [← pow_mul, mul_comm (52 - Nat.log 4 n) 2, pow_mul]
        norm_num
      rw [this, Real.sqrt_mul (Nat.cast_nonneg n), Real.sqrt_sq (le_of_lt hP)]
    rw [hroot] at a b
    have hlow : (2 : ℝ) ^ Nat.log 4 n ≤ Real.sqrt n := by
      apply Real.le_sqrt_of_sq_le
      have : ((2 : ℝ) ^ Nat.log 4 n) ^ 2 = ((4 ^ Nat.log 4 n : ℕ) : ℝ) := by
        push_cast
        rw [← pow_mul, mul_comm, pow_mul]
        norm_num
      rw [this]
      exact_mod_cast h2
    have hprod : (2 : ℝ) ^ Nat.log 4 n * 2 ^ (52 - Nat.log 4 n) = 2 ^ 52 := by
      rw [← pow_add]
      congr 1
      omega
    have hd : ((double_sqrt n : ℚ) : ℝ)
        = (nearest_sqrt (n * 4 ^ (52 - Nat.log 4 n)) : ℝ) / 2 ^ (52 - Nat.log 4 n) := by
      unfold double_sqrt
      rw [ulp_factor _ ht]
      push_cast
      ring
    rw [hd]
    generalize (nearest_sqrt (n * 4 ^ (52 - Nat.log 4 n)) : ℝ) = m at a b
    generalize (2 : ℝ) ^ (52 - Nat.log 4 n) = P at hP a b hprod
    generalize (2 : ℝ) ^ Nat.log 4 n = T at hlow hprod
    generalize Real.sqrt n = R at a b hlow
    have hT : T = 2 ^ 52 / P := by
      field_simp
      linarith
    have hRP : 2 ^ 52 ≤ R * P := by
      have := mul_le_mul_of_nonneg_right hlow (le_of_lt hP)
      linarith
    constructor
    · rw [le_div_iff₀ hP]
      have : R * (1 - 1 / 2 ^ 53) * P = R * P - R * P / 2 ^ 53 := by ring
      rw [this]
      have : (1 : ℝ) / 2 ≤ R * P / 2 ^ 53 := by
        rw [le_div_iff₀ (by positivity)]
        linarith
      linarith
    · rw [div_le_iff₀ hP]
      have : R * (1 + 1 / 2 ^ 53) * P = R * P + R * P / 2 ^ 53 := by ring
      rw [this]
      have : (1 : ℝ) / 2 ≤ R * P / 2 ^ 53 := by
        rw [le_div_iff₀ (by positivity)]
        linarith
      linarith

/-- The computed square root is monotone. -/
theorem double_sqrt_mono (j k : ℕ) (h : j ≤ k) (hb : k < 4 ^ 53) :
    double_sqrt j ≤ double_sqrt k := by
  rcases Nat.eq_zero_or_pos j with h0 | hpos
  · subst h0
    rw [double_sqrt_zero]
    exact double_sqrt_nonneg k
  · have hkpos : 0 < k := lt_of_lt_of_le hpos h
    obtain ⟨tj, _, _, j4, j5⟩ := sqrt_scale j hpos (lt_of_le_of_lt h hb)
    obtain ⟨tk, _, _, k4, k5⟩ := sqrt_scale k hkpos hb
    have hlog : Nat.log 4 j ≤ Nat.log 4 k := Nat.log_mono_right h
    unfold double_sqrt
    rcases Nat.eq_or_lt_of_le hlog with he | hlt
    · rw [← he]
      have hm := nearest_sqrt_mono (j * 4 ^ (52 - Nat.log 4 j)) (k * 4 ^ (52 - Nat.log 4 j))
        (Nat.mul_le_mul_right _ h)
      have hm' : (nearest_sqrt (j * 4 ^ (52 - Nat.log 4 j)) : ℚ)
          ≤ (nearest_sqrt (k * 4 ^ (52 - Nat.log 4 j)) : ℚ) := by exact_mod_cast hm
      exact mul_le_mul_of_nonneg_right hm' (le_of_lt (zpow_pos (by norm_num) _))
    · have a := (nearest_sqrt_range _ j4 j5).2
      have b := (nearest_sqrt_range _ k4 k5).1
      have a' : (nearest_sqrt (j * 4 ^ (52 - Nat.log 4 j)) : ℚ) ≤ 2 ^ 53 := by exact_mod_cast a
      have b' : (2 : ℚ) ^ 52 ≤ (nearest_sqrt (k * 4 ^ (52 - Nat.log 4 k)) : ℚ) := by
        exact_mod_cast b
      have pj : (0 : ℚ) < 2 ^ ((Nat.log 4 j : ℤ) - 52) := zpow_pos (by norm_num) _
      have pk : (0 : ℚ) < 2 ^ ((Nat.log 4 k : ℤ) - 52) := zpow_pos (by norm_num) _
      have hstep : (2 : ℚ) ^ 53 * 2 ^ ((Nat.log 4 j : ℤ) - 52)
          ≤ 2 ^ 52 * 2 ^ ((Nat.log 4 k : ℤ) - 52) := by
        have e1 : (2 : ℚ) ^ 53 * 2 ^ ((Nat.log 4 j : ℤ) - 52)
            = 2 ^ ((Nat.log 4 j : ℤ) + 1) := by
          rw [zpow_sub₀ (by norm_num), zpow_add_one₀ (by norm_num)]
          norm_num
          ring
        have e2 : (2 : ℚ) ^ 52 * 2 ^ ((Nat.log 4 k : ℤ) - 52) = 2 ^ (Nat.log 4 k : ℤ) := by
          rw [zpow_sub₀ (by norm_num)]
          norm_num
          field_simp
        rw [e1, e2]
        exact zpow_le_zpow_right₀ (by norm_num) (by omega)
      calc (nearest_sqrt (j * 4 ^ (52 - Nat.log 4 j)) : ℚ) * 2 ^ ((Nat.log 4 j : ℤ) - 52)
          ≤ 2 ^ 53 * 2 ^ ((Nat.log 4 j : ℤ) - 52) := mul_le_mul_of_nonneg_right a' (le_of_lt pj)
        _ ≤ 2 ^ 52 * 2 ^ ((Nat.log 4 k : ℤ) - 52) := hstep
        _ ≤ (nearest_sqrt (k * 4 ^ (52 - Nat.log 4 k)) : ℚ) * 2 ^ ((Nat.log 4 k : ℤ) - 52) :=
          mul_le_mul_of_nonneg_right b' (le_of_lt pk)

/-- The travel time to a point whose distance `d` from the origin is a whole number. -/
theorem calculate_delivery_time_of_square (x y s : ℤ) (d : ℕ)
    (h1 : x * x + y * y = ((d * d : ℕ) : ℤ)) (h2 : d * d < 2 ^ 31) (hs : s ≠ 0) :
    calculate_delivery_time x y s
      = some (truncate (to_double (to_double ((d : ℚ) / s) * 60))) := by
  have hlt : x * x + y * y < 2 ^ 31 := by
    rw [h1]
    exact_mod_cast h2
  have hb : d * d < 4 ^ 53 := lt_trans h2 (by norm_num)
  unfold calculate_delivery_time
  rw [if_pos ⟨hlt, hs⟩, h1, Int.toNat_natCast, double_sqrt_sq d hb]

theorem travel_time_49_0_3 : calculate_delivery_time 49 0 3 = some 979 := by
  rw [calculate_delivery_time_of_square 49 0 3 49 (by norm_num) (by norm_num) (by norm_num)]
  have e1 : to_double (((49 : ℕ) : ℚ) / ((3 : ℤ) : ℚ))
      = ((4597424619607381 : ℤ) : ℚ) * 2 ^ ((4 : ℤ) - 52) := by
    apply to_double_eval <;> norm_num
  have e2 : to_double (((4597424619607381 : ℤ) : ℚ) * 2 ^ ((4 : ℤ) - 52) * 60)
      = ((8620171161763839 : ℤ) : ℚ) * 2 ^ ((9 : ℤ) - 52) := by
    apply to_double_eval <;> norm_num
  rw [e1, e2]
  have e3 : truncate (((8620171161763839 : ℤ) : ℚ) * 2 ^ ((9 : ℤ) - 52)) = 979 := by
    unfold truncate
    rw [if_pos (by norm_num), Int.floor_eq_iff]
    constructor <;> norm_num
  rw [e3]

theorem travel_time_0_0_1 : calculate_delivery_time 0 0 1 = some 0 := by
  rw [calculate_delivery_time_of_square 0 0 1 0 (by norm_num) (by norm_num) (by norm_num)]
  simp [to_double_zero, truncate]

theorem travel_time_3_4_1 : calculate_delivery_time 3 4 1 = some 300 := by
  rw [calculate_delivery_time_of_square 3 4 1 5 (by norm_num) (by norm_num) (by norm_num)]
  have e1 : to_double (((5 : ℕ) : ℚ) / ((1 : ℤ) : ℚ))
      = ((5629499534213120 : ℤ) : ℚ) * 2 ^ ((2 : ℤ) - 52) := by
    apply to_double_eval <;> norm_num
  have e2 : to_double (((5629499534213120 : ℤ) : ℚ) * 2 ^ ((2 : ℤ) - 52) * 60)
      = ((5277655813324800 : ℤ) : ℚ) * 2 ^ ((8 : ℤ) - 52) := by
    apply to_double_eval <;> norm_num
  rw [e1, e2]
  have e3 : truncate (((5277655813324800 : ℤ) : ℚ) * 2 ^ ((8 : ℤ) - 52)) = 300 := by
    unfold truncate
    rw [if_pos (by norm_num), Int.floor_eq_iff]
    constructor <;> norm_num
  rw [e3]

theorem travel_time_6_8_1 : calculate_delivery_time 6 8 1 = some 600 := by
  rw [calculate_delivery_time_of_square 6 8 1 10 (by norm_num) (by norm_num) (by norm_num)]
  have e1 : to_double (((10 : ℕ) : ℚ) / ((1 : ℤ) : ℚ))
      = ((5629499534213120 : ℤ) : ℚ) * 2 ^ ((3 : ℤ) - 52) := by
    apply to_double_eval <;> norm_num
  have e2 : to_double (((5629499534213120 : ℤ) : ℚ) * 2 ^ ((3 : ℤ) - 52) * 60)
      = ((5277655813324800 : ℤ) : ℚ) * 2 ^ ((9 : ℤ) - 52) := by
    apply to_double_eval <;> norm_num
  rw [e1, e2]
  have e3 : truncate (((5277655813324800 : ℤ) : ℚ) * 2 ^ ((9 : ℤ) - 52)) = 600 := by
    unfold truncate
    rw [if_pos (by norm_num), Int.floor_eq_iff]
    constructor <;> norm_num
  rw [e3]

/-- The `double` computed by `sqrt(n) / s * 60` against the exact value `60 * sqrt n / s`:
three roundings change it by at most the fraction `4 * 2 ^ (-53)`. -/
theorem travel_chain (n : ℕ) (s : ℤ) (hn : n < 2 ^ 31) (hs : 0 < s) :
    0 ≤ to_double (to_double (double_sqrt n / s) * 60) ∧
      60 * Real.sqrt n / s * (1 - 4 / 2 ^ 53)
        ≤ ((to_double (to_double (double_sqrt n / s) * 60) : ℚ) : ℝ) ∧
      ((to_double (to_double (double_sqrt n / s) * 60) : ℚ) : ℝ)
        ≤ 60 * Real.sqrt n / s * (1 + 4 / 2 ^ 53) := by
  have hb : n < 4 ^ 53 := lt_trans hn (by norm_num)
  obtain ⟨d1, d2⟩ := double_sqrt_near n hb
  have hd0 : (0 : ℚ) ≤ double_sqrt n := double_sqrt_nonneg n
  have hsq : (0 : ℚ) < (s : ℚ) := by exact_mod_cast hs
  have ha0 : (0 : ℚ) ≤ double_sqrt n / s := div_nonneg hd0 (le_of_lt hsq)
  obtain ⟨a1, a2⟩ := to_double_near _ ha0
  have hq10 : (0 : ℚ) ≤ to_double (double_sqrt n / s) := to_double_nonneg _ ha0
  have hb0 : (0 : ℚ) ≤ to_double (double_sqrt n / s) * 60 := mul_nonneg hq10 (by norm_num)
  obtain ⟨b1, b2⟩ := to_double_near _ hb0
  refine ⟨to_double_nonneg _ hb0, ?_, ?_⟩
  · have a1' : ((double_sqrt n : ℚ) : ℝ) / (s : ℝ) * (1 - 1 / 2 ^ 53)
        ≤ ((to_double (double_sqrt n / s) : ℚ) : ℝ) := by
      have h := (Rat.cast_le (K := ℝ)).mpr a1
      push_cast at h
      exact h
    have b1' : ((to_double (double_sqrt n / s) : ℚ) : ℝ) * 60 * (1 - 1 / 2 ^ 53)
        ≤ ((to_double (to_double (double_sqrt n / s) * 60) : ℚ) : ℝ) := by
      have h := (Rat.cast_le (K := ℝ)).mpr b1
      push_cast at h
      exact h
    have hS : (0 : ℝ) < (s : ℝ) := by exact_mod_cast hs
    have hr : (0 : ℝ) ≤ Real.sqrt n := Real.sqrt_nonneg _
    have s1 : Real.sqrt n * (1 - 1 / 2 ^ 53) / (s : ℝ) ≤ ((double_sqrt n : ℚ) : ℝ) / (s : ℝ) :=
      div_le_div_of_nonneg_right d1 (le_of_lt hS)
    have s2 : Real.sqrt n * (1 - 1 / 2 ^ 53) / (s : ℝ) * (1 - 1 / 2 ^ 53)
        ≤ ((to_double (double_sqrt n / s) : ℚ) : ℝ) :=
      le_trans (mul_le_mul_of_nonneg_right s1 (by norm_num)) a1'
    have s3 : Real.sqrt n * (1 - 1 / 2 ^ 53) / (s : ℝ) * (1 - 1 / 2 ^ 53) * 60
          * (1 - 1 / 2 ^ 53)
        ≤ ((to_double (to_double (double_sqrt n / s) * 60) : ℚ) : ℝ) :=
      le_trans (mul_le_mul_of_nonneg_right
        (mul_le_mul_of_nonneg_right s2 (by norm_num)) (by norm_num)) b1'
    have e : Real.sqrt n * (1 - 1 / 2 ^ 53) / (s : ℝ) * (1 - 1 / 2 ^ 53) * 60
          * (1 - 1 / 2 ^ 53)
        = 60 * Real.sqrt n / s * ((1 - 1 / 2 ^ 53) ^ 3) := by ring
    rw [e] at s3
    have hE : (0 : ℝ) ≤ 60 * Real.sqrt n / s := by positivity
    have hc : (1 - 4 / 2 ^ 53 : ℝ) ≤ (1 - 1 / 2 ^ 53) ^ 3 := by norm_num
    exact le_trans (mul_le_mul_of_nonneg_left hc hE) s3
  · have a2' : ((to_double (double_sqrt n / s) : ℚ) : ℝ)
        ≤ ((double_sqrt n : ℚ) : ℝ) / (s : ℝ) * (1 + 1 / 2 ^ 53) := by
      have h := (Rat.cast_le (K := ℝ)).mpr a2
      push_cast at h
      exact h
    have b2' : ((to_double (to_double (double_sqrt n / s) * 60) : ℚ) : ℝ)
        ≤ ((to_double (double_sqrt n / s) : ℚ) : ℝ) * 60 * (1 + 1 / 2 ^ 53) := by
      have h := (Rat.cast_le (K := ℝ)).mpr b2
      push_cast at h
      exact h
    have hS : (0 : ℝ) < (s : ℝ) := by exact_mod_cast hs
    have hr : (0 : ℝ) ≤ Real.sqrt n := Real.sqrt_nonneg _
    have s1 : ((double_sqrt n : ℚ) : ℝ) / (s : ℝ) ≤ Real.sqrt n * (1 + 1 / 2 ^ 53) / (s : ℝ) :=
      div_le_div_of_nonneg_right d2 (le_of_lt hS)
    have s2 : ((to_double (double_sqrt n / s) : ℚ) : ℝ)
        ≤ Real.sqrt n * (1 + 1 / 2 ^ 53) / (s : ℝ) * (1 + 1 / 2 ^ 53) :=
      le_trans a2' (mul_le_mul_of_nonneg_right s1 (by norm_num))
    have s3 : ((to_double (to_double (double_sqrt n / s) * 60) : ℚ) : ℝ)
        ≤ Real.sqrt n * (1 + 1 / 2 ^ 53) / (s : ℝ) * (1 + 1 / 2 ^ 53) * 60
          * (1 + 1 / 2 ^ 53) :=
      le_trans b2' (mul_le_mul_of_nonneg_right
        (mul_le_mul_of_nonneg_right s2 (by norm_num)) (by norm_num))
    have e : Real.sqrt n * (1 + 1 / 2 ^ 53) / (s : ℝ) * (1 + 1 / 2 ^ 53) * 60
          * (1 + 1 / 2 ^ 53)
        = 60 * Real.sqrt n / s * ((1 + 1 / 2 ^ 53) ^ 3) := by ring
    rw [e] at s3
    have hE : (0 : ℝ) ≤ 60 * Real.sqrt n / s := by positivity
    have hc : ((1 + 1 / 2 ^ 53) ^ 3 : ℝ) ≤ 1 + 4 / 2 ^ 53 := by norm_num
    exact le_trans s3 (mul_le_mul_of_nonneg_left hc hE)

theorem sqrt_int_bound (n : ℕ) (hn : n < 2 ^ 31) : Real.sqrt n ≤ 46341 := by
  rw [Real.sqrt_le_iff]
  refine ⟨by norm_num, ?_⟩
  have h : (n : ℝ) < 2 ^ 31 := by exact_mod_cast hn
  norm_num at h ⊢
  linarith

/-- The truncated `double` result is the integer part of the exact value or one below it. -/
theorem travel_floor_bounds (n : ℕ) (s : ℤ) (hn : n < 2 ^ 31) (hs : 0 < s) :
    ⌊60 * Real.sqrt n / s⌋ - 1 ≤ truncate (to_double (to_double (double_sqrt n / s) * 60)) ∧
      truncate (to_double (to_double (double_sqrt n / s) * 60)) ≤ ⌊60 * Real.sqrt n / s⌋ := by
  obtain ⟨h0, hlo, hhi⟩ := travel_chain n s hn hs
  generalize to_double (to_double (double_sqrt n / s) * 60) = q2 at h0 hlo hhi ⊢
  have ht : truncate q2 = ⌊(q2 : ℝ)⌋ := by
    unfold truncate
    rw [if_pos h0, Rat.floor_cast]
  rw [ht]
  have hS1 : (1 : ℝ) ≤ (s : ℝ) := by
    have : (1 : ℤ) ≤ s := hs
    exact_mod_cast this
  have hS0 : (0 : ℝ) < (s : ℝ) := lt_of_lt_of_le one_pos hS1
  have hr0 : (0 : ℝ) ≤ Real.sqrt n := Real.sqrt_nonneg _
  have hr : Real.sqrt n ≤ 46341 := sqrt_int_bound n hn
  have hb : 60 * Real.sqrt n ≤ 2780460 := by linarith
  have hb0 : (0 : ℝ) ≤ 60 * Real.sqrt n := by positivity
  have hEs : 60 * Real.sqrt n / s * s = 60 * Real.sqrt n := div_mul_cancel₀ _ (ne_of_gt hS0)
  generalize hE : 60 * Real.sqrt n / (s : ℝ) = E at hlo hhi hEs ⊢
  have hE0 : 0 ≤ E := by
    rw [← hE]
    exact div_nonneg hb0 (le_of_lt hS0)
  have hEb : E ≤ 2780460 := by
    have : E * 1 ≤ E * s := mul_le_mul_of_nonneg_left hS1 hE0
    linarith
  constructor
  · rw [Int.le_floor]
    push_cast
    have h1 := Int.floor_le E
    have h2 : E * (4 / 2 ^ 53) ≤ 2780460 * (4 / 2 ^ 53) :=
      mul_le_mul_of_nonneg_right hEb (by norm_num)
    have h3 : (2780460 : ℝ) * (4 / 2 ^ 53) ≤ 1 := by norm_num
    have h4 : E * (1 - 4 / 2 ^ 53) = E - E * (4 / 2 ^ 53) := by ring
    linarith
  · have hM : E < ((⌊E⌋ + 1 : ℤ) : ℝ) := by
      push_cast
      exact Int.lt_floor_add_one E
    have hM0 : (0 : ℤ) ≤ ⌊E⌋ := Int.floor_nonneg.mpr hE0
    have hlt : (q2 : ℝ) < ((⌊E⌋ + 1 : ℤ) : ℝ) := by
      have h5 : E * (1 + 4 / 2 ^ 53) = E + E * (4 / 2 ^ 53) := by ring
      by_cases hc : (2 : ℝ) ^ 26 ≤ (s : ℝ)
      · have h6 : E * 2 ^ 26 ≤ E * s := mul_le_mul_of_nonneg_left hc hE0
        have h7 : E * (4 / 2 ^ 53) ≤ 2780460 * (4 / 2 ^ 53) :=
          mul_le_mul_of_nonneg_right hEb (by norm_num)
        have h8 : (1 : ℝ) ≤ ((⌊E⌋ + 1 : ℤ) : ℝ) := by
          have : (1 : ℤ) ≤ ⌊E⌋ + 1 := by omega
          exact_mod_cast this
        norm_num at h6 h7
        linarith
      · have hc1 : (s : ℝ) < 2 ^ 26 := lt_of_not_le hc
        have hab : 60 * Real.sqrt n < (s : ℝ) * ((⌊E⌋ + 1 : ℤ) : ℝ) := by
          have : E * s < ((⌊E⌋ + 1 : ℤ) : ℝ) * s := mul_lt_mul_of_pos_right hM hS0
          linarith
        have hbsq : (60 * Real.sqrt n) ^ 2 = ((3600 * n : ℤ) : ℝ) := by
          rw [mul_pow, Real.sq_sqrt (Nat.cast_nonneg n)]
          push_cast
          norm_num
        have hsq : (60 * Real.sqrt n) ^ 2 < ((s : ℝ) * ((⌊E⌋ + 1 : ℤ) : ℝ)) ^ 2 :=
          pow_lt_pow_left₀ hab hb0 (by norm_num)
        have hz : (3600 * n : ℤ) < (s * (⌊E⌋ + 1)) ^ 2 := by
          have : ((3600 * n : ℤ) : ℝ) < (((s * (⌊E⌋ + 1)) ^ 2 : ℤ) : ℝ) := by
            rw [← hbsq]
            push_cast
            push_cast at hsq
            exact hsq
          exact_mod_cast this
        have hz1 : (3600 * n : ℤ) + 1 ≤ (s * (⌊E⌋ + 1)) ^ 2 := hz
        have hgap : (60 * Real.sqrt n) ^ 2 + 1 ≤ ((s : ℝ) * ((⌊E⌋ + 1 : ℤ) : ℝ)) ^ 2 := by
          rw [hbsq]
          exact_mod_cast hz1
        have hfl : ((⌊E⌋ + 1 : ℤ) : ℝ) ≤ E + 1 := by
          push_cast
          linarith [Int.floor_le E]
        have hsum : (s : ℝ) * ((⌊E⌋ + 1 : ℤ) : ℝ) ≤ 60 * Real.sqrt n + s := by
          have : (s : ℝ) * ((⌊E⌋ + 1 : ℤ) : ℝ) ≤ s * (E + 1) :=
            mul_le_mul_of_nonneg_left hfl (le_of_lt hS0)
          linarith
        have hfin : (q2 : ℝ) * s < (s : ℝ) * ((⌊E⌋ + 1 : ℤ) : ℝ) →
            (q2 : ℝ) < ((⌊E⌋ + 1 : ℤ) : ℝ) := by
          intro h
          have h1 : (q2 : ℝ) * s < ((⌊E⌋ + 1 : ℤ) : ℝ) * s := by
            rw [mul_comm ((⌊E⌋ + 1 : ℤ) : ℝ)]
            exact h
          exact lt_of_mul_lt_mul_right h1 (le_of_lt hS0)
        generalize (s : ℝ) * ((⌊E⌋ + 1 : ℤ) : ℝ) = a at hab hgap hsum hfin
        generalize hbb : 60 * Real.sqrt n = b at hab hgap hsum hb hb0 hEs
        have hd0 : 0 < a - b := by linarith
        have hprod : 1 ≤ (a - b) * (a + b) := by
          have : (a - b) * (a + b) = a ^ 2 - b ^ 2 := by ring
          linarith
        have hle : (a - b) * (a + b) ≤ (a - b) * 2 ^ 27 :=
          mul_le_mul_of_nonneg_left (by norm_num at hc1 ⊢; linarith) (le_of_lt hd0)
        have hd : 1 / 2 ^ 27 ≤ a - b := by
          rw [div_le_iff₀ (by norm_num)]
          linarith
        have h9 : b * (4 / 2 ^ 53) ≤ 2780460 * (4 / 2 ^ 53) :=
          mul_le_mul_of_nonneg_right hb (by norm_num)
        have h10 : (q2 : ℝ) * s ≤ E * (1 + 4 / 2 ^ 53) * s :=
          mul_le_mul_of_nonneg_right hhi (le_of_lt hS0)
        have h11 : E * (1 + 4 / 2 ^ 53) * s = b + b * (4 / 2 ^ 53) := by
          rw [← hEs]
          ring
        have h12 : (q2 : ℝ) * s < a := by
          norm_num at h9 hd
          linarith
        exact hfin h12
    have := Int.floor_lt.mpr hlt
    omega

theorem travel_mono (j k : ℕ) (s : ℤ) (h : j ≤ k) (hk : k < 2 ^ 31) (hs : 0 < s) :
    truncate (to_double (to_double (double_sqrt j / s) * 60))
      ≤ truncate (to_double (to_double (double_sqrt k / s) * 60)) := by
  have hb : k < 4 ^ 53 := lt_trans hk (by norm_num)
  have hsq : (0 : ℚ) < (s : ℚ) := by exact_mod_cast hs
  have d0 : (0 : ℚ) ≤ double_sqrt j / s := div_nonneg (double_sqrt_nonneg j) (le_of_lt hsq)
  have d1 : double_sqrt j / s ≤ double_sqrt k / s :=
    div_le_div_of_nonneg_right (double_sqrt_mono j k h hb) (le_of_lt hsq)
  have q0 : (0 : ℚ) ≤ to_double (double_sqrt j / s) * 60 :=
    mul_nonneg (to_double_nonneg _ d0) (by norm_num)
  have q1 : to_double (double_sqrt j / s) * 60 ≤ to_double (double_sqrt k / s) * 60 :=
    mul_le_mul_of_nonneg_right (to_double_mono _ _ d0 d1) (by norm_num)
  have r0 : (0 : ℚ) ≤ to_double (to_double (double_sqrt j / s) * 60) := to_double_nonneg _ q0
  have r1 := to_double_mono _ _ q0 q1
  unfold truncate
  rw [if_pos r0, if_pos (le_trans r0 r1)]
  exact Int.floor_le_floor r1

theorem calculate_delivery_time_eq (x y s : ℤ) (h : x * x + y * y < 2 ^ 31) (hs : s ≠ 0) :
    calculate_delivery_time x y s
      = some (truncate (to_double (to_double (double_sqrt (x * x + y * y).toNat / s) * 60))) := by
  unfold calculate_delivery_time
  rw [if_pos ⟨h, hs⟩]

theorem sum_squares_toNat (x y : ℤ) :
    (((x * x + y * y).toNat : ℕ) : ℝ) = (x : ℝ) * x + y * y := by
  have h : 0 ≤ x * x + y * y := add_nonneg (mul_self_nonneg x) (mul_self_nonneg y)
  have e : (((x * x + y * y).toNat : ℕ) : ℤ) = x * x + y * y := Int.toNat_of_nonneg h
  have e2 : ((((x * x + y * y).toNat : ℕ) : ℤ) : ℝ) = ((x * x + y * y : ℤ) : ℝ) := by rw [e]
  push_cast at e2
  exact e2

/-- C15, as stated, fails: for the destination (49, 0) and speed 3 the exact value
`60 * sqrt (49 * 49 + 0 * 0) / 3` is 980, but the `double` computation of lines 395-396
rounds `49 / 3` below its exact value, the product with 60 stays just below 980, and the
conversion to `int` gives 979. -/
theorem travel_time_below_exact :
    calculate_delivery_time 49 0 3 = some 979 ∧
      ⌊60 * Real.sqrt ((((49 : ℤ) : ℝ)) * ((49 : ℤ) : ℝ) + ((0 : ℤ) : ℝ) * ((0 : ℤ) : ℝ))
          / ((3 : ℤ) : ℝ)⌋ = 980 := by
  refine ⟨travel_time_49_0_3, ?_⟩
  have h : Real.sqrt ((((49 : ℤ) : ℝ)) * ((49 : ℤ) : ℝ) + ((0 : ℤ) : ℝ) * ((0 : ℤ) : ℝ)) = 49 := by
    have e : (((49 : ℤ) : ℝ)) * ((49 : ℤ) : ℝ) + ((0 : ℤ) : ℝ) * ((0 : ℤ) : ℝ)
        = (49 : ℝ) * 49 := by norm_num
    rw [e, Real.sqrt_mul_self (by norm_num)]
  rw [h, Int.floor_eq_iff]
  constructor <;> norm_num

/-- C15 (amended): for every destination (x, y) with `x * x + y * y` below `2 ^ 31` and every
speed above 0, `calculate_delivery_time` returns a value `t` that is the integer part of
`60 * sqrt (x * x + y * y) / speed` or exactly one below it (the `double` roundings of the
square root, the division and the multiplication can only push the value under an integer,
never over the next one); the result is non-decreasing in `x * x + y * y` for a fixed speed;
and with speed 1 the destinations (0,0), (3,4), (6,8) give 0, 300 and 600. -/
theorem travel_time_within_one (x y speed : ℤ) (hn : x * x + y * y < 2 ^ 31)
    (hs : 0 < speed) :
    ∃ t : ℤ, calculate_delivery_time x y speed = some t ∧
      ⌊60 * Real.sqrt ((x : ℝ) * x + y * y) / speed⌋ - 1 ≤ t ∧
      t ≤ ⌊60 * Real.sqrt ((x : ℝ) * x + y * y) / speed⌋ ∧
      (∀ u v : ℤ, x * x + y * y ≤ u * u + v * v → u * u + v * v < 2 ^ 31 →
        ∃ w : ℤ, calculate_delivery_time u v speed = some w ∧ t ≤ w) ∧
      calculate_delivery_time 0 0 1 = some 0 ∧
      calculate_delivery_time 3 4 1 = some 300 ∧
      calculate_delivery_time 6 8 1 = some 600 := by
  have hne : speed ≠ 0 := ne_of_gt hs
  have h0 : 0 ≤ x * x + y * y := add_nonneg (mul_self_nonneg x) (mul_self_nonneg y)
  have hN : (x * x + y * y).toNat < 2 ^ 31 := by
    have e : (((x * x + y * y).toNat : ℕ) : ℤ) = x * x + y * y := Int.toNat_of_nonneg h0
    have : (((x * x + y * y).toNat : ℕ) : ℤ) < 2 ^ 31 := by rw [e]; exact hn
    exact_mod_cast this
  obtain ⟨b1, b2⟩ := travel_floor_bounds (x * x + y * y).toNat speed hN hs
  rw [sum_squares_toNat] at b1 b2
  refine ⟨_, calculate_delivery_time_eq x y speed hn hne, b1, b2, ?_,
    travel_time_0_0_1, travel_time_3_4_1, travel_time_6_8_1⟩
  intro u v huv hu
  refine ⟨_, calculate_delivery_time_eq u v speed hu hne, ?_⟩
  have hU : (u * u + v * v).toNat < 2 ^ 31 := by
    have e : (((u * u + v * v).toNat : ℕ) : ℤ) = u * u + v * v :=
      Int.toNat_of_nonneg (le_trans h0 huv)
    have : (((u * u + v * v).toNat : ℕ) : ℤ) < 2 ^ 31 := by rw [e]; exact hu
    exact_mod_cast this
  exact travel_mono _ _ speed (Int.toNat_le_toNat huv) hU hs

theorem travel_time_within_one_witness :
    (7 : ℤ) * 7 + 24 * 24 < 2 ^ 31 ∧ (0 : ℤ) < 4 ∧
    ∃ t : ℤ, calculate_delivery_time 7 24 4 = some t ∧
      ⌊60 * Real.sqrt ((((7 : ℤ) : ℝ)) * ((7 : ℤ) : ℝ) + ((24 : ℤ) : ℝ) * ((24 : ℤ) : ℝ))
          / ((4 : ℤ) : ℝ)⌋ - 1 ≤ t ∧
      t ≤ ⌊60 * Real.sqrt ((((7 : ℤ) : ℝ)) * ((7 : ℤ) : ℝ) + ((24 : ℤ) : ℝ) * ((24 : ℤ) : ℝ))
          / ((4 : ℤ) : ℝ)⌋ ∧
      (∀ u v : ℤ, (7 : ℤ) * 7 + 24 * 24 ≤ u * u + v * v → u * u + v * v < 2 ^ 31 →
        ∃ w : ℤ, calculate_delivery_time u v 4 = some w ∧ t ≤ w) ∧
      calculate_delivery_time 0 0 1 = some 0 ∧
      calculate_delivery_time 3 4 1 = some 300 ∧
      calculate_delivery_time 6 8 1 = some 600 :=
  ⟨by norm_num, by norm_num, travel_time_within_one 7 24 4 (by norm_num) (by norm_num)⟩

end TravelTime

/-! ## The fill loop against a full delivery queue -/

section FullDeliveryQueue

theorem manager_delivery_fields (s : Shop) (socket : Int) (rx ry : Option Int) (now : Int) :
    (manager s socket rx ry now).delivery_queue = s.delivery_queue ∧
      (manager s socket rx ry now).delivery_queue_start = s.delivery_queue_start ∧
      (manager s socket rx ry now).delivery_queue_end = s.delivery_queue_end := by
  unfold manager
  rcases rx with _ | x <;> rcases ry with _ | y <;>
    first
      | exact ⟨rfl, rfl, rfl⟩
      | skip
  split_ifs <;> exact ⟨rfl, rfl, rfl⟩

/-- The effect of one round on a store whose queues have been drained by the cook so far:
the new order `n` ends with status 3 in slot `n` of the delivery queue, and the tail of the
delivery queue advances, wrapping to 0 after slot 999. -/
theorem cooked_round_effect (s : Shop) (c : Cook) (n : Nat)
    (h1 : s.order_count = n) (hn : n < MAX_ORDERS)
    (h2 : s.prep_queue_start = n) (h3 : s.prep_queue_end = n)
    (h4 : s.delivery_queue_end = n) (h6 : 0 < s.oven_sem) :
    (cooked_round (s, c) n).1.order_count = n + 1 ∧
      (cooked_round (s, c) n).1.prep_queue_start = (n + 1) % MAX_ORDERS ∧
      (cooked_round (s, c) n).1.prep_queue_end = (n + 1) % MAX_ORDERS ∧
      (cooked_round (s, c) n).1.delivery_queue_end = (n + 1) % MAX_ORDERS ∧
      (cooked_round (s, c) n).1.delivery_queue_start = s.delivery_queue_start ∧
      (cooked_round (s, c) n).1.oven_sem = s.oven_sem ∧
      (cooked_round (s, c) n).1.delivery_queue n = some n ∧
      ((cooked_round (s, c) n).1.orders n).status = 3 ∧
      (∀ j, j ≠ n → (cooked_round (s, c) n).1.delivery_queue j = s.delivery_queue j ∧
        (cooked_round (s, c) n).1.orders j = s.orders j) := by
  have hlt : s.order_count < MAX_ORDERS := by rw [h1]; exact hn
  obtain ⟨a1, _, _, a4, a5, _, a7, a8, a9⟩ :=
    manager_accept_fields s (n : Int) 0 0 0 hlt
  obtain ⟨b1, b2, b3⟩ := manager_delivery_fields s (n : Int) (some 0) (some 0) 0
  rw [h1] at a1 a4 a5
  rw [h3] at a5 a7
  rw [h2] at a8
  simp only [cooked_round]
  generalize manager s (n : Int) (some 0) (some 0) 0 = m at a1 a4 a5 a7 a8 a9 b1 b2 b3 ⊢
  have hne : m.prep_queue_start ≠ m.prep_queue_end := by
    rw [a7, a8]
    simp only [MAX_ORDERS] at *
    split_ifs <;> omega
  have hd : dequeue_preparation m
      = (some n, { m with prep_queue_start :=
          if m.prep_queue_start + 1 = MAX_ORDERS then 0 else m.prep_queue_start + 1 }) := by
    unfold dequeue_preparation
    rw [if_neg hne, a8, a5]
  have hov : 0 < (announce { m with prep_queue_start :=
      if m.prep_queue_start + 1 = MAX_ORDERS then 0 else m.prep_queue_start + 1 }
        n 1 c.id true).oven_sem := by
    rw [announce_oven_sem]
    show 0 < m.oven_sem
    rw [a9]
    exact h6
  rw [cook_iteration, cook_run_take _ _ _ _ _ _ _ _ _ hd, if_pos rfl,
    cook_run_wait_oven _ _ _ _ _ _ _ _ hov, cook_run_cook, if_pos rfl, cook_run_ready,
    if_pos rfl, cook_run_post]
  simp only [sem_post, enqueue_delivery, emit_orders, emit_delivery_queue, emit_order_count,
    emit_prep_queue_start, emit_prep_queue_end, emit_delivery_queue_start,
    emit_delivery_queue_end, emit_oven_sem, announce_prep_queue_start, announce_prep_queue_end,
    announce_delivery_queue, announce_delivery_queue_start, announce_delivery_queue_end,
    announce_order_count, announce_oven_sem]
  refine ⟨a1, ?_, ?_, ?_, b2, ?_, ?_, ?_, ?_⟩
  · rw [a8]
    simp only [MAX_ORDERS] at *
    split_ifs <;> omega
  · rw [a7]
    simp only [MAX_ORDERS] at *
    split_ifs <;> omega
  · rw [b3, h4]
    simp only [MAX_ORDERS] at *
    split_ifs <;> omega
  · rw [a9]
    have : 0 < s.oven_sem := h6
    omega
  · rw [b3, h4]
    simp
  · rw [announce_orders_self]
  · intro j hj
    constructor
    · rw [b3, h4, if_neg hj, b1]
    · rw [announce_orders_ne _ _ _ _ _ _ hj, announce_orders_ne _ _ _ _ _ _ hj]
      show (announce _ n 1 c.id true).orders j = s.orders j
      rw [announce_orders_ne _ _ _ _ _ _ hj]
      exact a4 j hj

/-- The store after `n <= MAX_ORDERS` rounds: the cook has drained the preparation queue,
the orders `0 .. n-1` sit in the slots `0 .. n-1` of the delivery queue with status 3, none of
them has been dequeued, and the tail of the delivery queue is `n` modulo `MAX_ORDERS`. -/
theorem after_rounds_state (n : Nat) (hn : n ≤ MAX_ORDERS) :
    (after_rounds n).1.order_count = n ∧
      (after_rounds n).1.prep_queue_start = n % MAX_ORDERS ∧
      (after_rounds n).1.prep_queue_end = n % MAX_ORDERS ∧
      (after_rounds n).1.delivery_queue_end = n % MAX_ORDERS ∧
      (after_rounds n).1.delivery_queue_start = 0 ∧
      (after_rounds n).1.oven_sem = MAX_OVEN_SIZE ∧
      ∀ i, i < n → (after_rounds n).1.delivery_queue i = some i ∧
        ((after_rounds n).1.orders i).status = 3 := by
  induction n with
  | zero =>
    refine ⟨rfl, rfl, rfl, rfl, rfl, rfl, ?_⟩
    intro i hi
    omega
  | succ n ih =>
    obtain ⟨h1, h2, h3, h4, h5, h6, h7⟩ := ih (by omega)
    have hlt : n < MAX_ORDERS := by omega
    have hmod : n % MAX_ORDERS = n := Nat.mod_eq_of_lt hlt
    rw [hmod] at h2 h3 h4
    have hstep : after_rounds (n + 1)
        = cooked_round ((after_rounds n).1, (after_rounds n).2) n := by
      simp [after_rounds, List.range_succ, List.foldl_append]
    obtain ⟨e1, e2, e3, e4, e5, e6, e7, e8, e9⟩ :=
      cooked_round_effect (after_rounds n).1 (after_rounds n).2 n h1 hlt h2 h3 h4
        (by rw [h6]; decide)
    rw [hstep]
    refine ⟨e1, e2, e3, e4, by rw [e5, h5], by rw [e6, h6], ?_⟩
    intro i hi
    by_cases hin : i = n
    · subst hin
      exact ⟨e7, e8⟩
    · obtain ⟨g1, g2⟩ := e9 i hin
      obtain ⟨g3, g4⟩ := h7 i (by omega)
      exact ⟨by rw [g1, g3], by rw [g2, g4]⟩

/-- C8 fails when the delivery queue is full. After `MAX_ORDERS` = 1000 rounds of intake
and cooking with no courier polling in between, 1000 orders are queued for delivery: every
slot `i` of the delivery queue points to order `i`, every order has status 3
(ReadyForDelivery) and none has been dequeued. The tail has wrapped onto the head
(`delivery_queue_start = delivery_queue_end = 0`), so for a courier with an empty bag the
condition of line 270 is false at once: for every outcome of the sends the fill loop returns
the state and the courier unchanged. It moves 0 orders, where min(3 - 0, 1000) = 3 are due.
One round earlier (999 queued orders) the same courier gets the orders 0, 1, 2 into
`bag[0..2]`. -/
theorem full_delivery_queue_moves_nothing (env : Nat → Bool × Bool) :
    (after_rounds MAX_ORDERS).1.order_count = MAX_ORDERS ∧
      (∀ i, i < MAX_ORDERS → (after_rounds MAX_ORDERS).1.delivery_queue i = some i ∧
        ((after_rounds MAX_ORDERS).1.orders i).status = 3) ∧
      (after_rounds MAX_ORDERS).1.delivery_queue_start = 0 ∧
      (after_rounds MAX_ORDERS).1.delivery_queue_end = 0 ∧
      courier0.bag_count = 0 ∧
      fill_bag env MAX_ORDERS (after_rounds MAX_ORDERS).1 courier0
        = Except.ok ((after_rounds MAX_ORDERS).1, courier0) ∧
      ∃ s' d', fill_bag env MAX_ORDERS (after_rounds 999).1 courier0 = Except.ok (s', d') ∧
        d'.bag_count = 3 ∧ d'.bag 0 = some 0 ∧ d'.bag 1 = some 1 ∧ d'.bag 2 = some 2 ∧
        s'.delivery_queue_start = 3 := by
  obtain ⟨h1, _, _, h4, h5, _, h7⟩ := after_rounds_state MAX_ORDERS (le_refl _)
  have h4' : (after_rounds MAX_ORDERS).1.delivery_queue_end = 0 := by rw [h4]; rfl
  refine ⟨h1, h7, h5, h4', rfl, ?_, ?_⟩
  · have hf : ∀ s : Shop, s.delivery_queue_start = 0 → s.delivery_queue_end = 0 →
        fill_bag env MAX_ORDERS s courier0 = Except.ok (s, courier0) := by
      intro s a b
      rw [show MAX_ORDERS = 999 + 1 from rfl, fill_bag, if_neg]
      rw [a, b]
      simp
    exact hf _ h5 h4'
  · obtain ⟨_, _, _, g4, g5, _, g7⟩ := after_rounds_state 999 (by decide)
    have g4' : (after_rounds 999).1.delivery_queue_end = 999 := by rw [g4]; rfl
    have hfa : fill_amount (after_rounds 999).1 courier0 = 3 := by
      simp [fill_amount, delivery_waiting, g4', g5, courier0, MAX_DELIVERY_BAG]
    obtain ⟨s', d', k1, k2, k3, _, k5, _, _⟩ :=
      fill_bag_spec MAX_ORDERS env (after_rounds 999).1 courier0
        (by rw [g5]; decide) (by rw [g4']; decide)
        (by
          intro j hj
          rw [hfa] at hj
          rw [g5, Nat.zero_add, Nat.mod_eq_of_lt (by simp only [MAX_ORDERS]; omega),
            (g7 j (by omega)).1]
          rfl)
        (by rw [hfa]; decide)
    rw [hfa] at k2 k3 k5
    rw [g5] at k3 k5
    have b0 := k3 0 (by omega)
    have b1 := k3 1 (by omega)
    have b2 := k3 2 (by omega)
    simp only [courier0, Nat.zero_add] at b0 b1 b2 k2
    rw [Nat.mod_eq_of_lt (by decide), (g7 _ (by omega)).1] at b0 b1 b2
    exact ⟨s', d', k1, k2, b0, b1, b2, by rw [k5]; rfl⟩

end FullDeliveryQueue

/-! ## The entries of `cancel_order` against the flags -/

section CancelEntries

theorem announce_cancel_entries (s : Shop) (i o : Nat) (st tid : Int) (ok : Bool) :
    (announce s i st tid ok).trace.count (Event.call_cancel o)
      = s.trace.count (Event.call_cancel o) := by
  simp only [announce, send_status, emit_trace, modify_order_trace, log_order_status_trace,
    log_lines]
  split_ifs <;> simp

theorem announce_flag (s : Shop) (i o : Nat) (st tid : Int) (ok : Bool) :
    ((announce s i st tid ok).orders o).canceled_flag = (s.orders o).canceled_flag := by
  by_cases h : o = i
  · subst h
    rw [announce_orders_self]
  · rw [announce_orders_ne _ _ _ _ _ _ h]

theorem flag_and_cancel_entries (s : Shop) (i o : Nat) (cok : Bool) :
    (flag_and_cancel s i cok).trace.count (Event.call_cancel o)
      = s.trace.count (Event.call_cancel o) + (if o = i then 1 else 0) := by
  by_cases h : o = i
  · subst h
    cases cok <;>
      simp [flag_and_cancel, cancel_order, send_status, log_lines]
  · have h2 : ¬ (i = o) := fun e => h e.symm
    cases cok <;>
      simp [flag_and_cancel, cancel_order, send_status, log_lines, h, h2]

theorem CancelOnce_announce (s : Shop) (i : Nat) (st tid : Int) (ok : Bool)
    (h : CancelOnce s) : CancelOnce (announce s i st tid ok) := by
  intro o
  rw [announce_flag, announce_cancel_entries, announce_order_count]
  exact h o

theorem CancelOnce_flag_and_cancel (s : Shop) (i : Nat) (cok : Bool) (h : CancelOnce s)
    (hf : (s.orders i).canceled_flag = 0) (hi : i < s.order_count) :
    CancelOnce (flag_and_cancel s i cok) := by
  intro o
  rw [flag_and_cancel_entries, flag_and_cancel_order_count]
  by_cases ho : o = i
  · subst ho
    right
    rcases h o with ⟨_, h2⟩ | ⟨h1, _, _⟩
    · exact ⟨(flag_and_cancel_status s o cok).2, by rw [h2]; simp, hi⟩
    · rw [hf] at h1
      exact absurd h1 (by decide)
  · rw [flag_and_cancel_orders_ne _ _ _ _ ho, if_neg ho, Nat.add_zero]
    exact h o

theorem CancelOnce_guarded (s : Shop) (i : Nat) (cok : Bool) (h : CancelOnce s)
    (hi : i < s.order_count) : CancelOnce (cancel_if_not_canceled s i cok) := by
  unfold cancel_if_not_canceled
  split_ifs with hf
  · exact CancelOnce_flag_and_cancel s i cok h hf hi
  · exact h

/-- The property depends on the orders, the trace and the order count only. -/
theorem CancelOnce_congr (s s' : Shop) (h : CancelOnce s) (ho : s'.orders = s.orders)
    (ht : ∀ o, s'.trace.count (Event.call_cancel o) = s.trace.count (Event.call_cancel o))
    (hc : s'.order_count = s.order_count) : CancelOnce s' := by
  intro o
  rw [ho, ht, hc]
  exact h o

theorem CancelOnce_manager (s : Shop) (socket : Int) (rx ry : Option Int) (now : Int)
    (h : CancelOnce s) : CancelOnce (manager s socket rx ry now) := by
  unfold manager
  rcases rx with _ | x <;> rcases ry with _ | y <;>
    first
      | exact CancelOnce_congr s _ h rfl (by intro o; simp) rfl
      | skip
  split_ifs with hlt
  · intro o
    simp only [enqueue_preparation, log_order_status_trace, modify_order_trace,
      modify_order_orders, log_order_status_orders, log_lines]
    by_cases ho : o = s.order_count
    · subst ho
      left
      rcases h s.order_count with ⟨_, h2⟩ | ⟨_, _, h3⟩
      · refine ⟨by simp, ?_⟩
        simpa using h2
      · omega
    · rcases h o with ⟨h1, h2⟩ | ⟨h1, h2, h3⟩
      · left
        refine ⟨by simpa [ho] using h1, ?_⟩
        simpa using h2
      · right
        refine ⟨by simpa [ho] using h1, by simpa using h2, ?_⟩
        show o < s.order_count + 1
        omega
  · exact CancelOnce_congr s _ h rfl (by intro o; simp) rfl

theorem CancelOnce_cook_take (s : Shop) (c : Cook) (ok cok : Bool) (h : CancelOnce s)
    (hq : QueueOk s) : CancelOnce (cook_take s c ok cok).1 := by
  unfold cook_take dequeue_preparation
  by_cases he : s.prep_queue_start = s.prep_queue_end
  · rw [if_pos he]
    exact h
  · rw [if_neg he]
    obtain ⟨hlt, hall⟩ := hq he
    obtain ⟨hslot, _, hflag⟩ := hall s.prep_queue_start (le_refl _) hlt
    rw [hslot]
    simp only
    have h1 : CancelOnce { s with prep_queue_start :=
        if s.prep_queue_start + 1 = MAX_ORDERS then 0 else s.prep_queue_start + 1 } :=
      CancelOnce_congr s _ h rfl (fun _ => rfl) rfl
    have h2 := CancelOnce_announce _ s.prep_queue_start 1 c.id ok h1
    cases ok
    · simp only [Bool.false_eq_true, if_false]
      apply CancelOnce_flag_and_cancel _ _ _ h2
      · rw [announce_flag]
        exact hflag
      · rw [announce_order_count]
        exact hlt
    · simp only [if_true]
      exact h2

theorem CancelOnce_cook_step (s : Shop) (c : Cook) (pc : CookPc) (ok cok : Bool)
    (h : CancelOnce s) (hq : QueueOk s) (ht : ThreadOk s pc)
    (r : Shop × Cook × CookPc) (hr : cook_step s c pc ok cok = some r) : CancelOnce r.1 := by
  cases pc with
  | take =>
    simp only [cook_step, Option.some.injEq] at hr
    rw [← hr]
    exact CancelOnce_cook_take s c ok cok h hq
  | wait_oven o =>
    simp only [cook_step, sem_wait] at hr
    split_ifs at hr with hs
    · simp only [Option.map_some', Option.some.injEq] at hr
      rw [← hr]
      exact CancelOnce_congr s _ h rfl (by intro o; simp) rfl
    · simp at hr
  | cook o =>
    simp only [cook_step, cook_cook, Option.some.injEq] at hr
    rw [← hr]
    have h2 := CancelOnce_announce s o 2 c.id ok h
    cases ok
    · simp only [Bool.false_eq_true, if_false]
      exact CancelOnce_guarded _ _ _ h2 (by rw [announce_order_count]; exact ht.1)
    · simp only [if_true]
      exact h2
  | ready o =>
    simp only [cook_step, cook_ready, Option.some.injEq] at hr
    rw [← hr]
    have h2 := CancelOnce_announce s o 3 c.id ok h
    cases ok
    · simp only [Bool.false_eq_true, if_false]
      exact CancelOnce_guarded _ _ _ h2 (by rw [announce_order_count]; exact ht.1)
    · simp only [if_true]
      exact CancelOnce_congr _ _ h2 rfl (fun _ => rfl) rfl
  | post =>
    simp only [cook_step, sem_post, Option.some.injEq] at hr
    rw [← hr]
    exact CancelOnce_congr s _ h rfl (by intro o; simp) rfl

theorem CancelOnce_step (k : Kitchen) (hinv : KitchenInv k) (h : CancelOnce k.shop)
    (a : Action) : CancelOnce (k.step a).shop := by
  cases a with
  | intake socket rx ry now => exact CancelOnce_manager k.shop socket rx ry now h
  | cook i ok cok =>
    simp only [Kitchen.step]
    rcases ht : k.cooks[i]? with _ | t
    · exact h
    · simp only
      rcases hr : cook_step k.shop t.cook t.pc ok cok with _ | r
      · exact h
      · exact CancelOnce_cook_step k.shop t.cook t.pc ok cok h hinv.queue_ok
          (hinv.thread_ok i t ht) r hr

end CancelEntries

/-! ## Cooks and couriers enter `cancel_order` at most once per order -/

section FloorCancelOnce

theorem notify_loop_frame (n : Nat) : ∀ s : Shop,
    ∃ l : List Event, (∀ e, e ∈ l → ∃ k, e = Event.close k) ∧
      (List.range n).foldl
        (fun acc i =>
          if (acc.orders i).client_socket ≠ -1 then
            acc.emit (Event.close (acc.orders i).client_socket)
          else acc) s = { s with trace := s.trace ++ l } := by
  induction n with
  | zero =>
    intro s
    exact ⟨[], by simp, by simp⟩
  | succ n ih =>
    intro s
    obtain ⟨l, hl, he⟩ := ih s
    rw [List.range_succ, List.foldl_append, he]
    simp only [List.foldl_cons, List.foldl_nil]
    split_ifs
    · refine ⟨l ++ [Event.close (s.orders n).client_socket], ?_, ?_⟩
      · intro e hm
        rcases List.mem_append.mp hm with h | h
        · exact hl e h
        · exact ⟨_, List.mem_singleton.mp h⟩
      · simp [Shop.emit, List.append_assoc]
    · exact ⟨l, hl, rfl⟩

theorem notify_frame (s : Shop) :
    ∃ l : List Event, (∀ o, l.count (Event.call_cancel o) = 0) ∧
      notify_clients_all_orders_completed s = { s with trace := s.trace ++ l } := by
  obtain ⟨l, hl, he⟩ := notify_loop_frame s.order_count (s.emit Event.call_notify)
  refine ⟨Event.call_notify :: l, ?_, ?_⟩
  · intro o
    rw [List.count_cons]
    simp only [beq_iff_eq, reduceCtorEq, if_false, Nat.add_zero]
    rw [List.count_eq_zero]
    intro hm
    obtain ⟨k, hk⟩ := hl _ hm
    exact Event.noConfusion hk
  · unfold notify_clients_all_orders_completed
    rw [he]
    simp [Shop.emit, List.append_assoc]

theorem OnlyHandedOver_via (s s1 s' : Shop) (h : OnlyHandedOver s1 s')
    (e1 : s1.order_count = s.order_count) (e2 : s1.prep_queue = s.prep_queue)
    (e3 : s1.prep_queue_start = s.prep_queue_start) (e4 : s1.prep_queue_end = s.prep_queue_end)
    (e5 : s1.oven_sem = s.oven_sem) (e6 : s1.delivery_queue = s.delivery_queue)
    (e7 : s1.orders = s.orders) : OnlyHandedOver s s' := by
  unfold OnlyHandedOver HandedOver at h ⊢
  rw [e1, e2, e3, e4, e5, e6, e7] at h
  exact h

theorem OnlyHandedOver_refl (s : Shop) : OnlyHandedOver s s :=
  ⟨rfl, rfl, rfl, rfl, rfl, rfl, fun _ => Or.inl rfl⟩

theorem HandedOver_of_only (s s' : Shop) (h : OnlyHandedOver s s') (o : Nat)
    (ho : HandedOver s o) : HandedOver s' o := by
  obtain ⟨h1, _, _, _, _, _, h7⟩ := h
  unfold HandedOver
  rw [h1]
  rcases h7 o with e | ⟨_, e⟩
  · rw [e]
    exact ho
  · exact ⟨ho.1, e⟩

/-- A stage of a courier on an order that was handed over: the announcement of the status
`st >= 3` and, when its send fails, the guarded cancellation. -/
theorem stage_only (s : Shop) (o : Nat) (st tid : Int) (ok cok : Bool) (h : HandedOver s o)
    (hst : 3 ≤ st) :
    OnlyHandedOver s
      (if ok = true then announce s o st tid ok
        else cancel_if_not_canceled (announce s o st tid ok) o cok) := by
  cases ok
  · simp only [Bool.false_eq_true, if_false]
    refine ⟨by simp, by simp, by simp, by simp, by simp, by simp, ?_⟩
    intro j
    by_cases hj : j = o
    · subst hj
      right
      refine ⟨h, ?_⟩
      by_cases hf : (s.orders j).canceled_flag = 0
      · rw [(failed_stage_status s j st tid cok).1 hf]
        decide
      · rw [(failed_stage_status s j st tid cok).2 hf]
        exact hst
    · left
      exact failed_stage_orders_ne s o j st tid cok hj
  · simp only [if_true]
    refine ⟨by simp, by simp, by simp, by simp, by simp, by simp, ?_⟩
    intro j
    by_cases hj : j = o
    · subst hj
      right
      refine ⟨h, ?_⟩
      rw [announce_orders_self]
      exact hst
    · left
      exact announce_orders_ne s o j st tid true hj

theorem stage_once (s : Shop) (o : Nat) (st tid : Int) (ok cok : Bool) (h : CancelOnce s)
    (ho : o < s.order_count) :
    CancelOnce
      (if ok = true then announce s o st tid ok
        else cancel_if_not_canceled (announce s o st tid ok) o cok) := by
  have h2 := CancelOnce_announce s o st tid ok h
  cases ok
  · simp only [Bool.false_eq_true, if_false]
    exact CancelOnce_guarded _ _ _ h2 (by rw [announce_order_count]; exact ho)
  · simp only [if_true]
    exact h2

theorem deliver_order_eq (s : Shop) (d : DeliveryPerson) (o : Nat) (ok cok : Bool) :
    ∃ (l : List Event) (n : Nat), (∀ p, l.count (Event.call_cancel p) = 0) ∧
      (deliver_order s d o ok cok).1
        = { (if ok = true then announce s o 5 d.id ok
              else cancel_if_not_canceled (announce s o 5 d.id ok) o cok) with
            delivered_count := n
            trace := (if ok = true then announce s o 5 d.id ok
              else cancel_if_not_canceled (announce s o 5 d.id ok) o cok).trace ++ l } := by
  unfold deliver_order
  cases ok
  · simp only [Bool.false_eq_true, if_false]
    refine ⟨[], (cancel_if_not_canceled (announce s o 5 d.id false) o cok).delivered_count,
      by simp, ?_⟩
    rw [List.append_nil]
  · simp only [if_true]
    split_ifs
    · obtain ⟨l, hl, he⟩ := notify_frame
        { announce s o 5 d.id true with
          delivered_count := (announce s o 5 d.id true).delivered_count + 1 }
      exact ⟨l, _, hl, he⟩
    · refine ⟨[], (announce s o 5 d.id true).delivered_count + 1, by simp, ?_⟩
      rw [List.append_nil]

theorem deliver_order_only (s : Shop) (d : DeliveryPerson) (o : Nat) (ok cok : Bool)
    (h : HandedOver s o) : OnlyHandedOver s (deliver_order s d o ok cok).1 := by
  obtain ⟨l, n, _, he⟩ := deliver_order_eq s d o ok cok
  have hx := stage_only s o 5 d.id ok cok h (by decide)
  generalize (if ok = true then announce s o 5 d.id ok
    else cancel_if_not_canceled (announce s o 5 d.id ok) o cok) = X at he hx
  rw [he]
  exact hx

theorem deliver_order_once (s : Shop) (d : DeliveryPerson) (o : Nat) (ok cok : Bool)
    (h : CancelOnce s) (ho : o < s.order_count) :
    CancelOnce (deliver_order s d o ok cok).1 := by
  obtain ⟨l, n, hl, he⟩ := deliver_order_eq s d o ok cok
  have hx := stage_once s o 5 d.id ok cok h ho
  generalize (if ok = true then announce s o 5 d.id ok
    else cancel_if_not_canceled (announce s o 5 d.id ok) o cok) = X at he hx
  rw [he]
  refine CancelOnce_congr X _ hx rfl ?_ rfl
  intro p
  show List.count (Event.call_cancel p) (X.trace ++ l) = _
  rw [List.count_append, hl p, Nat.add_zero]

theorem deliver_order_person (s : Shop) (d : DeliveryPerson) (o : Nat) (ok cok : Bool) :
    (deliver_order s d o ok cok).2.bag = d.bag ∧
      (deliver_order s d o ok cok).2.bag_count = d.bag_count := by
  unfold deliver_order
  cases ok <;> simp

/-- One pass of a courier whose queue and bag hold handed-over orders only. -/
theorem courier_step_spec (s : Shop) (d : DeliveryPerson) (pc : CourierPc) (ok cok : Bool)
    (h : CancelOnce s)
    (hq : ∀ k o, s.delivery_queue k = some o → HandedOver s o)
    (hb : ∀ k o, k < d.bag_count → d.bag k = some o → HandedOver s o) :
    OnlyHandedOver s (courier_step s d pc ok cok).1 ∧
      CancelOnce (courier_step s d pc ok cok).1 ∧
      ∀ k o, k < (courier_step s d pc ok cok).2.1.bag_count →
        (courier_step s d pc ok cok).2.1.bag k = some o → HandedOver s o := by
  cases pc with
  | fill =>
    simp only [courier_step]
    by_cases hc : d.bag_count < MAX_DELIVERY_BAG ∧ s.delivery_queue_start ≠ s.delivery_queue_end
    · rw [if_pos hc]
      obtain ⟨hlt, hne⟩ := hc
      simp only [dequeue_delivery, if_neg hne]
      have h1 : CancelOnce { s with delivery_queue_start :=
          if s.delivery_queue_start + 1 = MAX_ORDERS then 0
          else s.delivery_queue_start + 1 } :=
        CancelOnce_congr s _ h rfl (fun _ => rfl) rfl
      rcases hslot : s.delivery_queue s.delivery_queue_start with _ | o
      · simp only
        exact ⟨⟨rfl, rfl, rfl, rfl, rfl, rfl, fun _ => Or.inl rfl⟩, h1, hb⟩
      · simp only [bag_put, if_pos hlt]
        have ho := hq _ o hslot
        refine ⟨?_, ?_, ?_⟩
        · exact OnlyHandedOver_via s _ _
            (stage_only { s with delivery_queue_start :=
                if s.delivery_queue_start + 1 = MAX_ORDERS then 0
                else s.delivery_queue_start + 1 } o 4 d.id ok cok ho (by decide))
            rfl rfl rfl rfl rfl rfl rfl
        · exact stage_once _ o 4 d.id ok cok h1 ho.1
        · intro k p hk hp
          by_cases hkd : k = d.bag_count
          · rw [if_pos hkd] at hp
            rw [← Option.some.inj hp]
            exact ho
          · rw [if_neg hkd] at hp
            exact hb k p (by omega) hp
    · rw [if_neg hc]
      split_ifs
      · exact ⟨OnlyHandedOver_refl s, h, hb⟩
      · exact ⟨OnlyHandedOver_refl s, h, hb⟩
  | trip i =>
    simp only [courier_step]
    by_cases hi : i < d.bag_count
    · rw [if_pos hi]
      rcases hbag : d.bag i with _ | o
      · simp only
        exact ⟨OnlyHandedOver_refl s, h, hb⟩
      · simp only
        have ho := hb i o hi hbag
        obtain ⟨e1, e2⟩ := deliver_order_person s d o ok cok
        refine ⟨deliver_order_only s d o ok cok ho, deliver_order_once s d o ok cok h ho.1, ?_⟩
        intro k p hk hp
        rw [e2] at hk
        rw [e1] at hp
        exact hb k p hk hp
    · rw [if_neg hi]
      refine ⟨OnlyHandedOver_refl s, h, ?_⟩
      intro k p hk _
      simp only at hk
      omega

/-- A change that touches handed-over orders only keeps the invariant of the kitchen. -/
theorem inv_only (k : Kitchen) (hinv : KitchenInv k) (s' : Shop)
    (h : OnlyHandedOver k.shop s') : KitchenInv ⟨s', k.cooks⟩ := by
  obtain ⟨h1, h2, h3, h4, h5, _, h7⟩ := h
  have hlow : ∀ j, (k.shop.orders j).status < 3 → s'.orders j = k.shop.orders j := by
    intro j hj
    rcases h7 j with e | ⟨e, _⟩
    · exact e
    · have := e.2
      omega
  refine ⟨?_, ?_, ?_, ?_, hinv.distinct, ?_, ?_⟩
  · show s'.order_count ≤ MAX_ORDERS
    rw [h1]
    exact hinv.count_le
  · show s'.prep_queue_end = s'.order_count % MAX_ORDERS
    rw [h4, h1]
    exact hinv.queue_end
  · show QueueOk s'
    intro hdiff
    rw [h3, h4] at hdiff
    obtain ⟨a, b⟩ := hinv.queue_ok hdiff
    rw [h3, h1, h2]
    refine ⟨a, ?_⟩
    intro j hj1 hj2
    obtain ⟨c1, c2, c3⟩ := b j hj1 hj2
    rw [hlow j (by rw [c2]; decide)]
    exact ⟨c1, c2, c3⟩
  · intro i t ht
    have hok := hinv.thread_ok i t ht
    show ThreadOk s' t.pc
    cases hpc : t.pc with
    | take => trivial
    | post => trivial
    | wait_oven p =>
      rw [hpc] at hok
      simp only [ThreadOk] at hok ⊢
      rw [h1, hlow p (by rw [hok.2.1]; decide)]
      exact hok
    | cook p =>
      rw [hpc] at hok
      simp only [ThreadOk] at hok ⊢
      rw [h1, hlow p (by rw [hok.2.1]; decide)]
      exact hok
    | ready p =>
      rw [hpc] at hok
      simp only [ThreadOk] at hok ⊢
      rw [h1, hlow p (by rw [hok.2]; decide)]
      exact hok
  · show s'.oven_sem + k.cooks.countP (fun t => t.pc.holds_oven) = MAX_OVEN_SIZE
    rw [h5]
    exact hinv.oven
  · show cooking_count s' = k.cooks.countP (fun t => t.pc.is_ready)
    rw [← hinv.cooking]
    unfold cooking_count
    rw [h1]
    apply List.countP_congr
    intro j _
    rcases h7 j with e | ⟨e, e'⟩
    · rw [e]
    · have := e.2
      simp only [decide_eq_true_eq]
      constructor <;> intro hh <;> omega

/-- A change of one order that was not handed over keeps the handed-over orders. -/
theorem handed_frame (s s' : Shop) (o : Nat) (hoc : s.order_count ≤ s'.order_count)
    (hne : ∀ j, j ≠ o → s'.orders j = s.orders j)
    (hnot : (s.orders o).status < 3 ∨ s.order_count ≤ o) :
    ∀ j, HandedOver s j → HandedOver s' j := by
  intro j hj
  have hjo : j ≠ o := by
    intro e
    rw [e] at hj
    rcases hnot with h | h
    · have := hj.2
      omega
    · have := hj.1
      omega
  unfold HandedOver
  rw [hne j hjo]
  exact ⟨by have := hj.1; omega, hj.2⟩

theorem handed_same (s s' : Shop) (hoc : s'.order_count = s.order_count)
    (ho : s'.orders = s.orders) : ∀ j, HandedOver s j → HandedOver s' j := by
  intro j hj
  unfold HandedOver
  rw [hoc, ho]
  exact hj

theorem manager_handed (s : Shop) (socket : Int) (rx ry : Option Int) (now : Int) :
    ∀ j, HandedOver s j → HandedOver (manager s socket rx ry now) j := by
  by_cases hacc : (∃ x y, rx = some x ∧ ry = some y) ∧ s.order_count < MAX_ORDERS
  · obtain ⟨⟨x, y, hx, hy⟩, hlt⟩ := hacc
    subst hx hy
    obtain ⟨a1, _, _, a4, _⟩ := manager_accept_fields s socket x y now hlt
    exact handed_frame s _ s.order_count (by rw [a1]; omega) a4 (Or.inr (le_refl _))
  · have hrej : rx = none ∨ ry = none ∨ ¬ s.order_count < MAX_ORDERS := by
      rcases rx with _ | x
      · exact Or.inl rfl
      · rcases ry with _ | y
        · exact Or.inr (Or.inl rfl)
        · right
          right
          intro hlt
          exact hacc ⟨⟨x, y, rfl, rfl⟩, hlt⟩
    obtain ⟨b1, b2, _⟩ := manager_reject_fields s socket rx ry now hrej
    exact handed_same s _ b1 b2

theorem cook_step_handed (s : Shop) (c : Cook) (pc : CookPc) (ok cok : Bool)
    (hq : QueueOk s) (ht : ThreadOk s pc)
    (r : Shop × Cook × CookPc) (hr : cook_step s c pc ok cok = some r) :
    (∀ o, HandedOver s o → HandedOver r.1 o) ∧
      ∀ j o, r.1.delivery_queue j = some o →
        s.delivery_queue j = some o ∨ HandedOver r.1 o := by
  cases pc with
  | take =>
    simp only [cook_step, Option.some.injEq] at hr
    rw [← hr]
    simp only [cook_take, dequeue_preparation]
    by_cases he : s.prep_queue_start = s.prep_queue_end
    · rw [if_pos he]
      exact ⟨fun _ h => h, fun _ _ h => Or.inl h⟩
    · rw [if_neg he]
      obtain ⟨hlt, hall⟩ := hq he
      obtain ⟨hslot, hst, _⟩ := hall s.prep_queue_start (le_refl _) hlt
      rw [hslot]
      simp only
      cases ok
      · simp only [Bool.false_eq_true, if_false]
        refine ⟨?_, ?_⟩
        · apply handed_frame s _ s.prep_queue_start (by simp) _ (Or.inl (by rw [hst]; decide))
          intro j hj
          rw [flag_and_cancel_orders_ne _ _ _ _ hj, announce_orders_ne _ _ _ _ _ _ hj]
        · intro j o h
          left
          simpa using h
      · simp only [if_true]
        refine ⟨?_, ?_⟩
        · apply handed_frame s _ s.prep_queue_start (by simp) _ (Or.inl (by rw [hst]; decide))
          intro j hj
          rw [announce_orders_ne _ _ _ _ _ _ hj]
        · intro j o h
          left
          simpa using h
  | wait_oven o =>
    simp only [cook_step, sem_wait] at hr
    split_ifs at hr with hs
    · simp only [Option.map_some', Option.some.injEq] at hr
      rw [← hr]
      exact ⟨handed_same s _ rfl rfl, fun _ _ h => Or.inl h⟩
    · simp at hr
  | cook o =>
    simp only [cook_step, cook_cook, Option.some.injEq] at hr
    rw [← hr]
    have hst : (s.orders o).status < 3 := by rw [ht.2.1]; decide
    cases ok
    · simp only [Bool.false_eq_true, if_false]
      refine ⟨?_, ?_⟩
      · apply handed_frame s _ o (by simp) _ (Or.inl hst)
        intro j hj
        exact failed_stage_orders_ne s o j 2 c.id cok hj
      · intro j p h
        left
        simpa using h
    · simp only [if_true]
      refine ⟨?_, ?_⟩
      · apply handed_frame s _ o (by simp) _ (Or.inl hst)
        intro j hj
        rw [announce_orders_ne _ _ _ _ _ _ hj]
      · intro j p h
        left
        simpa using h
  | ready o =>
    simp only [cook_step, cook_ready, Option.some.injEq] at hr
    rw [← hr]
    have hst : (s.orders o).status < 3 := by rw [ht.2]; decide
    cases ok
    · simp only [Bool.false_eq_true, if_false]
      refine ⟨?_, ?_⟩
      · apply handed_frame s _ o (by simp) _ (Or.inl hst)
        intro j hj
        exact failed_stage_orders_ne s o j 3 c.id cok hj
      · intro j p h
        left
        simpa using h
    · simp only [if_true]
      refine ⟨?_, ?_⟩
      · apply handed_frame s _ o (by simp [enqueue_delivery]) _ (Or.inl hst)
        intro j hj
        show (announce s o 3 c.id true).orders j = s.orders j
        rw [announce_orders_ne _ _ _ _ _ _ hj]
      · intro j p h
        simp only [enqueue_delivery, announce_delivery_queue, announce_delivery_queue_end] at h
        by_cases hj : j = s.delivery_queue_end
        · rw [if_pos hj] at h
          right
          rw [← Option.some.inj h]
          refine ⟨?_, ?_⟩
          · show o < (announce s o 3 c.id true).order_count
            rw [announce_order_count]
            exact ht.1
          · show 3 ≤ ((announce s o 3 c.id true).orders o).status
            rw [announce_orders_self]
        · rw [if_neg hj] at h
          exact Or.inl h
  | post =>
    simp only [cook_step, sem_post, Option.some.injEq] at hr
    rw [← hr]
    exact ⟨handed_same s _ rfl rfl, fun _ _ h => Or.inl h⟩

theorem kitchen_step_handed (k : Kitchen) (hinv : KitchenInv k) (a : Action) :
    (∀ o, HandedOver k.shop o → HandedOver (k.step a).shop o) ∧
      ∀ j o, (k.step a).shop.delivery_queue j = some o →
        k.shop.delivery_queue j = some o ∨ HandedOver (k.step a).shop o := by
  cases a with
  | intake socket rx ry now =>
    refine ⟨manager_handed k.shop socket rx ry now, ?_⟩
    intro j o h
    left
    have := (manager_delivery_fields k.shop socket rx ry now).1
    simp only [Kitchen.step] at h
    rw [this] at h
    exact h
  | cook i ok cok =>
    simp only [Kitchen.step]
    rcases ht : k.cooks[i]? with _ | t
    · exact ⟨fun _ h => h, fun _ _ h => Or.inl h⟩
    · simp only
      rcases hr : cook_step k.shop t.cook t.pc ok cok with _ | r
      · exact ⟨fun _ h => h, fun _ _ h => Or.inl h⟩
      · exact cook_step_handed k.shop t.cook t.pc ok cok hinv.queue_ok
          (hinv.thread_ok i t ht) r hr

theorem floor_inv_step (f : Floor) (hinv : FloorInv f) (t : Turn) : FloorInv (f.step t) := by
  cases t with
  | kitchen a =>
    obtain ⟨hmono, hnew⟩ := kitchen_step_handed f.kitchen hinv.kitchen a
    refine ⟨inv_step f.kitchen hinv.kitchen a,
      CancelOnce_step f.kitchen hinv.kitchen hinv.once a, ?_, ?_⟩
    · intro k o h
      rcases hnew k o h with h1 | h1
      · exact hmono o (hinv.queue k o h1)
      · exact h1
    · intro i r hr k o hk ho
      exact hmono o (hinv.bags i r hr k o hk ho)
  | courier i ok cok =>
    simp only [Floor.step]
    rcases hr : f.riders[i]? with _ | r
    · exact hinv
    · simp only
      obtain ⟨h1, h2, h3⟩ := courier_step_spec f.kitchen.shop r.person r.pc ok cok hinv.once
        hinv.queue (hinv.bags i r hr)
      refine ⟨inv_only f.kitchen hinv.kitchen _ h1, h2, ?_, ?_⟩
      · intro k o h
        have e : (courier_step f.kitchen.shop r.person r.pc ok cok).1.delivery_queue
            = f.kitchen.shop.delivery_queue := h1.2.2.2.2.2.1
        exact HandedOver_of_only _ _ h1 o (hinv.queue k o (by rw [← e]; exact h))
      · intro j u hu k o hk ho
        rcases getElem?_set_cases _ _ _ _ _ hu with ⟨_, e⟩ | ⟨_, e⟩
        · rw [e] at hk ho
          exact HandedOver_of_only _ _ h1 o (h3 k o hk ho)
        · exact HandedOver_of_only _ _ h1 o (hinv.bags j u e k o hk ho)

theorem floor_inv_init (pool : List Cook) (staff : List DeliveryPerson) :
    FloorInv (Floor.init pool staff) := by
  refine ⟨inv_init pool, ?_, ?_, ?_⟩
  · intro o
    left
    exact ⟨rfl, rfl⟩
  · intro k o h
    exact Option.noConfusion h
  · intro i r hr k o hk _
    simp only [Floor.init, List.getElem?_map] at hr
    rcases hd : staff[i]? with _ | d
    · rw [hd] at hr
      exact Option.noConfusion hr
    · rw [hd] at hr
      simp only [Option.map_some', Option.some.injEq] at hr
      rw [← hr] at hk
      exact absurd hk (Nat.not_lt_zero k)

theorem floor_inv_run (turns : List Turn) :
    ∀ f : Floor, FloorInv f → FloorInv (f.run turns) := by
  induction turns with
  | nil => intro f h; exact h
  | cons t turns ih =>
    intro f h
    exact ih (f.step t) (floor_inv_step f h t)

/-- When every section between lock and unlock, every iteration of the fill loop and every
pass of the trip loop is executed without interruption, `cancel_order` is entered at most
once per order in every run of `manager`, the cooks and the couriers, for all outcomes of the
sends: it has been entered exactly once for the orders whose `canceled_flag` is 1 and never
for the others. The unguarded call of line 215 always meets a flag that is still 0, and a
later failed send on a canceled order (line 300, after a cancellation at line 280) skips
`cancel_order` through the guard. -/
theorem floor_cancel_once (pool : List Cook) (staff : List DeliveryPerson)
    (turns : List Turn) (o : Nat) :
    ((Floor.init pool staff).run turns).kitchen.shop.trace.count (Event.call_cancel o) ≤ 1 ∧
      (((Floor.init pool staff).run turns).kitchen.shop.trace.count (Event.call_cancel o) = 1 ↔
        (((Floor.init pool staff).run turns).kitchen.shop.orders o).canceled_flag = 1) := by
  have h := (floor_inv_run turns (Floor.init pool staff) (floor_inv_init pool staff)).once o
  rcases h with ⟨h1, h2⟩ | ⟨h1, h2, _⟩
  · rw [h1, h2]
    exact ⟨by omega, by constructor <;> intro h <;> exact absurd h (by decide)⟩
  · rw [h1, h2]
    exact ⟨le_refl _, by constructor <;> intro _ <;> rfl⟩

set_option maxRecDepth 100000 in
/-- A second cancellation attempt that the server reaches without a race: the order canceled
in the fill loop (line 280) is still in the bag, and when the send of 5 fails in the trip
loop the guard of line 300 finds `canceled_flag == 1` and skips `cancel_order`. The pass
writes the Delivered record and the send of 5, and nothing else. -/
theorem second_attempt_is_skipped :
    ((((Floor.init [cook0] [courier0]).run (canceled_in_bag.take 8)).kitchen.shop.orders 0).status
        = 6) ∧
      ((((Floor.init [cook0] [courier0]).run
          (canceled_in_bag.take 8)).kitchen.shop.orders 0).canceled_flag = 1) ∧
      ((Floor.init [cook0] [courier0]).run (canceled_in_bag.take 8)).kitchen.shop.trace.count
          (Event.call_cancel 0) = 1 ∧
      ((Floor.init [cook0] [courier0]).run canceled_in_bag).kitchen.shop.trace
        = ((Floor.init [cook0] [courier0]).run (canceled_in_bag.take 8)).kitchen.shop.trace
            ++ [Event.log 1 3 4 5 0 100, Event.send 7 5 false] := by
  decide

end FloorCancelOnce

/-! ## Two cancellations of one order -/

section DoubleCancel

/-- Executed without interruption, the guarded block of lines 226-230, 242-246, 277-281 and
300-304 is idempotent: it leaves `canceled_flag` different from 0, so a second execution does
nothing. -/
theorem guarded_cancel_idempotent (s : Shop) (i : Nat) (c1 c2 : Bool) :
    cancel_if_not_canceled (cancel_if_not_canceled s i c1) i c2
      = cancel_if_not_canceled s i c1 := by
  by_cases h : (s.orders i).canceled_flag = 0
  · have h1 : cancel_if_not_canceled s i c1 = flag_and_cancel s i c1 := by
      simp [cancel_if_not_canceled, h]
    rw [h1]
    have h2 := (flag_and_cancel_status s i c1).2
    simp [cancel_if_not_canceled, h2]
  · simp [cancel_if_not_canceled, h]

set_option maxRecDepth 100000 in
/-- The statements of one thread, executed alone, do what `fill_bag` does, with every send
succeeding and with every send failing. -/
theorem statements_agree_with_fill_bag :
    agrees_with_fill_bag true 22 ∧ agrees_with_fill_bag false 32 := by
  unfold agrees_with_fill_bag
  refine ⟨⟨?_, ?_, ?_⟩, ?_, ?_, ?_⟩ <;> decide

set_option maxRecDepth 100000 in
/-- C9 fails in `delivery_routine`, through the mutex released at line 282. Two orders wait
in the delivery queue. Courier 0 takes order 0 under the mutex, its send of 4 fails, it
cancels the order, unlocks (line 282) and continues its loop (line 283) without the mutex.
It reads `delivery_queue_start` (1) for its next dequeue; courier 1 locks the free mutex and
dequeues with the same index, so both obtain order 1 and put it into their bags. Both sends
of 4 fail and both threads find `canceled_flag == 0` at line 277 before either has set it.
Courier 0 then sets the flag and calls `cancel_order`: order 1 is canceled (status 6, flag 1,
one entry of `cancel_order` for it). Courier 1, still holding the mutex, sets the flag again
and is about to call `cancel_order` (line 280) on this already canceled order. That second
call is not a no-op: it writes a further Canceled record and sends code 6 again on the
connection, and when its send fails it closes the socket and overwrites `client_socket`
with -1. -/
theorem canceled_order_is_canceled_again :
    (two_couriers.run first_iteration_fails).mutex = none ∧
      (two_couriers.run first_iteration_fails).pc_of 0 = some FillPc.test ∧
      before_second_cancel.pc_of 0 = some FillPc.unlock ∧
      before_second_cancel.pc_of 1 = some (FillPc.cancel 1) ∧
      before_second_cancel.mutex = some 1 ∧
      (before_second_cancel.person_of 0).map (fun d => d.bag 1) = some (some 1) ∧
      (before_second_cancel.person_of 1).map (fun d => d.bag 0) = some (some 1) ∧
      (before_second_cancel.shop.orders 1).status = 6 ∧
      (before_second_cancel.shop.orders 1).canceled_flag = 1 ∧
      (before_second_cancel.shop.orders 1).client_socket = 1 ∧
      before_second_cancel.shop.trace.count (Event.call_cancel 1) = 1 ∧
      (fill_statement before_second_cancel 1 true).shop.trace
        = before_second_cancel.shop.trace
            ++ [Event.call_cancel 1, Event.log 2 0 0 6 (-1) 0, Event.send 1 6 true] ∧
      (fill_statement before_second_cancel 1 true).shop.trace.count (Event.call_cancel 1) = 2 ∧
      (fill_statement before_second_cancel 1 false).shop.trace
        = before_second_cancel.shop.trace
            ++ [Event.call_cancel 1, Event.log 2 0 0 6 (-1) 0, Event.send 1 6 false,
              Event.close 1] ∧
      ((fill_statement before_second_cancel 1 false).shop.orders 1).client_socket = -1 := by
  decide

end DoubleCancel

end PideShop
